import Mathlib

/-!
# wifi_visit_v5: two-state alternating process with absorption

A shallow embedding of `src/app/wifi_visit_v5.go`.

* `float64` values are embedded in exact arithmetic, as elements of an arbitrary
  linear ordered field `K`; every definition can be run at `K = ℚ` and is reasoned
  about at `K = ℝ` where limits are involved.  Division by zero is `0` in a field
  while Go gives `±Inf`/`NaN`, so a statement whose truth rests on the value of a
  quotient is made where its divisor is non-zero.
* Where a statement is about the float64 values themselves, every operation is the
  exact operation followed by `f64`, the rounding to the nearest float64 (`P01_f64`
  and its companions, the draws of `rand.Float64()` as `IsUnitF64`).
* Go `int` values are embedded as `ℤ`; the counts of one experiment grow by one per
  consumed draw, far from the 64-bit range.  `wifi_visit64` is `wifi_visit` with the
  64-bit wrap-around of `++` made explicit, for arbitrary initial counters.
* The global random source `rand.Float64()` is an infinite stream `draws : ℕ → K`
  together with the position `pos` of the next draw; every call returns
  `draws pos` and moves to `pos + 1`.
* Go maps are association lists with the zero value as default on lookup.
* The unbounded `for` loop of `wifi_visit` takes a fuel argument counting loop
  iterations; `none` means the loop did not finish within the fuel.
* Console output is embedded as the data that is printed.
-/

namespace WifiVisit

/-! ## Go maps -/

/-- A Go map: association list, at most one entry per key when built by `add`. -/
abbrev GoMap (κ ν : Type) := List (κ × ν)

namespace GoMap

variable {κ ν : Type} [DecidableEq κ]

/-- Lookup `m[x]`: the stored value, or the zero value when the key is absent. -/
def get [Zero ν] : GoMap κ ν → κ → ν
  | [], _ => 0
  | (k, v) :: m, x => if k = x then v else get m x

/-- Update `m[x] += d` (and `m[x]++` for `d = 1`): an absent key starts from zero. -/
def add [Zero ν] [Add ν] : GoMap κ ν → κ → ν → GoMap κ ν
  | [], x, d => [(x, 0 + d)]
  | (k, v) :: m, x, d => if k = x then (k, v + d) :: m else (k, v) :: add m x d

/-- The keys visited by `for k := range m`. -/
def keys (m : GoMap κ ν) : List κ := m.map Prod.fst

/-- The values stored in the map, one per entry. -/
def values (m : GoMap κ ν) : List ν := m.map Prod.snd

end GoMap

/-! ## Data model -/

/-- Source: `type TransitionCount map[string]int`. -/
abbrev TransitionCount := GoMap String Int

/-- Source: `type keyProbability struct { countName string; nCount int }`. -/
structure keyProbability where
  countName : String
  nCount : Int
  deriving DecidableEq, Repr

variable {K : Type} [LinearOrderedField K]

/-! ## Rate model (`main`, lines 22-29) -/

/-- Source: `ET0 := 1 / lambda0`. -/
def ET0 (lambda0 : K) : K := 1 / lambda0

/-- Source: `ET1 := 1 / lambda1`. -/
def ET1 (lambda1 : K) : K := 1 / lambda1

/-- Source: `ETmu := 1 / mu`. -/
def ETmu (mu : K) : K := 1 / mu

/-- Source: `P10 := mu / (lambda0 + mu)`. -/
def P10 (lambda0 mu : K) : K := mu / (lambda0 + mu)

/-- Source: `P01 := mu / (lambda1 + mu)`. -/
def P01 (lambda1 mu : K) : K := mu / (lambda1 + mu)

/-- Source: `P1T := lambda0 / (lambda0 + mu)`. -/
def P1T (lambda0 mu : K) : K := lambda0 / (lambda0 + mu)

/-- Source: `P0T := lambda1 / (lambda1 + mu)`. -/
def P0T (lambda1 mu : K) : K := lambda1 / (lambda1 + mu)

/-- Source: the four zeroed entries of `transitionCount` set up by `main` (lines 31-35). -/
def initialTransitionCount : TransitionCount :=
  [("P10", 0), ("P01", 0), ("P1T", 0), ("P0T", 0)]

/-! ## Path simulator -/

/-- Source: `initialstate` (lines 202-209).  Returns the state and the new position of
the random source. -/
def initialstate (draws : Nat → K) (pos : Nat) (ET0 ET1 : K) : Int × Nat :=
  let U := draws pos
  let P0 := ET0 / (ET0 + ET1)
  if U ≤ P0 then (0, pos + 1) else (1, pos + 1)

/-- What a call of `wifi_visit` leaves behind: its two return values, the mutated
counter map and the position of the random source. -/
structure VisitResult where
  countOfOnes : Int
  wifiVisit : List Int
  transitionCount : TransitionCount
  pos : Nat
  deriving DecidableEq, Repr

/-- Source: the `for { ... }` loop of `wifi_visit` (lines 227-250); one unit of fuel
per iteration.  A state other than 0 and 1 matches neither branch and the iteration
changes nothing. -/
def wifi_visit_loop (draws : Nat → K) (P10 P01 : K) :
    Nat → Int → Int → List Int → TransitionCount → Nat → Option VisitResult
  | 0, _, _, _, _, _ => none
  | fuel + 1, state, countOfOnes, wifiVisit, transitionCount, pos =>
    if state = 0 then
      let U := draws pos
      if U ≤ P01 then
        wifi_visit_loop draws P10 P01 fuel 1 (countOfOnes + 1) (wifiVisit ++ [1])
          (transitionCount.add "P01" 1) (pos + 1)
      else
        some ⟨countOfOnes, wifiVisit, transitionCount.add "P0T" 1, pos + 1⟩
    else if state = 1 then
      let U := draws pos
      if U ≤ P10 then
        wifi_visit_loop draws P10 P01 fuel 0 countOfOnes (wifiVisit ++ [0])
          (transitionCount.add "P10" 1) (pos + 1)
      else
        some ⟨countOfOnes, wifiVisit, transitionCount.add "P1T" 1, pos + 1⟩
    else
      wifi_visit_loop draws P10 P01 fuel state countOfOnes wifiVisit transitionCount pos

/-- Source: `wifi_visit` (lines 211-253).  `P1T` and `P0T` are received and not used,
as in the source. -/
def wifi_visit (fuel : Nat) (draws : Nat → K) (pos : Nat) (initial : Int)
    (P10 P01 _P1T _P0T : K) (transitionCount : TransitionCount) : Option VisitResult :=
  let state := initial
  let countOfOnes : Int := if state = 1 then 0 + 1 else 0
  wifi_visit_loop draws P10 P01 fuel state countOfOnes [state] transitionCount pos

/-! ## Analytical model (lines 255-278) -/

/-- Source: `case1`. -/
def case1 (lambda0 lambda1 mu : K) (n : Int) : K :=
  if n = 0 then 0
  else (lambda0 / (lambda1 + lambda0)) * (mu ^ 2 / ((lambda0 + mu) * (lambda1 + mu))) ^ (n - 1)
    * (lambda0 / (lambda0 + mu))

/-- Source: `case2`. -/
def case2 (lambda0 lambda1 mu : K) (n : Int) : K :=
  if n = 0 then 0
  else (lambda0 / (lambda1 + lambda0)) * (mu / (lambda0 + mu)) ^ n
    * (mu / (lambda1 + mu)) ^ (n - 1) * (lambda1 / (lambda1 + mu))

/-- Source: `case3`. -/
def case3 (lambda0 lambda1 mu : K) (n : Int) : K :=
  if n = 0 then 0
  else (lambda1 / (lambda1 + lambda0)) * (mu / (lambda1 + mu)) ^ n
    * (mu / (lambda0 + mu)) ^ (n - 1) * (lambda0 / (lambda0 + mu))

/-- Source: `case4`. -/
def case4 (lambda0 lambda1 mu : K) (n : Int) : K :=
  (lambda1 / (lambda1 + lambda0)) * (mu ^ 2 / ((lambda1 + mu) * (lambda0 + mu))) ^ n
    * (lambda1 / (lambda1 + mu))

/-! ## Experiment aggregator (`runSimulations`, lines 77-175) -/

/-- The mutable state of the trial loop of `runSimulations`: the two local histograms
`freq` and `wifi_visit_case`, the shared counter map and the random source. -/
structure SimState where
  freq : GoMap Int Int
  wifi_visit_case : GoMap keyProbability Int
  transitionCount : TransitionCount
  pos : Nat
  deriving DecidableEq, Repr

/-- Source: the `switch path[0]` statement (lines 89-102).  Indexing an empty path
would be a run-time panic, embedded as `none`. -/
def classify (wifi_visit_case : GoMap keyProbability Int) (countOfOnes : Int)
    (path : List Int) : Option (GoMap keyProbability Int) :=
  match path.head?, path.getLast? with
  | some first, some last =>
    if first = 1 then
      if last = 1 then
        some (wifi_visit_case.add ⟨"case1", countOfOnes⟩ 1)
      else
        some (wifi_visit_case.add ⟨"case2", countOfOnes⟩ 1)
    else if first = 0 then
      if last = 1 then
        some (wifi_visit_case.add ⟨"case3", countOfOnes⟩ 1)
      else
        some (wifi_visit_case.add ⟨"case4", countOfOnes⟩ 1)
    else
      some wifi_visit_case
  | _, _ => none

/-- Source: the body of `for i := 0; i < counter; i++` (lines 86-102). -/
def trial (fuel : Nat) (draws : Nat → K) (ET0 ET1 P10 P01 P1T P0T : K)
    (s : SimState) : Option SimState :=
  let initial := initialstate draws s.pos ET0 ET1
  match wifi_visit fuel draws initial.2 initial.1 P10 P01 P1T P0T s.transitionCount with
  | none => none
  | some r =>
    match classify s.wifi_visit_case r.countOfOnes r.wifiVisit with
    | none => none
    | some wvc => some ⟨s.freq.add r.countOfOnes 1, wvc, r.transitionCount, r.pos⟩

/-- Source: `for i := 0; i < counter; i++ { ... }` (line 85), with the number of
iterations still to run as argument. -/
def simLoop (fuel : Nat) (draws : Nat → K) (ET0 ET1 P10 P01 P1T P0T : K) :
    Nat → SimState → Option SimState
  | 0, s => some s
  | k + 1, s =>
    match trial fuel draws ET0 ET1 P10 P01 P1T P0T s with
    | none => none
    | some s1 => simLoop fuel draws ET0 ET1 P10 P01 P1T P0T k s1

/-- Source: `maxN := 0; for n := range freq { if n > maxN { maxN = n } }` (lines 105-110). -/
def maxKey (freq : GoMap Int Int) : Int :=
  freq.keys.foldl (fun maxN n => if n > maxN then n else maxN) 0

/-- The values of `n` visited by `for n := 0; n <= maxN; n++`. -/
def nRange (maxN : Int) : List Int := (List.range (maxN + 1).toNat).map Int.ofNat

/-- The text of the `%error` column: `ratio e` stands for `e` printed with format
`%.4f%%`, `unbounded` for `">100% (sim=0)"` and `zero` for `"0.00%"`. -/
inductive PercentError (K : Type) where
  | ratio (percentError : K)
  | unbounded
  | zero
  deriving DecidableEq, Repr

/-- Source: the constant `1e-10` of the comparisons in lines 139, 142, 161 and 164.
Compared with a `float64` it is the float64 nearest to 10⁻¹⁰, whose exact value is
`7737125245533627 / 2^86`. -/
def float1eMinus10 : K := 7737125245533627 / 2 ^ 86

/-- Source: the `percentErrorStr` computation, written twice in `runSimulations`
(lines 138-146 for the per-case rows, lines 160-168 for the per-n sums) with the same
text up to the names of the two variables. -/
def percentErrorStr (analysis simulation : K) : PercentError K :=
  if simulation > float1eMinus10 then
    PercentError.ratio (|simulation - analysis| / simulation * 100)
  else if analysis > float1eMinus10 then
    PercentError.unbounded
  else
    PercentError.zero

/-- One printed line `n, analysis, simulation, percentErrorStr` of a table; `table` is
the case name, or `"sum"` for the table of sums. -/
structure Row (K : Type) where
  table : String
  n : Int
  analysis : K
  simulation : K
  percentErrorStr : PercentError K
  deriving DecidableEq, Repr

/-- The state of the reporting loops: the two maps of sums and the lines printed so far. -/
structure Report (K : Type) where
  analysisSum : GoMap Int K
  simulationSum : GoMap Int K
  rows : List (Row K)

/-- Source: the slice `cases` (lines 112-120); the name is a keyword of Lean. -/
def caseTable : List (String × (K → K → K → Int → K)) :=
  [("case1", case1), ("case2", case2), ("case3", case3), ("case4", case4)]

/-- Source: the body of the inner loop over `n` (lines 131-148). -/
def reportRow (lambda0 lambda1 mu : K) (counter : Int)
    (wifi_visit_case : GoMap keyProbability Int) (c : String × (K → K → K → Int → K))
    (acc : Report K) (n : Int) : Report K :=
  let analysis := c.2 lambda0 lambda1 mu n
  let key : keyProbability := ⟨c.1, n⟩
  let simulation : K := ((wifi_visit_case.get key : Int) : K) / ((counter : Int) : K)
  { analysisSum := acc.analysisSum.add n analysis
    simulationSum := acc.simulationSum.add n simulation
    rows := acc.rows ++ [⟨c.1, n, analysis, simulation, percentErrorStr analysis simulation⟩] }

/-- Source: `for _, c := range cases { for n := 0; n <= maxN; n++ { ... } }`
(lines 125-150), starting from empty `analysisSum` and `simulationSum`. -/
def reportCases (lambda0 lambda1 mu : K) (counter : Int)
    (wifi_visit_case : GoMap keyProbability Int) (maxN : Int) : Report K :=
  caseTable.foldl
    (fun acc c => (nRange maxN).foldl (reportRow lambda0 lambda1 mu counter wifi_visit_case c) acc)
    ⟨[], [], []⟩

/-- Source: the table "SUM OF ALL CASES FOR EACH n1" (lines 156-171). -/
def sumRows (rep : Report K) (maxN : Int) : List (Row K) :=
  (nRange maxN).map fun n =>
    let analysisTotal := rep.analysisSum.get n
    let simulationTotal := rep.simulationSum.get n
    ⟨"sum", n, analysisTotal, simulationTotal, percentErrorStr analysisTotal simulationTotal⟩

/-- Everything `runSimulations` produces: the returned `freq`, the local
`wifi_visit_case`, the mutated counters, the random source, and the printed numbers. -/
structure SimResult (K : Type) where
  freq : GoMap Int Int
  wifi_visit_case : GoMap keyProbability Int
  transitionCount : TransitionCount
  pos : Nat
  analysisSum : GoMap Int K
  simulationSum : GoMap Int K
  caseRows : List (Row K)
  sumRows : List (Row K)

/-- Source: `runSimulations` (lines 77-175).  `fuel` bounds the loop of each call of
`wifi_visit`. -/
def runSimulations (fuel : Nat) (draws : Nat → K) (pos : Nat) (counter : Int)
    (ET0 ET1 P10 P01 P1T P0T lambda0 lambda1 mu : K)
    (transitionCount : TransitionCount) : Option (SimResult K) :=
  match simLoop fuel draws ET0 ET1 P10 P01 P1T P0T counter.toNat
      ⟨[], [], transitionCount, pos⟩ with
  | none => none
  | some s =>
    let maxN := maxKey s.freq
    let rep := reportCases lambda0 lambda1 mu counter s.wifi_visit_case maxN
    some ⟨s.freq, s.wifi_visit_case, s.transitionCount, s.pos,
      rep.analysisSum, rep.simulationSum, rep.rows, sumRows rep maxN⟩

/-! ## Alternating paths -/

/-- The alternating sequence of `L` states that starts with `s`: `s, 1 - s, s, ...`. -/
def altPath (s : Int) : Nat → List Int
  | 0 => []
  | L + 1 => s :: altPath (1 - s) L

/-! ## The case table of the specification -/

/-- The case of a path by its (start, end) pair as the specification tabulates it:
(1,1) is case1, (1,0) is case2, (0,1) is case3, (0,0) is case4; no case otherwise. -/
def caseOf (first last : Int) : Option String :=
  if first = 1 ∧ last = 1 then some "case1"
  else if first = 1 ∧ last = 0 then some "case2"
  else if first = 0 ∧ last = 1 then some "case3"
  else if first = 0 ∧ last = 0 then some "case4"
  else none

/-! ## Probability of a path under the simulator's rules

These definitions follow the wording of the specification (the weight of a path of the
embedded jump chain); they are compared with `case1` ... `case4`, which come from the
source. -/

/-- A path alternates: its elements are in {0,1} and consecutive elements differ. -/
def IsAlternating (p : List Int) : Prop :=
  (∀ x ∈ p, x = 0 ∨ x = 1) ∧ List.Chain' (fun a b => a ≠ b) p

/-- An alternating path with the given start state, end state and number of ones. -/
def IsCasePath (first last : Int) (n : Nat) (p : List Int) : Prop :=
  IsAlternating p ∧ p.head? = some first ∧ p.getLast? = some last ∧ p.count 1 = n

/-- Weight of the start state, as `initialstate` draws it: `P0 = ET0/(ET0+ET1)` for
state 0 and `1 - P0` for state 1. -/
def startProb (ET0 ET1 : K) (s : Int) : K :=
  if s = 0 then ET0 / (ET0 + ET1) else if s = 1 then 1 - ET0 / (ET0 + ET1) else 0

/-- Weight of one step: `P01` for 0 to 1, `P10` for 1 to 0; no other step is taken. -/
def stepProb (P10 P01 : K) (a b : Int) : K :=
  if a = 0 ∧ b = 1 then P01 else if a = 1 ∧ b = 0 then P10 else 0

/-- Product of the weights of the steps along a path. -/
def stepsProb (P10 P01 : K) : List Int → K
  | a :: b :: rest => stepProb P10 P01 a b * stepsProb P10 P01 (b :: rest)
  | _ => 1

/-- Weight of the absorption that ends the path: `P0T` from state 0, `P1T` from state 1. -/
def absorbProb (P1T P0T : K) (last : Int) : K :=
  if last = 0 then P0T else if last = 1 then P1T else 0

/-- Probability of a path: start weight, times the step weights, times the absorption
weight of its last state. -/
def pathProb (ET0 ET1 P10 P01 P1T P0T : K) (path : List Int) : K :=
  match path.head?, path.getLast? with
  | some first, some last =>
    startProb ET0 ET1 first * stepsProb P10 P01 path * absorbProb P1T P0T last
  | _, _ => 0

/-! ## Invariant of the trial loop -/

/-- What the trial loop keeps: per `n`, the four case entries add up to `freq[n]`, and
all keys of `freq` are non-negative. -/
def HistInv (s : SimState) : Prop :=
  (∀ n : Int, s.wifi_visit_case.get ⟨"case1", n⟩ + s.wifi_visit_case.get ⟨"case2", n⟩
      + s.wifi_visit_case.get ⟨"case3", n⟩ + s.wifi_visit_case.get ⟨"case4", n⟩
    = s.freq.get n) ∧
  ∀ n ∈ s.freq.keys, (0 : Int) ≤ n

/-! ## Printed values -/

/-- The number shown by the format `%.4f` used for the derived probabilities
(lines 41-44): the nearest multiple of `1/10000`. -/
def round4 (x : ℚ) : ℚ := round (x * 10000) / 10000

/-! ## float64 arithmetic

The values of Go's `float64` are embedded as the rationals they denote, and every
float64 operation as the exact operation followed by `f64`. -/

/-- Rounding of a rational to the nearest integer, halves to the even neighbour. -/
def roundHalfEven (q : ℚ) : Int :=
  if q - ⌊q⌋ < 1 / 2 then ⌊q⌋
  else if 1 / 2 < q - ⌊q⌋ then ⌊q⌋ + 1
  else if ⌊q⌋ % 2 = 0 then ⌊q⌋ else ⌊q⌋ + 1

/-- The binary exponent at which `x` is rounded: `floor(log2 |x|)`, and `-1022` for
the subnormal range below `2^-1022`. -/
def f64Exponent (x : ℚ) : Int := max (Int.log 2 |x|) (-1022)

/-- The float64 that holds the exact result `x`: IEEE 754 binary64, round to nearest,
ties to even, 53 significant bits, subnormals below `2^-1022`.  A result of magnitude
`2^1024` or more is an infinity in Go and has no value here; the statements made with
`f64` keep their operands below that. -/
def f64 (x : ℚ) : ℚ :=
  (roundHalfEven (x / 2 ^ (f64Exponent x - 52)) : ℚ) * 2 ^ (f64Exponent x - 52)

/-- The value is a float64: rounding leaves it as it is. -/
def IsF64 (x : ℚ) : Prop := f64 x = x

/-- Source: `P10 := mu / (lambda0 + mu)` with the float64 operations of Go. -/
def P10_f64 (lambda0 mu : ℚ) : ℚ := f64 (mu / f64 (lambda0 + mu))

/-- Source: `P01 := mu / (lambda1 + mu)` with the float64 operations of Go. -/
def P01_f64 (lambda1 mu : ℚ) : ℚ := f64 (mu / f64 (lambda1 + mu))

/-- Source: `P1T := lambda0 / (lambda0 + mu)` with the float64 operations of Go. -/
def P1T_f64 (lambda0 mu : ℚ) : ℚ := f64 (lambda0 / f64 (lambda0 + mu))

/-- Source: `P0T := lambda1 / (lambda1 + mu)` with the float64 operations of Go. -/
def P0T_f64 (lambda1 mu : ℚ) : ℚ := f64 (lambda1 / f64 (lambda1 + mu))

/-- Source: `lambda0 := math.Pow(200, -1)`, the float64 nearest to 1/200. -/
def mainLambda0 : ℚ := f64 (1 / 200)

/-- Source: `lambda1 := math.Pow(400, -1)`, the float64 nearest to 1/400. -/
def mainLambda1 : ℚ := f64 (1 / 400)

/-- Source: `mu := math.Pow(250, -1)`, the float64 nearest to 1/250. -/
def mainMu : ℚ := f64 (1 / 250)

/-- A value that `rand.Float64()` can return: a float64 in the half-open interval
from 0 to 1. -/
def IsUnitF64 (u : ℚ) : Prop := 0 ≤ u ∧ u < 1 ∧ IsF64 u


/-! ## 64-bit counters

Go's `int` is 64 bits wide on the platforms the program is built for and `++` wraps
around.  `wifi_visit64` is `wifi_visit` with that width made explicit. -/

/-- The value of a 64-bit `int` that receives the exact result `x` (two's complement). -/
def wrap64 (x : Int) : Int := (x + 2 ^ 63) % 2 ^ 64 - 2 ^ 63

/-- The statement `m[x]++` on a map of 64-bit `int` values: an absent key starts
from zero. -/
def GoMap.incr64 {κ : Type} [DecidableEq κ] : GoMap κ Int → κ → GoMap κ Int
  | [], x => [(x, wrap64 (0 + 1))]
  | (k, v) :: m, x => if k = x then (k, wrap64 (v + 1)) :: m else (k, v) :: GoMap.incr64 m x

/-- Source: the `for { ... }` loop of `wifi_visit` (lines 227-250) with 64-bit `int`
arithmetic; one unit of fuel per iteration. -/
def wifi_visit_loop64 (draws : Nat → K) (P10 P01 : K) :
    Nat → Int → Int → List Int → TransitionCount → Nat → Option VisitResult
  | 0, _, _, _, _, _ => none
  | fuel + 1, state, countOfOnes, wifiVisit, transitionCount, pos =>
    if state = 0 then
      let U := draws pos
      if U ≤ P01 then
        wifi_visit_loop64 draws P10 P01 fuel 1 (wrap64 (countOfOnes + 1)) (wifiVisit ++ [1])
          (transitionCount.incr64 "P01") (pos + 1)
      else
        some ⟨countOfOnes, wifiVisit, transitionCount.incr64 "P0T", pos + 1⟩
    else if state = 1 then
      let U := draws pos
      if U ≤ P10 then
        wifi_visit_loop64 draws P10 P01 fuel 0 countOfOnes (wifiVisit ++ [0])
          (transitionCount.incr64 "P10") (pos + 1)
      else
        some ⟨countOfOnes, wifiVisit, transitionCount.incr64 "P1T", pos + 1⟩
    else
      wifi_visit_loop64 draws P10 P01 fuel state countOfOnes wifiVisit transitionCount pos

/-- Source: `wifi_visit` (lines 211-253) with 64-bit `int` arithmetic. -/
def wifi_visit64 (fuel : Nat) (draws : Nat → K) (pos : Nat) (initial : Int)
    (P10 P01 _P1T _P0T : K) (transitionCount : TransitionCount) : Option VisitResult :=
  let state := initial
  let countOfOnes : Int := if state = 1 then wrap64 (0 + 1) else 0
  wifi_visit_loop64 draws P10 P01 fuel state countOfOnes [state] transitionCount pos


/-! ## Lemmas on maps -/

theorem GoMap.get_add {κ ν : Type} [DecidableEq κ] [AddZeroClass ν]
    (m : GoMap κ ν) (x y : κ) (d : ν) :
    (m.add x d).get y = if x = y then m.get x + d else m.get y := by
  induction m with
  | nil => simp [GoMap.add, GoMap.get]
  | cons e m ih =>
    obtain ⟨k, v⟩ := e
    by_cases hk : k = x
    · subst hk
      by_cases hy : k = y <;> simp [GoMap.add, GoMap.get, hy]
    · by_cases hy : x = y
      · subst hy
        simp [GoMap.add, GoMap.get, hk, ih]
      · by_cases hky : k = y
        · subst hky
          simp [GoMap.add, GoMap.get, hk, hy]
        · simp [GoMap.add, GoMap.get, hk, hy, hky, ih]

/-! ## Lemmas on alternating paths -/

theorem altPath_length (s : Int) (L : Nat) : (altPath s L).length = L := by
  induction L generalizing s with
  | zero => rfl
  | succ L ih => simp [altPath, ih]

theorem altPath_mem (L : Nat) : ∀ s : Int, (s = 0 ∨ s = 1) →
    ∀ x ∈ altPath s L, x = 0 ∨ x = 1 := by
  induction L with
  | zero => intro s _ x hx; simp [altPath] at hx
  | succ L ih =>
    intro s hs x hx
    simp only [altPath, List.mem_cons] at hx
    rcases hx with rfl | hx
    · exact hs
    · refine ih (1 - s) ?_ x hx
      rcases hs with rfl | rfl <;> simp

theorem altPath_count_add (L : Nat) : ∀ s : Int, (s = 0 ∨ s = 1) →
    (altPath s L).count 0 + (altPath s L).count 1 = L := by
  induction L with
  | zero => intro s _; simp [altPath]
  | succ L ih =>
    intro s hs
    have h1 : (1 - s = 0 ∨ 1 - s = 1) := by rcases hs with rfl | rfl <;> simp
    have := ih (1 - s) h1
    rcases hs with rfl | rfl
    · simp [altPath, List.count_cons] at this ⊢; omega
    · simp [altPath, List.count_cons] at this ⊢; omega

theorem altPath_getLast_mem (L : Nat) : ∀ s : Int, (s = 0 ∨ s = 1) →
    (s :: altPath (1 - s) L).getLast? = some 0 ∨ (s :: altPath (1 - s) L).getLast? = some 1 := by
  induction L with
  | zero => intro s hs; rcases hs with rfl | rfl <;> simp [altPath]
  | succ L ih =>
    intro s hs
    have h1 : (1 - s = 0 ∨ 1 - s = 1) := by rcases hs with rfl | rfl <;> simp
    simpa [altPath, List.getLast?_cons_cons] using ih (1 - s) h1

/-! ## The loop of `wifi_visit` -/

/-- A finished loop started in state 0 or 1 has appended an alternating run of `m`
states, consumed `m + 1` draws and counted every event once. -/
theorem wifi_visit_loop_spec (draws : Nat → K) (P10 P01 : K) :
    ∀ (fuel : Nat) (state c : Int) (path : List Int) (tc : TransitionCount) (pos : Nat)
      (r : VisitResult), (state = 0 ∨ state = 1) →
      wifi_visit_loop draws P10 P01 fuel state c path tc pos = some r →
      ∃ m : Nat, m < fuel ∧ r.wifiVisit = path ++ altPath (1 - state) m ∧
        r.countOfOnes = c + (altPath (1 - state) m).count 1 ∧
        r.pos = pos + m + 1 ∧
        ∀ key : String, r.transitionCount.get key = tc.get key
          + (if "P01" = key then ((altPath (1 - state) m).count 1 : Int) else 0)
          + (if "P10" = key then ((altPath (1 - state) m).count 0 : Int) else 0)
          + (if "P0T" = key ∧ (state :: altPath (1 - state) m).getLast? = some 0 then 1 else 0)
          + (if "P1T" = key ∧ (state :: altPath (1 - state) m).getLast? = some 1 then 1 else 0) := by
  intro fuel
  induction fuel with
  | zero => intro state c path tc pos r _ h; simp [wifi_visit_loop] at h
  | succ fuel ih =>
    intro state c path tc pos r hs h
    rcases hs with rfl | rfl
    · by_cases hU : draws pos ≤ P01
      · simp only [wifi_visit_loop, if_true, hU] at h
        obtain ⟨m, hm, hp, hc, hpos, htc⟩ := ih 1 (c + 1) (path ++ [1])
          (tc.add "P01" 1) (pos + 1) r (Or.inr rfl) h
        refine ⟨m + 1, by omega, ?_, ?_, by omega, ?_⟩
        · simpa [altPath] using hp
        · simp [altPath, hc]; ring
        · intro key
          rw [htc key, GoMap.get_add]
          by_cases h1 : "P01" = key
          · subst h1; simp [altPath, List.getLast?_cons_cons]; ring
          · simp [altPath, List.getLast?_cons_cons, h1]
      · simp only [wifi_visit_loop, if_true, hU, if_false, Option.some.injEq] at h
        subst h
        refine ⟨0, by omega, by simp [altPath], by simp [altPath], by simp, ?_⟩
        intro key
        rw [GoMap.get_add]
        by_cases h1 : "P0T" = key
        · subst h1; simp [altPath]
        · simp [altPath, h1]
    · by_cases hU : draws pos ≤ P10
      · simp only [wifi_visit_loop, one_ne_zero, if_false, if_true, hU] at h
        obtain ⟨m, hm, hp, hc, hpos, htc⟩ := ih 0 c (path ++ [0])
          (tc.add "P10" 1) (pos + 1) r (Or.inl rfl) h
        refine ⟨m + 1, by omega, ?_, ?_, by omega, ?_⟩
        · simpa [altPath] using hp
        · simp [altPath, hc]
        · intro key
          rw [htc key, GoMap.get_add]
          by_cases h1 : "P10" = key
          · subst h1; simp [altPath, List.getLast?_cons_cons]; ring
          · simp [altPath, List.getLast?_cons_cons, h1]
      · simp only [wifi_visit_loop, one_ne_zero, if_false, if_true, hU, Option.some.injEq] at h
        subst h
        refine ⟨0, by omega, by simp [altPath], by simp [altPath], by simp, ?_⟩
        intro key
        rw [GoMap.get_add]
        by_cases h1 : "P1T" = key
        · subst h1; simp [altPath]
        · simp [altPath, h1]

/-- The result of `wifi_visit` from start state 0 or 1, in terms of the number `m` of
transitions made before absorption. -/
theorem wifi_visit_spec (fuel : Nat) (draws : Nat → K) (pos : Nat) (s : Int)
    (P10 P01 P1T P0T : K) (tc : TransitionCount) (r : VisitResult) (hs : s = 0 ∨ s = 1)
    (h : wifi_visit fuel draws pos s P10 P01 P1T P0T tc = some r) :
    ∃ m : Nat, m < fuel ∧ r.wifiVisit = s :: altPath (1 - s) m ∧
      r.countOfOnes = (if s = 1 then 1 else 0) + (altPath (1 - s) m).count 1 ∧
      r.pos = pos + m + 1 ∧
      ∀ key : String, r.transitionCount.get key = tc.get key
        + (if "P01" = key then ((altPath (1 - s) m).count 1 : Int) else 0)
        + (if "P10" = key then ((altPath (1 - s) m).count 0 : Int) else 0)
        + (if "P0T" = key ∧ (s :: altPath (1 - s) m).getLast? = some 0 then 1 else 0)
        + (if "P1T" = key ∧ (s :: altPath (1 - s) m).getLast? = some 1 then 1 else 0) := by
  obtain ⟨m, hm, hp, hc, hpos, htc⟩ :=
    wifi_visit_loop_spec draws P10 P01 fuel s _ [s] tc pos r hs h
  exact ⟨m, hm, by simpa using hp, by simpa using hc, hpos, htc⟩

/-! ## Claims on the path simulator -/

/-- C3: for a start state in {0,1}, whenever `wifi_visit` returns (for any draws and
any amount of fuel), the returned path has length at least 1, its first element is the
start state, and the returned `countOfOnes` is the number of elements of the path equal
to 1. -/
theorem wifi_visit_path_shape (fuel : Nat) (draws : Nat → K) (pos : Nat) (s : Int)
    (P10 P01 P1T P0T : K) (tc : TransitionCount) (r : VisitResult) (hs : s = 0 ∨ s = 1)
    (h : wifi_visit fuel draws pos s P10 P01 P1T P0T tc = some r) :
    1 ≤ r.wifiVisit.length ∧ r.wifiVisit.head? = some s ∧
      r.countOfOnes = (r.wifiVisit.count 1 : Nat) := by
  obtain ⟨m, -, hp, hc, -, -⟩ := wifi_visit_spec fuel draws pos s P10 P01 P1T P0T tc r hs h
  refine ⟨by simp [hp], by simp [hp], ?_⟩
  rw [hc, hp]
  rcases hs with rfl | rfl
  · simp [List.count_cons]
  · simp [List.count_cons]; ring

/-- Witness of C3: start state 1, draws 1/5 then 9/10 with thresholds 4/9 and 8/13; the
run returns the path [1, 0] with one visit to state 1. -/
theorem wifi_visit_path_shape_witness :
    wifi_visit 3 (fun i => if i = 0 then (1 / 5 : ℚ) else 9 / 10) 0 1 (4 / 9) (8 / 13)
        (5 / 9) (5 / 13) initialTransitionCount
      = some ⟨1, [1, 0], [("P10", 1), ("P01", 0), ("P1T", 0), ("P0T", 1)], 2⟩ ∧
    (1 ≤ ([1, 0] : List Int).length ∧ ([1, 0] : List Int).head? = some 1 ∧
      (1 : Int) = (([1, 0] : List Int).count 1 : Nat)) :=
  have h : wifi_visit 3 (fun i => if i = 0 then (1 / 5 : ℚ) else 9 / 10) 0 1 (4 / 9) (8 / 13)
        (5 / 9) (5 / 13) initialTransitionCount
      = some ⟨1, [1, 0], [("P10", 1), ("P01", 0), ("P1T", 0), ("P0T", 1)], 2⟩ := by
    simp [wifi_visit, wifi_visit_loop, GoMap.add, initialTransitionCount]
    norm_num
  ⟨h, wifi_visit_path_shape 3 _ 0 1 (4 / 9) (8 / 13) (5 / 9) (5 / 13) initialTransitionCount
    _ (Or.inr rfl) h⟩

/-! ## Counters of 64 bits -/

theorem wrap64_of_range (x : Int) (h1 : -2 ^ 63 ≤ x) (h2 : x ≤ 2 ^ 63 - 1) : wrap64 x = x := by
  unfold wrap64
  rw [Int.emod_eq_of_lt (by omega) (by omega)]
  ring

theorem iterate_wrap64 (n : Nat) (v : Int) (h1 : -2 ^ 63 ≤ v) (h2 : v + n ≤ 2 ^ 63 - 1) :
    (fun x => wrap64 (x + 1))^[n] v = v + n := by
  induction n with
  | zero => simp
  | succ n ih =>
    rw [Function.iterate_succ_apply', ih (by push_cast at h2; omega)]
    push_cast at h2 ⊢
    rw [wrap64_of_range _ (by omega) (by omega)]
    ring

theorem GoMap.get_incr64 {κ : Type} [DecidableEq κ] (m : GoMap κ Int) (x y : κ) :
    (m.incr64 x).get y = if x = y then wrap64 (m.get x + 1) else m.get y := by
  induction m with
  | nil => simp [GoMap.incr64, GoMap.get]
  | cons e m ih =>
    obtain ⟨k, v⟩ := e
    by_cases hk : k = x
    · subst hk
      by_cases hy : k = y <;> simp [GoMap.incr64, GoMap.get, hy]
    · by_cases hy : x = y
      · subst hy
        simp [GoMap.incr64, GoMap.get, hk, ih]
      · by_cases hky : k = y
        · subst hky
          simp [GoMap.incr64, GoMap.get, hk, hy]
        · simp [GoMap.incr64, GoMap.get, hk, hy, hky, ih]

/-- A finished loop with 64-bit counters: the appended states alternate, and every
counter has been incremented, with wrap-around, once per event. -/
theorem wifi_visit_loop64_spec (draws : Nat → K) (P10 P01 : K) :
    ∀ (fuel : Nat) (state c : Int) (path : List Int) (tc : TransitionCount) (pos : Nat)
      (r : VisitResult), (state = 0 ∨ state = 1) →
      wifi_visit_loop64 draws P10 P01 fuel state c path tc pos = some r →
      ∃ m : Nat, r.wifiVisit = path ++ altPath (1 - state) m ∧
        ∀ key : String, r.transitionCount.get key =
          (fun x => wrap64 (x + 1))^[
            (if "P01" = key then (altPath (1 - state) m).count 1 else 0)
            + (if "P10" = key then (altPath (1 - state) m).count 0 else 0)
            + (if "P0T" = key ∧ (state :: altPath (1 - state) m).getLast? = some 0
                then 1 else 0)
            + (if "P1T" = key ∧ (state :: altPath (1 - state) m).getLast? = some 1
                then 1 else 0)] (tc.get key) := by
  intro fuel
  induction fuel with
  | zero => intro state c path tc pos r _ h; simp [wifi_visit_loop64] at h
  | succ fuel ih =>
    intro state c path tc pos r hs h
    rcases hs with rfl | rfl
    · by_cases hU : draws pos ≤ P01
      · simp only [wifi_visit_loop64, if_true, hU] at h
        obtain ⟨m, hp, htc⟩ := ih 1 _ (path ++ [1]) (tc.incr64 "P01") (pos + 1) r
          (Or.inr rfl) h
        refine ⟨m + 1, by simpa [altPath] using hp, ?_⟩
        intro key
        rw [htc key, GoMap.get_incr64]
        by_cases h1 : "P01" = key
        · subst h1
          simp [altPath, List.getLast?_cons_cons, Function.iterate_succ_apply]
        · simp [altPath, List.getLast?_cons_cons, h1]
      · simp only [wifi_visit_loop64, if_true, hU, if_false, Option.some.injEq] at h
        subst h
        refine ⟨0, by simp [altPath], ?_⟩
        intro key
        rw [GoMap.get_incr64]
        by_cases h1 : "P0T" = key
        · subst h1; simp [altPath]
        · simp [altPath, h1]
    · by_cases hU : draws pos ≤ P10
      · simp only [wifi_visit_loop64, one_ne_zero, if_false, if_true, hU] at h
        obtain ⟨m, hp, htc⟩ := ih 0 _ (path ++ [0]) (tc.incr64 "P10") (pos + 1) r
          (Or.inl rfl) h
        refine ⟨m + 1, by simpa [altPath] using hp, ?_⟩
        intro key
        rw [htc key, GoMap.get_incr64]
        by_cases h1 : "P10" = key
        · subst h1
          simp [altPath, List.getLast?_cons_cons, Function.iterate_succ_apply]
        · simp [altPath, List.getLast?_cons_cons, h1]
      · simp only [wifi_visit_loop64, one_ne_zero, if_false, if_true, hU,
          Option.some.injEq] at h
        subst h
        refine ⟨0, by simp [altPath], ?_⟩
        intro key
        rw [GoMap.get_incr64]
        by_cases h1 : "P1T" = key
        · subst h1; simp [altPath]
        · simp [altPath, h1]

/-- The 64-bit width changes counts only: `wifi_visit_loop64` and `wifi_visit_loop`
return the same path after the same number of draws. -/
theorem wifi_visit_loop64_path (draws : Nat → K) (P10 P01 : K) :
    ∀ (fuel : Nat) (state c c2 : Int) (path : List Int) (tc tc2 : TransitionCount) (pos : Nat)
      (r : VisitResult), wifi_visit_loop64 draws P10 P01 fuel state c path tc pos = some r →
      ∃ r2, wifi_visit_loop draws P10 P01 fuel state c2 path tc2 pos = some r2 ∧
        r2.wifiVisit = r.wifiVisit ∧ r2.pos = r.pos := by
  intro fuel
  induction fuel with
  | zero => intro state c c2 path tc tc2 pos r h; simp [wifi_visit_loop64] at h
  | succ fuel ih =>
    intro state c c2 path tc tc2 pos r h
    rw [wifi_visit_loop64] at h
    rw [wifi_visit_loop]
    by_cases h0 : state = 0
    · simp only [h0, if_true] at h ⊢
      by_cases hU : draws pos ≤ P01
      · simp only [hU, if_true] at h ⊢
        exact ih _ _ _ _ _ _ _ _ h
      · simp only [hU, if_false, Option.some.injEq] at h ⊢
        subst h
        exact ⟨_, rfl, rfl, rfl⟩
    · by_cases h1 : state = 1
      · simp only [h1, one_ne_zero, if_false, if_true] at h ⊢
        by_cases hU : draws pos ≤ P10
        · simp only [hU, if_true] at h ⊢
          exact ih _ _ _ _ _ _ _ _ h
        · simp only [hU, if_false, Option.some.injEq] at h ⊢
          subst h
          exact ⟨_, rfl, rfl, rfl⟩
      · simp only [h0, h1, if_false] at h ⊢
        exact ih _ _ _ _ _ _ _ _ h

theorem wifi_visit64_path (fuel : Nat) (draws : Nat → K) (pos : Nat) (s : Int)
    (P10 P01 P1T P0T : K) (tc : TransitionCount) (r : VisitResult)
    (h : wifi_visit64 fuel draws pos s P10 P01 P1T P0T tc = some r) :
    ∃ r2, wifi_visit fuel draws pos s P10 P01 P1T P0T tc = some r2 ∧
      r2.wifiVisit = r.wifiVisit ∧ r2.pos = r.pos :=
  wifi_visit_loop64_path draws P10 P01 fuel s _ _ [s] tc tc pos r h

/-- C8 fails on the code for a counter at the top of the 64-bit range: from start
state 0 with `P0T = 2^63 - 1` and a first draw 9/10 above `P01 = 8/13`, the call
returns the path [0] and leaves `P0T = -2^63`, which is lower than before and not the
old value plus 1. -/
theorem wifi_visit64_counter_wraps :
    wifi_visit64 1 (fun _ => (9 / 10 : ℚ)) 0 0 (4 / 9) (8 / 13) (5 / 9) (5 / 13)
        [("P0T", 9223372036854775807)]
      = some ⟨0, [0], [("P0T", -9223372036854775808)], 1⟩ ∧
    GoMap.get [("P0T", (-9223372036854775808 : Int))] "P0T"
      < GoMap.get [("P0T", (9223372036854775807 : Int))] "P0T" ∧
    GoMap.get [("P0T", (-9223372036854775808 : Int))] "P0T"
      ≠ GoMap.get [("P0T", (9223372036854775807 : Int))] "P0T" + 1 := by
  refine ⟨?_, ?_, ?_⟩
  · simp [wifi_visit64, wifi_visit_loop64, GoMap.incr64, wrap64]
    norm_num
  · simp [GoMap.get]
  · simp [GoMap.get]

/-- C8 (as the code behaves): for a start state in {0,1}, counters that hold 64-bit
values and draws on which `wifi_visit` returns, provided no incremented counter
overflows (`P01` plus the number of steps 0 to 1, `P10` plus the number of steps
1 to 0, and the absorption counter that is incremented, stay at most `2^63 - 1`): no
counter is lower afterwards; exactly one of `P0T`, `P1T` has grown, by exactly 1, and
it is `P0T` exactly when the last element of the path is 0 and `P1T` exactly when it is
1; and the growth of `P01` plus the growth of `P10` is `len(path) - 1`. -/
theorem wifi_visit64_counters (fuel : Nat) (draws : Nat → K) (pos : Nat) (s : Int)
    (P10 P01 P1T P0T : K) (tc : TransitionCount) (r : VisitResult) (hs : s = 0 ∨ s = 1)
    (h : wifi_visit64 fuel draws pos s P10 P01 P1T P0T tc = some r)
    (hrange : ∀ key : String, -2 ^ 63 ≤ tc.get key ∧ tc.get key ≤ 2 ^ 63 - 1)
    (h01 : tc.get "P01" + (r.wifiVisit.tail.count 1 : Nat) ≤ 2 ^ 63 - 1)
    (h10 : tc.get "P10" + (r.wifiVisit.tail.count 0 : Nat) ≤ 2 ^ 63 - 1)
    (h0T : r.wifiVisit.getLast? = some 0 → tc.get "P0T" < 2 ^ 63 - 1)
    (h1T : r.wifiVisit.getLast? = some 1 → tc.get "P1T" < 2 ^ 63 - 1) :
    (∀ key : String, tc.get key ≤ r.transitionCount.get key) ∧
    ((r.wifiVisit.getLast? = some 0 ∧ r.transitionCount.get "P0T" = tc.get "P0T" + 1 ∧
        r.transitionCount.get "P1T" = tc.get "P1T") ∨
      (r.wifiVisit.getLast? = some 1 ∧ r.transitionCount.get "P1T" = tc.get "P1T" + 1 ∧
        r.transitionCount.get "P0T" = tc.get "P0T")) ∧
    (r.transitionCount.get "P01" - tc.get "P01") + (r.transitionCount.get "P10" - tc.get "P10")
      = (r.wifiVisit.length : Int) - 1 := by
  obtain ⟨m, hp, htc⟩ := wifi_visit_loop64_spec draws P10 P01 fuel s _ [s] tc pos r hs h
  have hp' : r.wifiVisit = s :: altPath (1 - s) m := by simpa using hp
  have hlast := altPath_getLast_mem m s hs
  have hcount := altPath_count_add m (1 - s) (by rcases hs with rfl | rfl <;> simp)
  rw [hp'] at h01 h10 h0T h1T
  simp only [List.tail_cons] at h01 h10
  have e01 : r.transitionCount.get "P01" = tc.get "P01" + ((altPath (1 - s) m).count 1 : Nat) := by
    rw [htc "P01"]
    simpa using iterate_wrap64 _ _ (hrange "P01").1 h01
  have e10 : r.transitionCount.get "P10" = tc.get "P10" + ((altPath (1 - s) m).count 0 : Nat) := by
    rw [htc "P10"]
    simpa using iterate_wrap64 _ _ (hrange "P10").1 h10
  have e0T : r.transitionCount.get "P0T" = tc.get "P0T"
      + (if (s :: altPath (1 - s) m).getLast? = some 0 then 1 else 0) := by
    rw [htc "P0T"]
    by_cases hl : (s :: altPath (1 - s) m).getLast? = some 0
    · have := iterate_wrap64 1 _ (hrange "P0T").1 (by have := h0T hl; push_cast; omega)
      simpa [hl] using this
    · simp [hl]
  have e1T : r.transitionCount.get "P1T" = tc.get "P1T"
      + (if (s :: altPath (1 - s) m).getLast? = some 1 then 1 else 0) := by
    rw [htc "P1T"]
    by_cases hl : (s :: altPath (1 - s) m).getLast? = some 1
    · have := iterate_wrap64 1 _ (hrange "P1T").1 (by have := h1T hl; push_cast; omega)
      simpa [hl] using this
    · simp [hl]
  refine ⟨?_, ?_, ?_⟩
  · intro key
    by_cases k1 : "P01" = key
    · subst k1; rw [e01]; omega
    · by_cases k2 : "P10" = key
      · subst k2; rw [e10]; omega
      · by_cases k3 : "P0T" = key
        · subst k3; rw [e0T]; split_ifs <;> omega
        · by_cases k4 : "P1T" = key
          · subst k4; rw [e1T]; split_ifs <;> omega
          · rw [htc key]
            simp [k1, k2, k3, k4]
  · rw [e0T, e1T, hp']
    rcases hlast with h0 | h1
    · left; simp [h0]
    · right; simp [h1]
  · rw [e01, e10, hp']
    simp [altPath_length]
    omega

/-- Witness of C8 (as the code behaves): start state 1, draws 1/5 then 9/10, from the
zeroed counters of `main`. -/
theorem wifi_visit64_counters_witness :
    wifi_visit64 3 (fun i => if i = 0 then (1 / 5 : ℚ) else 9 / 10) 0 1 (4 / 9) (8 / 13)
        (5 / 9) (5 / 13) initialTransitionCount
      = some ⟨1, [1, 0], [("P10", 1), ("P01", 0), ("P1T", 0), ("P0T", 1)], 2⟩ ∧
    (∀ key : String, -2 ^ 63 ≤ initialTransitionCount.get key ∧
      initialTransitionCount.get key ≤ 2 ^ 63 - 1) ∧
    ((∀ key : String, initialTransitionCount.get key
        ≤ GoMap.get [("P10", (1 : Int)), ("P01", 0), ("P1T", 0), ("P0T", 1)] key) ∧
    ((([1, 0] : List Int).getLast? = some 0 ∧
        GoMap.get [("P10", (1 : Int)), ("P01", 0), ("P1T", 0), ("P0T", 1)] "P0T"
          = initialTransitionCount.get "P0T" + 1 ∧
        GoMap.get [("P10", (1 : Int)), ("P01", 0), ("P1T", 0), ("P0T", 1)] "P1T"
          = initialTransitionCount.get "P1T") ∨
      (([1, 0] : List Int).getLast? = some 1 ∧
        GoMap.get [("P10", (1 : Int)), ("P01", 0), ("P1T", 0), ("P0T", 1)] "P1T"
          = initialTransitionCount.get "P1T" + 1 ∧
        GoMap.get [("P10", (1 : Int)), ("P01", 0), ("P1T", 0), ("P0T", 1)] "P0T"
          = initialTransitionCount.get "P0T")) ∧
    (GoMap.get [("P10", (1 : Int)), ("P01", 0), ("P1T", 0), ("P0T", 1)] "P01"
        - initialTransitionCount.get "P01")
      + (GoMap.get [("P10", (1 : Int)), ("P01", 0), ("P1T", 0), ("P0T", 1)] "P10"
        - initialTransitionCount.get "P10")
      = (([1, 0] : List Int).length : Int) - 1) := by
  have h : wifi_visit64 3 (fun i => if i = 0 then (1 / 5 : ℚ) else 9 / 10) 0 1 (4 / 9)
        (8 / 13) (5 / 9) (5 / 13) initialTransitionCount
      = some ⟨1, [1, 0], [("P10", 1), ("P01", 0), ("P1T", 0), ("P0T", 1)], 2⟩ := by
    simp [wifi_visit64, wifi_visit_loop64, GoMap.incr64, wrap64, initialTransitionCount]
    norm_num
  have hz : ∀ key : String, initialTransitionCount.get key = 0 := by
    intro key
    simp only [initialTransitionCount, GoMap.get]
    split_ifs <;> rfl
  have hrange : ∀ key : String, -2 ^ 63 ≤ initialTransitionCount.get key ∧
      initialTransitionCount.get key ≤ 2 ^ 63 - 1 := by
    intro key
    rw [hz key]
    constructor <;> norm_num
  exact ⟨h, hrange, wifi_visit64_counters 3 _ 0 1 (4 / 9) (8 / 13) (5 / 9) (5 / 13)
    initialTransitionCount _ (Or.inr rfl) h hrange (by rw [hz]; simp) (by rw [hz]; simp)
    (by intro _; rw [hz]; norm_num) (by intro _; rw [hz]; norm_num)⟩

/-! ## The trial loop of `runSimulations` -/

theorem initialstate_spec (draws : Nat → K) (pos : Nat) (ET0 ET1 : K) :
    ((initialstate draws pos ET0 ET1).1 = 0 ∨ (initialstate draws pos ET0 ET1).1 = 1) ∧
      (initialstate draws pos ET0 ET1).2 = pos + 1 := by
  unfold initialstate
  by_cases h : draws pos ≤ ET0 / (ET0 + ET1) <;> simp [h]

/-- One trial: the start state is 0 or 1, the path ends in 0 or 1, and the new state
of the loop is the old one with `freq` and one case entry incremented. -/
theorem trial_spec (fuel : Nat) (draws : Nat → K) (ET0 ET1 P10 P01 P1T P0T : K)
    (s s1 : SimState) (h : trial fuel draws ET0 ET1 P10 P01 P1T P0T s = some s1) :
    ∃ (r : VisitResult) (first last : Int) (name : String),
      (first = 0 ∨ first = 1) ∧
      wifi_visit fuel draws (s.pos + 1) first P10 P01 P1T P0T s.transitionCount = some r ∧
      r.wifiVisit.head? = some first ∧ r.wifiVisit.getLast? = some last ∧
      caseOf first last = some name ∧
      name ∈ ["case1", "case2", "case3", "case4"] ∧
      s1 = ⟨s.freq.add r.countOfOnes 1, s.wifi_visit_case.add ⟨name, r.countOfOnes⟩ 1,
        r.transitionCount, r.pos⟩ := by
  obtain ⟨h0, hpos⟩ := initialstate_spec draws s.pos ET0 ET1
  unfold trial at h
  simp only [hpos] at h
  generalize (initialstate draws s.pos ET0 ET1).1 = first at h h0
  cases hr : wifi_visit fuel draws (s.pos + 1) first P10 P01 P1T P0T s.transitionCount with
  | none => simp [hr] at h
  | some r =>
    obtain ⟨m, -, hp, -, -, -⟩ :=
      wifi_visit_spec fuel draws (s.pos + 1) first P10 P01 P1T P0T s.transitionCount r h0 hr
    have hlast := altPath_getLast_mem m first h0
    rw [← hp] at hlast
    have hhead : r.wifiVisit.head? = some first := by simp [hp]
    simp only [hr] at h
    rcases h0 with rfl | rfl <;> rcases hlast with hl | hl
    · refine ⟨r, 0, 0, "case4", Or.inl rfl, hr, hhead, hl, by simp [caseOf], by simp, ?_⟩
      simpa [classify, hhead, hl] using h.symm
    · refine ⟨r, 0, 1, "case3", Or.inl rfl, hr, hhead, hl, by simp [caseOf], by simp, ?_⟩
      simpa [classify, hhead, hl] using h.symm
    · refine ⟨r, 1, 0, "case2", Or.inr rfl, hr, hhead, hl, by simp [caseOf], by simp, ?_⟩
      simpa [classify, hhead, hl] using h.symm
    · refine ⟨r, 1, 1, "case1", Or.inr rfl, hr, hhead, hl, by simp [caseOf], by simp, ?_⟩
      simpa [classify, hhead, hl] using h.symm

/-- A property of the loop state kept by every trial holds when the loop is over. -/
theorem simLoop_induction (fuel : Nat) (draws : Nat → K) (ET0 ET1 P10 P01 P1T P0T : K)
    (Inv : SimState → Prop)
    (hstep : ∀ s s1, Inv s → trial fuel draws ET0 ET1 P10 P01 P1T P0T s = some s1 → Inv s1) :
    ∀ (k : Nat) (s s2 : SimState), Inv s →
      simLoop fuel draws ET0 ET1 P10 P01 P1T P0T k s = some s2 → Inv s2 := by
  intro k
  induction k with
  | zero =>
    intro s s2 hs h
    simp only [simLoop, Option.some.injEq] at h
    exact h ▸ hs
  | succ k ih =>
    intro s s2 hs h
    simp only [simLoop] at h
    cases ht : trial fuel draws ET0 ET1 P10 P01 P1T P0T s with
    | none => simp [ht] at h
    | some s1 =>
      simp only [ht] at h
      exact ih s1 s2 (hstep s s1 hs ht) h

/-- C4: every trial of `runSimulations` that completes has a path whose start and end
are in {0,1}; the (first, last) pair has exactly one case in the table (1,1) case1,
(1,0) case2, (0,1) case3, (0,0) case4, and the trial adds 1 to the `wifi_visit_case`
entry of that case and of the path's `countOfOnes`, leaving every other entry as it was. -/
theorem trial_increments_one_case (fuel : Nat) (draws : Nat → K)
    (ET0 ET1 P10 P01 P1T P0T : K) (s s1 : SimState)
    (h : trial fuel draws ET0 ET1 P10 P01 P1T P0T s = some s1) :
    ∃ (r : VisitResult) (first last : Int) (name : String),
      wifi_visit fuel draws (s.pos + 1) first P10 P01 P1T P0T s.transitionCount = some r ∧
      r.wifiVisit.head? = some first ∧ r.wifiVisit.getLast? = some last ∧
      caseOf first last = some name ∧
      ∀ key : keyProbability, s1.wifi_visit_case.get key
        = s.wifi_visit_case.get key + (if key = ⟨name, r.countOfOnes⟩ then 1 else 0) := by
  obtain ⟨r, first, last, name, -, hr, hh, hl, hc, -, rfl⟩ :=
    trial_spec fuel draws ET0 ET1 P10 P01 P1T P0T s s1 h
  refine ⟨r, first, last, name, hr, hh, hl, hc, ?_⟩
  intro key
  simp only [GoMap.get_add]
  by_cases hk : key = ⟨name, r.countOfOnes⟩
  · subst hk; simp
  · have hk2 : ¬ (⟨name, r.countOfOnes⟩ : keyProbability) = key := fun e => hk e.symm
    simp [hk, hk2]

/-- Witness of C4: the first trial of an experiment with the rates of `main`; the
first draw 1/2 exceeds `P0` = 1/3 (start 1), 1/5 is below `P10` = 4/9 (move to 0) and
9/10 exceeds `P01` = 8/13 (absorbed from 0): path [1, 0], counted as case2 with n = 1. -/
theorem trial_increments_one_case_witness :
    trial 3 (fun i => if i = 0 then (1 / 2 : ℚ) else if i = 1 then 1 / 5 else 9 / 10)
        200 400 (4 / 9) (8 / 13) (5 / 9) (5 / 13) ⟨[], [], initialTransitionCount, 0⟩
      = some ⟨[(1, 1)], [(⟨"case2", 1⟩, 1)],
          [("P10", 1), ("P01", 0), ("P1T", 0), ("P0T", 1)], 3⟩ ∧
    ∃ (r : VisitResult) (first last : Int) (name : String),
      wifi_visit 3 (fun i => if i = 0 then (1 / 2 : ℚ) else if i = 1 then 1 / 5 else 9 / 10)
        (0 + 1) first (4 / 9) (8 / 13) (5 / 9) (5 / 13) initialTransitionCount = some r ∧
      r.wifiVisit.head? = some first ∧ r.wifiVisit.getLast? = some last ∧
      caseOf first last = some name ∧
      ∀ key : keyProbability, GoMap.get [((⟨"case2", 1⟩ : keyProbability), (1 : Int))] key
        = GoMap.get ([] : GoMap keyProbability Int) key
          + (if key = ⟨name, r.countOfOnes⟩ then 1 else 0) :=
  have h : trial 3 (fun i => if i = 0 then (1 / 2 : ℚ) else if i = 1 then 1 / 5 else 9 / 10)
        200 400 (4 / 9) (8 / 13) (5 / 9) (5 / 13) ⟨[], [], initialTransitionCount, 0⟩
      = some ⟨[(1, 1)], [(⟨"case2", 1⟩, 1)],
          [("P10", 1), ("P01", 0), ("P1T", 0), ("P0T", 1)], 3⟩ := by
    simp [trial, initialstate, wifi_visit, wifi_visit_loop, classify, GoMap.add,
      initialTransitionCount]
    norm_num
  ⟨h, trial_increments_one_case 3 _ 200 400 (4 / 9) (8 / 13) (5 / 9) (5 / 13) _ _ h⟩

/-! ## Histograms and the tables of `runSimulations` -/

theorem GoMap.mem_keys_of_get_ne_zero {κ ν : Type} [DecidableEq κ] [Zero ν]
    (m : GoMap κ ν) (x : κ) (h : m.get x ≠ 0) : x ∈ m.keys := by
  induction m with
  | nil => simp [GoMap.get] at h
  | cons e m ih =>
    obtain ⟨k, v⟩ := e
    by_cases hk : k = x
    · simp [GoMap.keys, hk]
    · simp only [GoMap.get, hk, if_false] at h
      have := ih h
      simp only [GoMap.keys] at this ⊢
      simp [this]

theorem GoMap.mem_keys_add {κ ν : Type} [DecidableEq κ] [Zero ν] [Add ν]
    (m : GoMap κ ν) (x y : κ) (d : ν) (h : y ∈ (m.add x d).keys) : y = x ∨ y ∈ m.keys := by
  induction m with
  | nil => simpa [GoMap.add, GoMap.keys] using h
  | cons e m ih =>
    obtain ⟨k, v⟩ := e
    by_cases hk : k = x
    · right
      simpa [GoMap.add, GoMap.keys, hk] using h
    · simp only [GoMap.add, hk, if_false, GoMap.keys, List.map_cons, List.mem_cons] at h
      rcases h with h | h
      · right; simp [GoMap.keys, h]
      · rcases ih h with h1 | h1
        · exact Or.inl h1
        · right
          simp only [GoMap.keys] at h1 ⊢
          simp [h1]

theorem foldl_max_spec (l : List Int) : ∀ init : Int,
    init ≤ l.foldl (fun maxN n => if n > maxN then n else maxN) init ∧
      ∀ n ∈ l, n ≤ l.foldl (fun maxN n => if n > maxN then n else maxN) init := by
  induction l with
  | nil => intro init; simp
  | cons a l ih =>
    intro init
    obtain ⟨h1, h2⟩ := ih (if a > init then a else init)
    simp only [List.foldl_cons, List.mem_cons]
    refine ⟨le_trans ?_ h1, ?_⟩
    · split_ifs <;> omega
    · intro n hn
      rcases hn with rfl | hn
      · refine le_trans ?_ h1
        split_ifs <;> omega
      · exact h2 n hn

theorem le_maxKey (freq : GoMap Int Int) (n : Int) (h : n ∈ freq.keys) : n ≤ maxKey freq :=
  (foldl_max_spec freq.keys 0).2 n h

theorem mem_nRange (maxN x : Int) : x ∈ nRange maxN ↔ 0 ≤ x ∧ x ≤ maxN := by
  simp only [nRange, List.mem_map, List.mem_range]
  constructor
  · rintro ⟨a, ha, rfl⟩
    simp only [Int.ofNat_eq_coe]
    omega
  · rintro ⟨h0, h1⟩
    refine ⟨x.toNat, by omega, ?_⟩
    simp only [Int.ofNat_eq_coe]
    omega

theorem nRange_nodup (maxN : Int) : (nRange maxN).Nodup := by
  unfold nRange
  refine List.Nodup.map ?_ (List.nodup_range _)
  intro a b h
  simpa using h

theorem count_nRange (maxN x : Int) :
    (nRange maxN).count x = if 0 ≤ x ∧ x ≤ maxN then 1 else 0 := by
  split_ifs with h
  · exact List.count_eq_one_of_mem (nRange_nodup maxN) ((mem_nRange maxN x).2 h)
  · exact List.count_eq_zero_of_not_mem (fun hm => h ((mem_nRange maxN x).1 hm))

/-- The `simulationSum` entry of `x` after the inner loop of one case over a list of
values of `n`. -/
theorem foldl_reportRow_simulationSum (lambda0 lambda1 mu : K) (counter : Int)
    (hist : GoMap keyProbability Int) (c : String × (K → K → K → Int → K)) (x : Int)
    (ns : List Int) : ∀ acc : Report K,
    (ns.foldl (reportRow lambda0 lambda1 mu counter hist c) acc).simulationSum.get x
      = acc.simulationSum.get x
        + (ns.count x : K) * (((hist.get ⟨c.1, x⟩ : Int) : K) / ((counter : Int) : K)) := by
  induction ns with
  | nil => intro acc; simp
  | cons a ns ih =>
    intro acc
    rw [List.foldl_cons, ih]
    simp only [reportRow, GoMap.get_add, List.count_cons]
    by_cases ha : a = x
    · subst ha; simp; ring
    · simp [ha]

/-- The `simulationSum` entry of `x` once all four tables are printed. -/
theorem reportCases_simulationSum (lambda0 lambda1 mu : K) (counter : Int)
    (hist : GoMap keyProbability Int) (maxN x : Int) :
    (reportCases lambda0 lambda1 mu counter hist maxN).simulationSum.get x
      = if 0 ≤ x ∧ x ≤ maxN then
          ((hist.get ⟨"case1", x⟩ + hist.get ⟨"case2", x⟩ + hist.get ⟨"case3", x⟩
            + hist.get ⟨"case4", x⟩ : Int) : K) / ((counter : Int) : K)
        else 0 := by
  simp only [reportCases, caseTable, List.foldl_cons, List.foldl_nil,
    foldl_reportRow_simulationSum, count_nRange]
  split_ifs with h
  · simp [GoMap.get]; ring
  · simp [GoMap.get]

theorem trial_HistInv (fuel : Nat) (draws : Nat → K) (ET0 ET1 P10 P01 P1T P0T : K)
    (s s1 : SimState) (hs : HistInv s)
    (h : trial fuel draws ET0 ET1 P10 P01 P1T P0T s = some s1) : HistInv s1 := by
  obtain ⟨r, first, last, name, h0, hr, -, -, -, hname, rfl⟩ :=
    trial_spec fuel draws ET0 ET1 P10 P01 P1T P0T s s1 h
  obtain ⟨m, -, -, hc, -, -⟩ :=
    wifi_visit_spec fuel draws (s.pos + 1) first P10 P01 P1T P0T s.transitionCount r h0 hr
  have hc0 : (0 : Int) ≤ r.countOfOnes := by
    rw [hc]
    have : (0 : Int) ≤ (if first = 1 then 1 else 0) := by split_ifs <;> simp
    have h2 : (0 : Int) ≤ ((altPath (1 - first) m).count 1 : Nat) := Int.natCast_nonneg _
    linarith
  obtain ⟨hsum, hkeys⟩ := hs
  refine ⟨?_, ?_⟩
  · intro n
    have := hsum n
    simp only [GoMap.get_add, keyProbability.mk.injEq]
    simp only [List.mem_cons, List.mem_singleton, List.not_mem_nil, or_false] at hname
    by_cases hn : r.countOfOnes = n
    · subst hn
      rcases hname with rfl | rfl | rfl | rfl <;> simp <;> linarith [hsum r.countOfOnes]
    · simp [hn]
      exact this
  · intro n hn
    rcases GoMap.mem_keys_add _ _ _ _ hn with rfl | h1
    · exact hc0
    · exact hkeys n h1

/-- C5: after `runSimulations` has run with a positive trial count, for every `n` the
four `wifi_visit_case` entries of `n` add up to `freq[n]`, and the per-n empirical sum
`simulationSum[n]` is `freq[n]` divided by the trial count. -/
theorem runSimulations_case_sum (fuel : Nat) (draws : Nat → K) (pos : Nat) (counter : Int)
    (ET0 ET1 P10 P01 P1T P0T lambda0 lambda1 mu : K) (tc : TransitionCount)
    (res : SimResult K) (_hT : 0 < counter)
    (h : runSimulations fuel draws pos counter ET0 ET1 P10 P01 P1T P0T lambda0 lambda1 mu tc
      = some res) :
    ∀ n : Int,
      res.wifi_visit_case.get ⟨"case1", n⟩ + res.wifi_visit_case.get ⟨"case2", n⟩
          + res.wifi_visit_case.get ⟨"case3", n⟩ + res.wifi_visit_case.get ⟨"case4", n⟩
        = res.freq.get n ∧
      res.simulationSum.get n = ((res.freq.get n : Int) : K) / ((counter : Int) : K) := by
  unfold runSimulations at h
  cases hl : simLoop fuel draws ET0 ET1 P10 P01 P1T P0T counter.toNat ⟨[], [], tc, pos⟩ with
  | none => simp [hl] at h
  | some s =>
    simp only [hl, Option.some.injEq] at h
    subst h
    have hinv : HistInv s :=
      simLoop_induction fuel draws ET0 ET1 P10 P01 P1T P0T HistInv
        (fun a b ha hab => trial_HistInv fuel draws ET0 ET1 P10 P01 P1T P0T a b ha hab)
        counter.toNat _ s ⟨by intro n; simp [GoMap.get], by intro n hn; simp [GoMap.keys] at hn⟩ hl
    obtain ⟨hsum, hkeys⟩ := hinv
    intro n
    refine ⟨hsum n, ?_⟩
    simp only [reportCases_simulationSum]
    split_ifs with hn
    · rw [hsum n]
    · have hz : s.freq.get n = 0 := by
        by_contra hne
        have hmem := GoMap.mem_keys_of_get_ne_zero s.freq n hne
        exact hn ⟨hkeys n hmem, le_maxKey s.freq n hmem⟩
      simp [hz]

/-- Witness of C5: one trial with the rates of `main` and the draws 1/2, 1/5, 9/10
(path [1, 0], one visit to state 1). -/
theorem runSimulations_case_sum_witness :
    ∃ res : SimResult ℚ,
      runSimulations 3 (fun i => if i = 0 then (1 / 2 : ℚ) else if i = 1 then 1 / 5 else 9 / 10)
          0 1 200 400 (4 / 9) (8 / 13) (5 / 9) (5 / 13) (1 / 200) (1 / 400) (1 / 250)
          initialTransitionCount = some res ∧
      (0 : Int) < 1 ∧ res.freq = [(1, 1)] ∧ res.wifi_visit_case = [(⟨"case2", 1⟩, 1)] ∧
      ∀ n : Int,
        res.wifi_visit_case.get ⟨"case1", n⟩ + res.wifi_visit_case.get ⟨"case2", n⟩
            + res.wifi_visit_case.get ⟨"case3", n⟩ + res.wifi_visit_case.get ⟨"case4", n⟩
          = res.freq.get n ∧
        res.simulationSum.get n = ((res.freq.get n : Int) : ℚ) / (((1 : Int) : Int) : ℚ) := by
  have hl : simLoop 3 (fun i => if i = 0 then (1 / 2 : ℚ) else if i = 1 then 1 / 5 else 9 / 10)
      200 400 (4 / 9) (8 / 13) (5 / 9) (5 / 13) 1 ⟨[], [], initialTransitionCount, 0⟩
      = some ⟨[(1, 1)], [(⟨"case2", 1⟩, 1)],
          [("P10", 1), ("P01", 0), ("P1T", 0), ("P0T", 1)], 3⟩ := by
    simp [simLoop, trial, initialstate, wifi_visit, wifi_visit_loop, classify, GoMap.add,
      initialTransitionCount]
    norm_num
  have hs : ∃ res : SimResult ℚ, runSimulations 3
      (fun i => if i = 0 then (1 / 2 : ℚ) else if i = 1 then 1 / 5 else 9 / 10)
      0 1 200 400 (4 / 9) (8 / 13) (5 / 9) (5 / 13) (1 / 200) (1 / 400) (1 / 250)
      initialTransitionCount = some res ∧ res.freq = [(1, 1)] ∧
      res.wifi_visit_case = [(⟨"case2", 1⟩, 1)] := by
    simp only [runSimulations, Int.toNat_one, hl]
    exact ⟨_, rfl, rfl, rfl⟩
  obtain ⟨res, h, hf, hc⟩ := hs
  exact ⟨res, h, by decide, hf, hc,
    runSimulations_case_sum 3 _ 0 1 200 400 (4 / 9) (8 / 13) (5 / 9) (5 / 13) (1 / 200)
      (1 / 400) (1 / 250) initialTransitionCount res (by decide) h⟩

theorem nRange_length (maxN : Int) : (nRange maxN).length = (maxN + 1).toNat := by
  simp [nRange]

/-! ## Domain checks -/

/-- C10 (as the code behaves): `runSimulations` makes no domain check.  With a
non-positive trial count, whatever the rates, it returns normally: no trial is run, no
draw is consumed, the counters are unchanged and both histograms are empty. -/
theorem runSimulations_nonpositive_count (fuel : Nat) (draws : Nat → K) (pos : Nat)
    (counter : Int) (ET0 ET1 P10 P01 P1T P0T lambda0 lambda1 mu : K) (tc : TransitionCount)
    (hT : counter ≤ 0) :
    ∃ res : SimResult K,
      runSimulations fuel draws pos counter ET0 ET1 P10 P01 P1T P0T lambda0 lambda1 mu tc
        = some res ∧
      res.freq = [] ∧ res.wifi_visit_case = [] ∧ res.transitionCount = tc ∧ res.pos = pos := by
  have h0 : counter.toNat = 0 := Int.toNat_eq_zero.2 hT
  simp only [runSimulations, h0, simLoop]
  exact ⟨_, rfl, rfl, rfl, rfl, rfl⟩

/-- Witness of C10 (as the code behaves): trial count 0 with the rates of `main`. -/
theorem runSimulations_nonpositive_count_witness :
    (0 : Int) ≤ 0 ∧ ∃ res : SimResult ℚ,
      runSimulations 3 (fun _ => (1 / 2 : ℚ)) 0 0 200 400 (4 / 9) (8 / 13) (5 / 9) (5 / 13)
        (1 / 200) (1 / 400) (1 / 250) initialTransitionCount = some res ∧
      res.freq = [] ∧ res.wifi_visit_case = [] ∧
      res.transitionCount = initialTransitionCount ∧ res.pos = 0 :=
  ⟨le_refl 0, runSimulations_nonpositive_count 3 (fun _ => (1 / 2 : ℚ)) 0 0 200 400 (4 / 9)
    (8 / 13) (5 / 9) (5 / 13) (1 / 200) (1 / 400) (1 / 250) initialTransitionCount (le_refl 0)⟩

/-- C10 fails on the code: with the non-positive rate `lambda0 = -1` (and
`lambda1 = 3`, `mu = 2`, one trial, draws 1/2 and 9/10) `runSimulations` returns
normally after simulating the path [0]: two draws are consumed, `freq[0]` and the
counter `P0T` become 1, and `case4` returns the value 9/10 at `n = 0`. -/
theorem runSimulations_accepts_nonpositive_rate :
    ∃ res : SimResult ℚ,
      runSimulations 2 (fun i => if i = 0 then (1 / 2 : ℚ) else 9 / 10) 0 1
        (ET0 (-1)) (ET1 3) (P10 (-1) 2) (P01 3 2) (P1T (-1) 2) (P0T 3 2) (-1) 3 2
        initialTransitionCount = some res ∧
      res.freq = [(0, 1)] ∧ res.wifi_visit_case = [(⟨"case4", 0⟩, 1)] ∧
      res.transitionCount = [("P10", 0), ("P01", 0), ("P1T", 0), ("P0T", 1)] ∧
      res.pos = 2 ∧ case4 (-1 : ℚ) 3 2 0 = 9 / 10 := by
  have hl : simLoop 2 (fun i => if i = 0 then (1 / 2 : ℚ) else 9 / 10)
      (ET0 (-1)) (ET1 3) (P10 (-1) 2) (P01 3 2) (P1T (-1) 2) (P0T 3 2) 1
      ⟨[], [], initialTransitionCount, 0⟩
      = some ⟨[(0, 1)], [(⟨"case4", 0⟩, 1)],
          [("P10", 0), ("P01", 0), ("P1T", 0), ("P0T", 1)], 2⟩ := by
    simp [simLoop, trial, initialstate, wifi_visit, wifi_visit_loop, classify, GoMap.add,
      initialTransitionCount, ET0, ET1, P10, P01]
    norm_num
  simp only [runSimulations, Int.toNat_one, hl]
  exact ⟨_, rfl, rfl, rfl, rfl, rfl, by norm_num [case4]⟩

/-! ## Alternating paths and their probability -/

theorem altPath_isAlternating (L : Nat) : ∀ s : Int, (s = 0 ∨ s = 1) →
    IsAlternating (altPath s L) := by
  intro s hs
  refine ⟨altPath_mem L s hs, ?_⟩
  induction L generalizing s with
  | zero => simp [altPath]
  | succ L ih =>
    have h1 : (1 - s = 0 ∨ 1 - s = 1) := by rcases hs with rfl | rfl <;> simp
    cases L with
    | zero => simp [altPath]
    | succ L =>
      have := ih (1 - s) h1
      simp only [altPath] at this ⊢
      refine List.Chain'.cons ?_ this
      rcases hs with rfl | rfl <;> simp

theorem isAlternating_eq_altPath (p : List Int) : ∀ s : Int, IsAlternating p →
    p.head? = some s → p = altPath s p.length := by
  induction p with
  | nil => intro s _ h; simp at h
  | cons a p ih =>
    intro s hp hh
    simp only [List.head?_cons, Option.some.injEq] at hh
    subst hh
    cases p with
    | nil => simp [altPath]
    | cons b p =>
      obtain ⟨hmem, hchain⟩ := hp
      have ha : a = 0 ∨ a = 1 := hmem a (by simp)
      have hb : b = 0 ∨ b = 1 := hmem b (by simp)
      have hab : a ≠ b := (List.chain'_cons.1 hchain).1
      have hb1 : b = 1 - a := by
        rcases ha with rfl | rfl <;> rcases hb with rfl | rfl <;> simp_all
      have := ih b ⟨fun x hx => hmem x (List.mem_cons_of_mem _ hx),
        (List.chain'_cons.1 hchain).2⟩ (by simp)
      rw [List.length_cons, altPath, ← hb1, ← this]

theorem altPath_count_one (L : Nat) :
    (altPath 1 L).count 1 = (L + 1) / 2 ∧ (altPath 0 L).count 1 = L / 2 := by
  induction L with
  | zero => simp [altPath]
  | succ L ih =>
    obtain ⟨h1, h0⟩ := ih
    constructor
    · simp [altPath, h0]; omega
    · simp [altPath, h1]

theorem altPath_getLast (L : Nat) : ∀ s : Int,
    (altPath s (L + 1)).getLast? = some (if L % 2 = 0 then s else 1 - s) := by
  induction L with
  | zero => intro s; simp [altPath]
  | succ L ih =>
    intro s
    have := ih (1 - s)
    rw [altPath, altPath, List.getLast?_cons_cons, ← altPath, this]
    by_cases h : L % 2 = 0
    · have h2 : ¬ (L + 1) % 2 = 0 := by omega
      simp [h, h2]
    · have h2 : (L + 1) % 2 = 0 := by omega
      simp [h, h2]

theorem stepsProb_altPath (P10 P01 : K) (L : Nat) :
    stepsProb P10 P01 (altPath 0 (L + 1)) = P01 ^ ((L + 1) / 2) * P10 ^ (L / 2) ∧
    stepsProb P10 P01 (altPath 1 (L + 1)) = P10 ^ ((L + 1) / 2) * P01 ^ (L / 2) := by
  induction L with
  | zero => simp [altPath, stepsProb]
  | succ L ih =>
    obtain ⟨h0, h1⟩ := ih
    have e : (L + 1 + 1) / 2 = L / 2 + 1 := by omega
    constructor
    · have : stepsProb P10 P01 (altPath 0 (L + 1 + 1))
          = P01 * stepsProb P10 P01 (altPath 1 (L + 1)) := by
        simp [altPath, stepsProb, stepProb]
      rw [this, h1, e, pow_succ]; ring
    · have : stepsProb P10 P01 (altPath 1 (L + 1 + 1))
          = P10 * stepsProb P10 P01 (altPath 0 (L + 1)) := by
        simp [altPath, stepsProb, stepProb]
      rw [this, h0, e, pow_succ]; ring

theorem pathProb_altPath (ET0 ET1 P10 P01 P1T P0T : K) (L : Nat) :
    pathProb ET0 ET1 P10 P01 P1T P0T (altPath 0 (L + 1))
      = ET0 / (ET0 + ET1) * (P01 ^ ((L + 1) / 2) * P10 ^ (L / 2))
        * (if L % 2 = 0 then P0T else P1T) ∧
    pathProb ET0 ET1 P10 P01 P1T P0T (altPath 1 (L + 1))
      = (1 - ET0 / (ET0 + ET1)) * (P10 ^ ((L + 1) / 2) * P01 ^ (L / 2))
        * (if L % 2 = 0 then P1T else P0T) := by
  obtain ⟨s0, s1⟩ := stepsProb_altPath P10 P01 L
  have g0 := altPath_getLast L 0
  have g1 := altPath_getLast L 1
  have hd : ∀ s : Int, (altPath s (L + 1)).head? = some s := fun s => by simp [altPath]
  constructor
  · simp only [pathProb, hd, g0, s0]
    by_cases h : L % 2 = 0 <;> simp [h, startProb, absorbProb]
  · simp only [pathProb, hd, g1, s1]
    by_cases h : L % 2 = 0 <;> simp [h, startProb, absorbProb]

theorem isCasePath_altPath (first : Int) (hf : first = 0 ∨ first = 1) (L : Nat) :
    IsCasePath first (if L % 2 = 0 then first else 1 - first)
      ((altPath first (L + 1)).count 1) (altPath first (L + 1)) :=
  ⟨altPath_isAlternating (L + 1) first hf, by simp [altPath], altPath_getLast L first, rfl⟩

theorem isCasePath_shape (first last : Int) (n : Nat) (p : List Int)
    (h : IsCasePath first last n p) :
    (first = 0 ∨ first = 1) ∧ ∃ L : Nat, p = altPath first (L + 1) ∧
      last = (if L % 2 = 0 then first else 1 - first) ∧
      (altPath first (L + 1)).count 1 = n := by
  obtain ⟨halt, hh, hl, hc⟩ := h
  have hp := isAlternating_eq_altPath p first halt hh
  have hmem : first ∈ p := by
    cases p with
    | nil => simp at hh
    | cons a p =>
      simp only [List.head?_cons, Option.some.injEq] at hh
      simp [hh]
  refine ⟨halt.1 first hmem, ?_⟩
  cases hlen : p.length with
  | zero =>
    rw [List.length_eq_zero] at hlen
    simp [hlen] at hh
  | succ L =>
    rw [hlen] at hp
    refine ⟨L, hp, ?_, ?_⟩
    · rw [hp, altPath_getLast] at hl
      exact (Option.some.inj hl).symm
    · rw [← hp]; exact hc

/-- The alternating paths of each case with `n` ones: one path of a known length. -/
theorem isCasePath_iff (n : Nat) (p : List Int) :
    (1 ≤ n → (IsCasePath 1 1 n p ↔ p = altPath 1 (2 * (n - 1) + 1))) ∧
    (1 ≤ n → (IsCasePath 1 0 n p ↔ p = altPath 1 (2 * (n - 1) + 1 + 1))) ∧
    (1 ≤ n → (IsCasePath 0 1 n p ↔ p = altPath 0 (2 * (n - 1) + 1 + 1))) ∧
    (IsCasePath 0 0 n p ↔ p = altPath 0 (2 * n + 1)) := by
  have c1 := altPath_count_one
  refine ⟨fun hn => ⟨?_, ?_⟩, fun hn => ⟨?_, ?_⟩, fun hn => ⟨?_, ?_⟩, ⟨?_, ?_⟩⟩
  · intro h
    obtain ⟨-, L, hp, hl, hc⟩ := isCasePath_shape 1 1 n p h
    rw [(c1 (L + 1)).1] at hc
    have hL : L % 2 = 0 := by
      by_contra hne
      simp [hne] at hl
    have : L = 2 * (n - 1) := by omega
    rw [hp, this]
  · rintro rfl
    have := isCasePath_altPath 1 (Or.inr rfl) (2 * (n - 1))
    rw [(c1 _).1] at this
    have e1 : (2 * (n - 1)) % 2 = 0 := by omega
    have e2 : (2 * (n - 1) + 1 + 1) / 2 = n := by omega
    simpa [e1, e2] using this
  · intro h
    obtain ⟨-, L, hp, hl, hc⟩ := isCasePath_shape 1 0 n p h
    rw [(c1 (L + 1)).1] at hc
    have hL : ¬ L % 2 = 0 := by
      intro he
      simp [he] at hl
    have : L = 2 * (n - 1) + 1 := by omega
    rw [hp, this]
  · rintro rfl
    have := isCasePath_altPath 1 (Or.inr rfl) (2 * (n - 1) + 1)
    rw [(c1 _).1] at this
    have e1 : ¬ (2 * (n - 1) + 1) % 2 = 0 := by omega
    have e2 : (2 * (n - 1) + 1 + 1 + 1) / 2 = n := by omega
    simpa [e1, e2] using this
  · intro h
    obtain ⟨-, L, hp, hl, hc⟩ := isCasePath_shape 0 1 n p h
    rw [(c1 (L + 1)).2] at hc
    have hL : ¬ L % 2 = 0 := by
      intro he
      simp [he] at hl
    have : L = 2 * (n - 1) + 1 := by omega
    rw [hp, this]
  · rintro rfl
    have := isCasePath_altPath 0 (Or.inl rfl) (2 * (n - 1) + 1)
    rw [(c1 _).2] at this
    have e1 : ¬ (2 * (n - 1) + 1) % 2 = 0 := by omega
    have e2 : (2 * (n - 1) + 1 + 1) / 2 = n := by omega
    simpa [e1, e2] using this
  · intro h
    obtain ⟨-, L, hp, hl, hc⟩ := isCasePath_shape 0 0 n p h
    rw [(c1 (L + 1)).2] at hc
    have hL : L % 2 = 0 := by
      by_contra hne
      simp [hne] at hl
    have : L = 2 * n := by omega
    rw [hp, this]
  · rintro rfl
    have := isCasePath_altPath 0 (Or.inl rfl) (2 * n)
    rw [(c1 _).2] at this
    have e1 : (2 * n) % 2 = 0 := by omega
    have e2 : (2 * n + 1) / 2 = n := by omega
    simpa [e1, e2] using this

/-! ## Analytical model -/

/-- The four case functions at `n = m + 1`, with the integer powers of the source
written as natural powers of `mu/(lambda0+mu)` and `mu/(lambda1+mu)`. -/
theorem case_succ (lambda0 lambda1 mu : K) (m : Nat) :
    case1 lambda0 lambda1 mu ((m + 1 : Nat) : Int)
      = lambda0 / (lambda1 + lambda0)
        * ((mu / (lambda0 + mu)) ^ m * (mu / (lambda1 + mu)) ^ m) * (lambda0 / (lambda0 + mu)) ∧
    case2 lambda0 lambda1 mu ((m + 1 : Nat) : Int)
      = lambda0 / (lambda1 + lambda0)
        * ((mu / (lambda0 + mu)) ^ (m + 1) * (mu / (lambda1 + mu)) ^ m)
        * (lambda1 / (lambda1 + mu)) ∧
    case3 lambda0 lambda1 mu ((m + 1 : Nat) : Int)
      = lambda1 / (lambda1 + lambda0)
        * ((mu / (lambda1 + mu)) ^ (m + 1) * (mu / (lambda0 + mu)) ^ m)
        * (lambda0 / (lambda0 + mu)) := by
  have hne : ((m + 1 : Nat) : Int) ≠ 0 := by omega
  have e : ((m + 1 : Nat) : Int) - 1 = (m : Int) := by omega
  have hsq : mu ^ 2 / ((lambda0 + mu) * (lambda1 + mu))
      = mu / (lambda0 + mu) * (mu / (lambda1 + mu)) := by
    rw [pow_two, mul_div_mul_comm]
  refine ⟨?_, ?_, ?_⟩
  · rw [case1, if_neg hne, e, zpow_natCast, hsq, mul_pow]
  · rw [case2, if_neg hne, e, zpow_natCast, zpow_natCast]; ring
  · rw [case3, if_neg hne, e, zpow_natCast, zpow_natCast]; ring

theorem case4_natCast (lambda0 lambda1 mu : K) (n : Nat) :
    case4 lambda0 lambda1 mu (n : Int)
      = lambda1 / (lambda1 + lambda0)
        * ((mu / (lambda1 + mu)) ^ n * (mu / (lambda0 + mu)) ^ n) * (lambda1 / (lambda1 + mu)) := by
  have hsq : mu ^ 2 / ((lambda1 + mu) * (lambda0 + mu))
      = mu / (lambda1 + mu) * (mu / (lambda0 + mu)) := by
    rw [pow_two, mul_div_mul_comm]
  rw [case4, zpow_natCast, hsq, mul_pow]

/-- The start weights of `initialstate` in terms of the rates. -/
theorem startProb_rates (lambda0 lambda1 : K) (h0 : 0 < lambda0) (h1 : 0 < lambda1) :
    ET0 lambda0 / (ET0 lambda0 + ET1 lambda1) = lambda1 / (lambda1 + lambda0) ∧
    1 - ET0 lambda0 / (ET0 lambda0 + ET1 lambda1) = lambda0 / (lambda1 + lambda0) := by
  have h0n : lambda0 ≠ 0 := ne_of_gt h0
  have h1n : lambda1 ≠ 0 := ne_of_gt h1
  have hs : lambda1 + lambda0 ≠ 0 := ne_of_gt (add_pos h1 h0)
  unfold ET0 ET1
  constructor
  · field_simp
  · field_simp

/-- C7: for all rates, `case1`, `case2` and `case3` are 0 at `n = 0`, and `case4` at
`n = 0` is `lambda1/(lambda0+lambda1) * lambda1/(lambda1+mu)`. -/
theorem case_at_zero (lambda0 lambda1 mu : K) :
    case1 lambda0 lambda1 mu 0 = 0 ∧ case2 lambda0 lambda1 mu 0 = 0 ∧
    case3 lambda0 lambda1 mu 0 = 0 ∧
    case4 lambda0 lambda1 mu 0 = lambda1 / (lambda0 + lambda1) * lambda1 / (lambda1 + mu) := by
  refine ⟨by simp [case1], by simp [case2], by simp [case3], ?_⟩
  rw [case4, zpow_zero, mul_one, add_comm lambda1 lambda0, mul_div_assoc]

/-- C1: for positive rates and every `n` (at least 1 for case1, case2, case3; any `n`
for case4) there is exactly one alternating path with the start state and end state of
the case and `n` ones, and the case function at `n` is the probability of that path:
the start weight of `initialstate`, times `P01` per step 0 to 1 and `P10` per step
1 to 0, times `P0T` or `P1T` for the absorption from its last state. -/
theorem case_eq_pathProb (lambda0 lambda1 mu : K) (h0 : 0 < lambda0) (h1 : 0 < lambda1)
    (_hmu : 0 < mu) (n : Nat) :
    (1 ≤ n → (∃! q, IsCasePath 1 1 n q) ∧ ∀ q, IsCasePath 1 1 n q →
      case1 lambda0 lambda1 mu n = pathProb (ET0 lambda0) (ET1 lambda1) (P10 lambda0 mu)
        (P01 lambda1 mu) (P1T lambda0 mu) (P0T lambda1 mu) q) ∧
    (1 ≤ n → (∃! q, IsCasePath 1 0 n q) ∧ ∀ q, IsCasePath 1 0 n q →
      case2 lambda0 lambda1 mu n = pathProb (ET0 lambda0) (ET1 lambda1) (P10 lambda0 mu)
        (P01 lambda1 mu) (P1T lambda0 mu) (P0T lambda1 mu) q) ∧
    (1 ≤ n → (∃! q, IsCasePath 0 1 n q) ∧ ∀ q, IsCasePath 0 1 n q →
      case3 lambda0 lambda1 mu n = pathProb (ET0 lambda0) (ET1 lambda1) (P10 lambda0 mu)
        (P01 lambda1 mu) (P1T lambda0 mu) (P0T lambda1 mu) q) ∧
    ((∃! q, IsCasePath 0 0 n q) ∧ ∀ q, IsCasePath 0 0 n q →
      case4 lambda0 lambda1 mu n = pathProb (ET0 lambda0) (ET1 lambda1) (P10 lambda0 mu)
        (P01 lambda1 mu) (P1T lambda0 mu) (P0T lambda1 mu) q) := by
  obtain ⟨hP0, hP1⟩ := startProb_rates lambda0 lambda1 h0 h1
  have hpp := pathProb_altPath (ET0 lambda0) (ET1 lambda1) (P10 lambda0 mu)
    (P01 lambda1 mu) (P1T lambda0 mu) (P0T lambda1 mu)
  refine ⟨fun hn => ⟨?_, ?_⟩, fun hn => ⟨?_, ?_⟩, fun hn => ⟨?_, ?_⟩, ⟨?_, ?_⟩⟩
  · exact ⟨_, ((isCasePath_iff n _).1 hn).2 rfl, fun y hy => ((isCasePath_iff n y).1 hn).1 hy⟩
  · intro q hq
    rw [((isCasePath_iff n q).1 hn).1 hq, (hpp _).2, hP1]
    obtain ⟨m, rfl⟩ : ∃ m, n = m + 1 := ⟨n - 1, by omega⟩
    have e1 : (2 * (m + 1 - 1)) % 2 = 0 := by omega
    have e2 : (2 * (m + 1 - 1) + 1) / 2 = m := by omega
    have e3 : (2 * (m + 1 - 1)) / 2 = m := by omega
    rw [(case_succ lambda0 lambda1 mu m).1, if_pos e1, e2, e3]
    rfl
  · exact ⟨_, ((isCasePath_iff n _).2.1 hn).2 rfl,
      fun y hy => ((isCasePath_iff n y).2.1 hn).1 hy⟩
  · intro q hq
    rw [((isCasePath_iff n q).2.1 hn).1 hq, (hpp _).2, hP1]
    obtain ⟨m, rfl⟩ : ∃ m, n = m + 1 := ⟨n - 1, by omega⟩
    have e1 : ¬ (2 * (m + 1 - 1) + 1) % 2 = 0 := by omega
    have e2 : (2 * (m + 1 - 1) + 1 + 1) / 2 = m + 1 := by omega
    have e3 : (2 * (m + 1 - 1) + 1) / 2 = m := by omega
    rw [(case_succ lambda0 lambda1 mu m).2.1, if_neg e1, e2, e3]
    rfl
  · exact ⟨_, ((isCasePath_iff n _).2.2.1 hn).2 rfl,
      fun y hy => ((isCasePath_iff n y).2.2.1 hn).1 hy⟩
  · intro q hq
    rw [((isCasePath_iff n q).2.2.1 hn).1 hq, (hpp _).1, hP0]
    obtain ⟨m, rfl⟩ : ∃ m, n = m + 1 := ⟨n - 1, by omega⟩
    have e1 : ¬ (2 * (m + 1 - 1) + 1) % 2 = 0 := by omega
    have e2 : (2 * (m + 1 - 1) + 1 + 1) / 2 = m + 1 := by omega
    have e3 : (2 * (m + 1 - 1) + 1) / 2 = m := by omega
    rw [(case_succ lambda0 lambda1 mu m).2.2, if_neg e1, e2, e3]
    rfl
  · exact ⟨_, (isCasePath_iff n _).2.2.2.2 rfl, fun y hy => (isCasePath_iff n y).2.2.2.1 hy⟩
  · intro q hq
    rw [(isCasePath_iff n q).2.2.2.1 hq, (hpp _).1, hP0]
    have e1 : (2 * n) % 2 = 0 := by omega
    have e2 : (2 * n + 1) / 2 = n := by omega
    have e3 : (2 * n) / 2 = n := by omega
    rw [case4_natCast, if_pos e1, e2, e3]
    rfl

/-- Witness of C1: the rates of `main` and `n = 2`; the case1 path with two ones is
[1, 0, 1] and `case1` at 2 is its probability. -/
theorem case_eq_pathProb_witness :
    ((0 : ℚ) < 1 / 200 ∧ (0 : ℚ) < 1 / 400 ∧ (0 : ℚ) < 1 / 250) ∧
    IsCasePath 1 1 2 [1, 0, 1] ∧
    case1 (1 / 200 : ℚ) (1 / 400) (1 / 250) (2 : Nat)
      = pathProb (ET0 (1 / 200 : ℚ)) (ET1 (1 / 400)) (P10 (1 / 200) (1 / 250))
          (P01 (1 / 400) (1 / 250)) (P1T (1 / 200) (1 / 250)) (P0T (1 / 400) (1 / 250))
          [1, 0, 1] :=
  have hq : IsCasePath 1 1 2 [1, 0, 1] := by simp [IsCasePath, IsAlternating]
  ⟨⟨by norm_num, by norm_num, by norm_num⟩, hq,
    ((case_eq_pathProb (1 / 200 : ℚ) (1 / 400) (1 / 250) (by norm_num) (by norm_num)
      (by norm_num) 2).1 (by decide)).2 [1, 0, 1] hq⟩

/-- C2: for positive real rates the series of `case1 n + case2 n + case3 n + case4 n`
over `n = 0, 1, 2, ...` converges with sum exactly 1, and the truncated sums up to
`n_max` tend to 1 as `n_max` grows. -/
theorem case_series_sum_one (lambda0 lambda1 mu : ℝ) (h0 : 0 < lambda0) (h1 : 0 < lambda1)
    (hmu : 0 < mu) :
    HasSum (fun n : Nat => case1 lambda0 lambda1 mu n + case2 lambda0 lambda1 mu n
      + case3 lambda0 lambda1 mu n + case4 lambda0 lambda1 mu n) 1 ∧
    Filter.Tendsto (fun n_max : Nat => ∑ n ∈ Finset.range (n_max + 1),
      (case1 lambda0 lambda1 mu n + case2 lambda0 lambda1 mu n
        + case3 lambda0 lambda1 mu n + case4 lambda0 lambda1 mu n)) Filter.atTop (nhds 1) := by
  have hs0 : 0 < lambda0 + mu := add_pos h0 hmu
  have hs1 : 0 < lambda1 + mu := add_pos h1 hmu
  have hs : 0 < lambda1 + lambda0 := add_pos h1 h0
  have hD : 0 < lambda0 * lambda1 + lambda0 * mu + lambda1 * mu := by positivity
  set r : ℝ := mu / (lambda0 + mu) * (mu / (lambda1 + mu)) with hr
  have hr0 : 0 ≤ r := by positivity
  have hr1 : r < 1 := by
    rw [hr, div_mul_div_comm, div_lt_one (by positivity)]
    nlinarith
  have h1r : 1 - r = (lambda0 * lambda1 + lambda0 * mu + lambda1 * mu)
      / ((lambda0 + mu) * (lambda1 + mu)) := by
    rw [hr]; field_simp; ring
  set C : ℝ := lambda0 / (lambda1 + lambda0) * (lambda0 / (lambda0 + mu))
    + lambda0 / (lambda1 + lambda0) * (mu / (lambda0 + mu)) * (lambda1 / (lambda1 + mu))
    + lambda1 / (lambda1 + lambda0) * (mu / (lambda1 + mu)) * (lambda0 / (lambda0 + mu))
    + lambda1 / (lambda1 + lambda0) * r * (lambda1 / (lambda1 + mu)) with hC
  have hgeo : HasSum (fun m : Nat => C * r ^ m) (C * (1 - r)⁻¹) :=
    (hasSum_geometric_of_lt_one hr0 hr1).mul_left C
  have hshift : (fun m : Nat => case1 lambda0 lambda1 mu ((m + 1 : Nat) : Int)
      + case2 lambda0 lambda1 mu ((m + 1 : Nat) : Int)
      + case3 lambda0 lambda1 mu ((m + 1 : Nat) : Int)
      + case4 lambda0 lambda1 mu ((m + 1 : Nat) : Int)) = fun m : Nat => C * r ^ m := by
    funext m
    obtain ⟨e1, e2, e3⟩ := case_succ lambda0 lambda1 mu m
    rw [e1, e2, e3, case4_natCast, hC, hr]
    ring
  have hsum : HasSum (fun n : Nat => case1 lambda0 lambda1 mu n + case2 lambda0 lambda1 mu n
      + case3 lambda0 lambda1 mu n + case4 lambda0 lambda1 mu n) 1 := by
    have key := (hasSum_nat_add_iff (f := fun n : Nat => case1 lambda0 lambda1 mu n
      + case2 lambda0 lambda1 mu n + case3 lambda0 lambda1 mu n
      + case4 lambda0 lambda1 mu n) 1).1 (by rw [hshift]; exact hgeo)
    have hval : C * (1 - r)⁻¹ + ∑ i ∈ Finset.range 1,
        (case1 lambda0 lambda1 mu (i : Nat) + case2 lambda0 lambda1 mu (i : Nat)
          + case3 lambda0 lambda1 mu (i : Nat) + case4 lambda0 lambda1 mu (i : Nat)) = 1 := by
      simp only [Finset.sum_range_one, Nat.cast_zero]
      rw [h1r, hC, hr]
      simp only [case1, case2, case3, case4, if_true, zpow_zero]
      field_simp
      ring
    rw [hval] at key
    exact key
  exact ⟨hsum, hsum.tendsto_sum_nat.comp (Filter.tendsto_add_atTop_nat 1)⟩

/-- Witness of C2: the rates of `main` as real numbers. -/
theorem case_series_sum_one_witness :
    ((0 : ℝ) < 1 / 200 ∧ (0 : ℝ) < 1 / 400 ∧ (0 : ℝ) < 1 / 250) ∧
    (HasSum (fun n : Nat => case1 (1 / 200 : ℝ) (1 / 400) (1 / 250) n
      + case2 (1 / 200 : ℝ) (1 / 400) (1 / 250) n
      + case3 (1 / 200 : ℝ) (1 / 400) (1 / 250) n
      + case4 (1 / 200 : ℝ) (1 / 400) (1 / 250) n) 1 ∧
    Filter.Tendsto (fun n_max : Nat => ∑ n ∈ Finset.range (n_max + 1),
      (case1 (1 / 200 : ℝ) (1 / 400) (1 / 250) n + case2 (1 / 200 : ℝ) (1 / 400) (1 / 250) n
        + case3 (1 / 200 : ℝ) (1 / 400) (1 / 250) n
        + case4 (1 / 200 : ℝ) (1 / 400) (1 / 250) n)) Filter.atTop (nhds 1)) :=
  ⟨⟨by norm_num, by norm_num, by norm_num⟩,
    case_series_sum_one (1 / 200) (1 / 400) (1 / 250) (by norm_num) (by norm_num)
      (by norm_num)⟩

/-! ## Derived probabilities: range and the example of the specification -/

theorem round4_eq (x : ℚ) (z : Int) (h1 : (z : ℚ) ≤ x * 10000 + 1 / 2)
    (h2 : x * 10000 + 1 / 2 < (z : ℚ) + 1) : round4 x = (z : ℚ) / 10000 := by
  unfold round4
  rw [round_eq, Int.floor_eq_iff.2 ⟨h1, h2⟩]

/-- C12: with the rates 0.005, 0.0025 and 0.004 as exact rationals, `P01` is 8/13,
`P10` is 4/9 and `case4` at `n = 0` is 5/39; rounded to four decimals they are 0.6154,
0.4444 and 0.1282. -/
theorem example_scenario_values :
    P01 (0.0025 : ℚ) 0.004 = 8 / 13 ∧ P10 (0.005 : ℚ) 0.004 = 4 / 9 ∧
    case4 (0.005 : ℚ) 0.0025 0.004 0 = 5 / 39 ∧
    round4 (P01 (0.0025 : ℚ) 0.004) = 0.6154 ∧ round4 (P10 (0.005 : ℚ) 0.004) = 0.4444 ∧
    round4 (case4 (0.005 : ℚ) 0.0025 0.004 0) = 0.1282 := by
  have e1 : P01 (0.0025 : ℚ) 0.004 = 8 / 13 := by norm_num [P01]
  have e2 : P10 (0.005 : ℚ) 0.004 = 4 / 9 := by norm_num [P10]
  have e3 : case4 (0.005 : ℚ) 0.0025 0.004 0 = 5 / 39 := by norm_num [case4]
  refine ⟨e1, e2, e3, ?_, ?_, ?_⟩
  · rw [e1, round4_eq (8 / 13) 6154 (by norm_num) (by norm_num)]; norm_num
  · rw [e2, round4_eq (4 / 9) 4444 (by norm_num) (by norm_num)]; norm_num
  · rw [e3, round4_eq (5 / 39) 1282 (by norm_num) (by norm_num)]; norm_num

/-! ## Start states other than 0 and 1 -/

/-- C19: with a start state that is neither 0 nor 1, an iteration of the loop of
`wifi_visit` leaves the path, the count, the counters and the random source as they
were (no draw is consumed), and `wifi_visit` yields no result for any amount of fuel
and any draws. -/
theorem wifi_visit_other_start_diverges (draws : Nat → K) (P10 P01 P1T P0T : K) (s : Int)
    (h0 : s ≠ 0) (h1 : s ≠ 1) :
    (∀ (fuel : Nat) (c : Int) (path : List Int) (tc : TransitionCount) (pos : Nat),
      wifi_visit_loop draws P10 P01 (fuel + 1) s c path tc pos
        = wifi_visit_loop draws P10 P01 fuel s c path tc pos) ∧
    ∀ (fuel pos : Nat) (tc : TransitionCount),
      wifi_visit fuel draws pos s P10 P01 P1T P0T tc = none := by
  have hstep : ∀ (fuel : Nat) (c : Int) (path : List Int) (tc : TransitionCount) (pos : Nat),
      wifi_visit_loop draws P10 P01 (fuel + 1) s c path tc pos
        = wifi_visit_loop draws P10 P01 fuel s c path tc pos := by
    intro fuel c path tc pos
    simp [wifi_visit_loop, h0, h1]
  refine ⟨hstep, ?_⟩
  intro fuel pos tc
  unfold wifi_visit
  simp only
  generalize (if s = 1 then (0 : Int) + 1 else 0) = c
  induction fuel with
  | zero => simp [wifi_visit_loop]
  | succ fuel ih => rw [hstep, ih]

/-- Witness of C19: start state 2 and fuel 5. -/
theorem wifi_visit_other_start_diverges_witness :
    ((2 : Int) ≠ 0 ∧ (2 : Int) ≠ 1) ∧
    wifi_visit 5 (fun _ => (1 / 2 : ℚ)) 0 2 (4 / 9) (8 / 13) (5 / 9) (5 / 13)
      initialTransitionCount = none :=
  ⟨⟨by decide, by decide⟩,
    (wifi_visit_other_start_diverges (fun _ => (1 / 2 : ℚ)) (4 / 9) (8 / 13) (5 / 9) (5 / 13)
      2 (by decide) (by decide)).2 5 0 initialTransitionCount⟩

/-! ## Runs of the loop: fuel, termination and step rule -/

theorem wifi_visit_loop_mono (draws : Nat → K) (P10 P01 : K) :
    ∀ (fuel : Nat) (state c : Int) (path : List Int) (tc : TransitionCount) (pos : Nat)
      (r : VisitResult), wifi_visit_loop draws P10 P01 fuel state c path tc pos = some r →
      wifi_visit_loop draws P10 P01 (fuel + 1) state c path tc pos = some r := by
  intro fuel
  induction fuel with
  | zero => intro state c path tc pos r h; simp [wifi_visit_loop] at h
  | succ fuel ih =>
    intro state c path tc pos r h
    rw [wifi_visit_loop] at h ⊢
    by_cases h0 : state = 0
    · simp only [h0, if_true] at h ⊢
      by_cases hU : draws pos ≤ P01
      · simp only [hU, if_true] at h ⊢
        exact ih _ _ _ _ _ _ h
      · simp only [hU, if_false] at h ⊢
        exact h
    · by_cases h1 : state = 1
      · simp only [h1, one_ne_zero, if_false, if_true] at h ⊢
        by_cases hU : draws pos ≤ P10
        · simp only [hU, if_true] at h ⊢
          exact ih _ _ _ _ _ _ h
        · simp only [hU, if_false] at h ⊢
          exact h
      · simp only [h0, h1, if_false] at h ⊢
        exact ih _ _ _ _ _ _ h

theorem wifi_visit_loop_mono_le (draws : Nat → K) (P10 P01 : K) (fuel fuel2 : Nat)
    (state c : Int) (path : List Int) (tc : TransitionCount) (pos : Nat) (r : VisitResult)
    (hle : fuel ≤ fuel2)
    (h : wifi_visit_loop draws P10 P01 fuel state c path tc pos = some r) :
    wifi_visit_loop draws P10 P01 fuel2 state c path tc pos = some r := by
  obtain ⟨k, rfl⟩ := Nat.exists_eq_add_of_le hle
  induction k with
  | zero => exact h
  | succ k ih => exact wifi_visit_loop_mono draws P10 P01 _ _ _ _ _ _ _ (ih (Nat.le_add_right _ _))

/-- A draw above both thresholds at offset `i` stops the loop within `i + 1` iterations. -/
theorem wifi_visit_loop_terminates (draws : Nat → K) (P10 P01 : K) :
    ∀ (i : Nat) (state c : Int) (path : List Int) (tc : TransitionCount) (pos : Nat),
      (state = 0 ∨ state = 1) → P01 < draws (pos + i) → P10 < draws (pos + i) →
      ∃ r, wifi_visit_loop draws P10 P01 (i + 1) state c path tc pos = some r := by
  intro i
  induction i with
  | zero =>
    intro state c path tc pos hs h01 h10
    rw [Nat.add_zero] at h01 h10
    rcases hs with rfl | rfl
    · exact ⟨⟨c, path, tc.add "P0T" 1, pos + 1⟩, by simp [wifi_visit_loop, not_le.2 h01]⟩
    · exact ⟨⟨c, path, tc.add "P1T" 1, pos + 1⟩, by simp [wifi_visit_loop, not_le.2 h10]⟩
  | succ i ih =>
    intro state c path tc pos hs h01 h10
    have e : pos + (i + 1) = pos + 1 + i := by omega
    rw [e] at h01 h10
    rw [wifi_visit_loop]
    rcases hs with rfl | rfl
    · by_cases hU : draws pos ≤ P01
      · simp only [if_true, hU]
        exact ih 1 _ _ _ (pos + 1) (Or.inr rfl) h01 h10
      · exact ⟨⟨c, path, tc.add "P0T" 1, pos + 1⟩, by simp [hU]⟩
    · by_cases hU : draws pos ≤ P10
      · simp only [one_ne_zero, if_false, if_true, hU]
        exact ih 0 _ _ _ (pos + 1) (Or.inl rfl) h01 h10
      · exact ⟨⟨c, path, tc.add "P1T" 1, pos + 1⟩, by simp [hU]⟩

/-- Draws below both thresholds at offsets `0 .. m-1` and above both at offset `m` make
the loop append exactly `m` states. -/
theorem wifi_visit_loop_run (draws : Nat → K) (P10 P01 : K) :
    ∀ (m : Nat) (state c : Int) (path : List Int) (tc : TransitionCount) (pos : Nat),
      (state = 0 ∨ state = 1) →
      (∀ j, j < m → draws (pos + j) ≤ P01 ∧ draws (pos + j) ≤ P10) →
      P01 < draws (pos + m) → P10 < draws (pos + m) →
      ∃ r, wifi_visit_loop draws P10 P01 (m + 1) state c path tc pos = some r ∧
        r.wifiVisit.length = path.length + m := by
  intro m
  induction m with
  | zero =>
    intro state c path tc pos hs _ h01 h10
    rw [Nat.add_zero] at h01 h10
    rcases hs with rfl | rfl
    · exact ⟨⟨c, path, tc.add "P0T" 1, pos + 1⟩,
        by simp [wifi_visit_loop, not_le.2 h01], rfl⟩
    · exact ⟨⟨c, path, tc.add "P1T" 1, pos + 1⟩,
        by simp [wifi_visit_loop, not_le.2 h10], rfl⟩
  | succ m ih =>
    intro state c path tc pos hs hlow h01 h10
    have e : pos + (m + 1) = pos + 1 + m := by omega
    rw [e] at h01 h10
    have hU := hlow 0 (Nat.succ_pos m)
    rw [Nat.add_zero] at hU
    have hlow2 : ∀ j, j < m → draws (pos + 1 + j) ≤ P01 ∧ draws (pos + 1 + j) ≤ P10 := by
      intro j hj
      have := hlow (j + 1) (by omega)
      have e2 : pos + (j + 1) = pos + 1 + j := by omega
      rwa [e2] at this
    rw [wifi_visit_loop]
    rcases hs with rfl | rfl
    · simp only [if_true, hU.1]
      obtain ⟨r, hr, hlen⟩ := ih 1 (c + 1) (path ++ [1]) (tc.add "P01" 1) (pos + 1)
        (Or.inr rfl) hlow2 h01 h10
      exact ⟨r, hr, by rw [hlen, List.length_append]; simp; omega⟩
    · simp only [one_ne_zero, if_false, if_true, hU.2]
      obtain ⟨r, hr, hlen⟩ := ih 0 c (path ++ [0]) (tc.add "P10" 1) (pos + 1)
        (Or.inl rfl) hlow2 h01 h10
      exact ⟨r, hr, by rw [hlen, List.length_append]; simp; omega⟩

/-- The path of a finished call is the alternating path from the start state; its
length is the number of draws consumed. -/
theorem wifi_visit_altPath (fuel : Nat) (draws : Nat → K) (pos : Nat) (s : Int)
    (P10 P01 P1T P0T : K) (tc : TransitionCount) (r : VisitResult) (hs : s = 0 ∨ s = 1)
    (h : wifi_visit fuel draws pos s P10 P01 P1T P0T tc = some r) :
    ∃ m : Nat, m < fuel ∧ r.wifiVisit = altPath s (m + 1) ∧ r.wifiVisit.length = m + 1 ∧
      r.countOfOnes = ((altPath s (m + 1)).count 1 : Nat) ∧ r.pos = pos + (m + 1) := by
  obtain ⟨m, hm, hp, hc, hpos, -⟩ := wifi_visit_spec fuel draws pos s P10 P01 P1T P0T tc r hs h
  refine ⟨m, hm, by rw [hp, altPath], by rw [hp]; simp [altPath_length], ?_, by omega⟩
  rw [hc, altPath]
  rcases hs with rfl | rfl
  · simp [List.count_cons]
  · simp [List.count_cons]; ring

/-- C15: for a start state in {0,1}, if the draw at index `i` of the call (the draw
`draws (pos + i)`) exceeds both `P01` and `P10`, then `wifi_visit` returns: the same
result for every fuel of at least `i + 1` iterations, having consumed at most `i + 1`
draws, with a path of length at most `i + 1`. -/
theorem wifi_visit_terminates_by (draws : Nat → K) (pos i : Nat) (s : Int)
    (P10 P01 P1T P0T : K) (tc : TransitionCount) (hs : s = 0 ∨ s = 1)
    (h01 : P01 < draws (pos + i)) (h10 : P10 < draws (pos + i)) :
    ∃ r : VisitResult,
      (∀ fuel, i + 1 ≤ fuel → wifi_visit fuel draws pos s P10 P01 P1T P0T tc = some r) ∧
      r.pos ≤ pos + (i + 1) ∧ r.wifiVisit.length ≤ i + 1 := by
  obtain ⟨r, hr⟩ := wifi_visit_loop_terminates draws P10 P01 i s
    (if s = 1 then 0 + 1 else 0) [s] tc pos hs h01 h10
  have hr' : wifi_visit (i + 1) draws pos s P10 P01 P1T P0T tc = some r := hr
  obtain ⟨m, hm, -, hlen, -, hpos⟩ :=
    wifi_visit_altPath (i + 1) draws pos s P10 P01 P1T P0T tc r hs hr'
  refine ⟨r, ?_, by omega, by omega⟩
  intro fuel hfuel
  exact wifi_visit_loop_mono_le draws P10 P01 (i + 1) fuel _ _ _ _ _ r hfuel hr

/-- Witness of C15: start state 1, draws 1/5 then 9/10 with thresholds 4/9 and 8/13; the
draw at index 1 exceeds both thresholds. -/
theorem wifi_visit_terminates_by_witness :
    (((1 : Int) = 0 ∨ (1 : Int) = 1) ∧
      (8 / 13 : ℚ) < (fun i => if i = 0 then (1 / 5 : ℚ) else 9 / 10) (0 + 1) ∧
      (4 / 9 : ℚ) < (fun i => if i = 0 then (1 / 5 : ℚ) else 9 / 10) (0 + 1)) ∧
    ∃ r : VisitResult,
      (∀ fuel, 1 + 1 ≤ fuel →
        wifi_visit fuel (fun i => if i = 0 then (1 / 5 : ℚ) else 9 / 10) 0 1 (4 / 9) (8 / 13)
          (5 / 9) (5 / 13) initialTransitionCount = some r) ∧
      r.pos ≤ 0 + (1 + 1) ∧ r.wifiVisit.length ≤ 1 + 1 :=
  ⟨⟨Or.inr rfl, by norm_num, by norm_num⟩,
    wifi_visit_terminates_by (fun i => if i = 0 then (1 / 5 : ℚ) else 9 / 10) 0 1 1 (4 / 9)
      (8 / 13) (5 / 9) (5 / 13) initialTransitionCount (Or.inr rfl) (by norm_num)
      (by norm_num)⟩

/-- C16: a path returned by `wifi_visit` for a start state in {0,1} alternates (all
elements in {0,1}, consecutive elements different); it is the alternating path fixed by
its first element and its length, and every alternating path with the same first
element and the same length is equal to it. -/
theorem wifi_visit_path_alternates (fuel : Nat) (draws : Nat → K) (pos : Nat) (s : Int)
    (P10 P01 P1T P0T : K) (tc : TransitionCount) (r : VisitResult) (hs : s = 0 ∨ s = 1)
    (h : wifi_visit fuel draws pos s P10 P01 P1T P0T tc = some r) :
    IsAlternating r.wifiVisit ∧ r.wifiVisit.head? = some s ∧
    r.wifiVisit = altPath s r.wifiVisit.length ∧
    ∀ p : List Int, IsAlternating p → p.head? = r.wifiVisit.head? →
      p.length = r.wifiVisit.length → p = r.wifiVisit := by
  obtain ⟨m, -, hp, hlen, -, -⟩ :=
    wifi_visit_altPath fuel draws pos s P10 P01 P1T P0T tc r hs h
  have hhead : r.wifiVisit.head? = some s := by rw [hp, altPath]; rfl
  refine ⟨by rw [hp]; exact altPath_isAlternating (m + 1) s hs, hhead, ?_, ?_⟩
  · rw [hlen]; exact hp
  · intro p halt hh hl
    rw [hhead] at hh
    rw [isAlternating_eq_altPath p s halt hh, hl, hlen, hp]

/-- Witness of C16: the run with start state 1 and draws 1/5, 9/10 returns [1, 0]. -/
theorem wifi_visit_path_alternates_witness :
    wifi_visit 3 (fun i => if i = 0 then (1 / 5 : ℚ) else 9 / 10) 0 1 (4 / 9) (8 / 13)
        (5 / 9) (5 / 13) initialTransitionCount
      = some ⟨1, [1, 0], [("P10", 1), ("P01", 0), ("P1T", 0), ("P0T", 1)], 2⟩ ∧
    (IsAlternating [1, 0] ∧ ([1, 0] : List Int).head? = some 1 ∧
      ([1, 0] : List Int) = altPath 1 ([1, 0] : List Int).length ∧
      ∀ p : List Int, IsAlternating p → p.head? = ([1, 0] : List Int).head? →
        p.length = ([1, 0] : List Int).length → p = [1, 0]) :=
  have h : wifi_visit 3 (fun i => if i = 0 then (1 / 5 : ℚ) else 9 / 10) 0 1 (4 / 9) (8 / 13)
        (5 / 9) (5 / 13) initialTransitionCount
      = some ⟨1, [1, 0], [("P10", 1), ("P01", 0), ("P1T", 0), ("P0T", 1)], 2⟩ := by
    simp [wifi_visit, wifi_visit_loop, GoMap.add, initialTransitionCount]
    norm_num
  ⟨h, wifi_visit_path_alternates 3 _ 0 1 (4 / 9) (8 / 13) (5 / 9) (5 / 13)
    initialTransitionCount _ (Or.inr rfl) h⟩

/-! ## Number of ones and length -/

theorem ceil_half (L : Nat) : ⌈(L : ℚ) / 2⌉ = (((L + 1) / 2 : Nat) : Int) := by
  rw [Int.ceil_eq_iff]
  rcases Nat.even_or_odd' L with ⟨j, rfl | rfl⟩
  · have e : (2 * j + 1) / 2 = j := by omega
    rw [e]; push_cast
    constructor <;> linarith
  · have e : (2 * j + 1 + 1) / 2 = j + 1 := by omega
    rw [e]; push_cast
    constructor <;> linarith

theorem floor_half (L : Nat) : ⌊(L : ℚ) / 2⌋ = ((L / 2 : Nat) : Int) := by
  rw [Int.floor_eq_iff]
  rcases Nat.even_or_odd' L with ⟨j, rfl | rfl⟩
  · have e : (2 * j) / 2 = j := by omega
    rw [e]; push_cast
    constructor <;> linarith
  · have e : (2 * j + 1) / 2 = j := by omega
    rw [e]; push_cast
    constructor <;> linarith

/-- The count returned by `wifi_visit` in terms of the length and the ends of the path. -/
theorem wifi_visit_count_length (fuel : Nat) (draws : Nat → K) (pos : Nat) (s : Int)
    (P10 P01 P1T P0T : K) (tc : TransitionCount) (r : VisitResult) (hs : s = 0 ∨ s = 1)
    (h : wifi_visit fuel draws pos s P10 P01 P1T P0T tc = some r) :
    (s = 1 → r.countOfOnes = (((r.wifiVisit.length + 1) / 2 : Nat) : Int)
      ∧ 1 ≤ r.countOfOnes) ∧
    (s = 0 → r.countOfOnes = ((r.wifiVisit.length / 2 : Nat) : Int)) ∧
    (s = 0 → r.wifiVisit.getLast? = some 1 → 1 ≤ r.countOfOnes) ∧
    (s = 0 → r.wifiVisit.getLast? = some 0 →
      r.wifiVisit.length = 2 * r.countOfOnes.toNat + 1) := by
  obtain ⟨m, -, hp, hlen, hc, -⟩ :=
    wifi_visit_altPath fuel draws pos s P10 P01 P1T P0T tc r hs h
  have hcount := altPath_count_one (m + 1)
  have hlast := altPath_getLast m s
  rw [← hp] at hlast
  refine ⟨?_, ?_, ?_, ?_⟩
  · rintro rfl
    rw [hc, hcount.1, hlen]
    refine ⟨rfl, ?_⟩
    have : 1 ≤ (m + 1 + 1) / 2 := by omega
    exact_mod_cast this
  · rintro rfl
    rw [hc, hcount.2, hlen]
  · rintro rfl hl
    rw [hl] at hlast
    have hm : ¬ m % 2 = 0 := by
      intro he
      simp [he] at hlast
    rw [hc, hcount.2]
    have : 1 ≤ (m + 1) / 2 := by omega
    exact_mod_cast this
  · rintro rfl hl
    rw [hl] at hlast
    have hm : m % 2 = 0 := by
      by_contra hne
      simp [hne] at hlast
    rw [hc, hcount.2, hlen, Int.toNat_ofNat]
    omega

/-- The entry incremented by a trial is a case4 entry or has a count of at least 1. -/
theorem trial_case_count (fuel : Nat) (draws : Nat → K) (ET0 ET1 P10 P01 P1T P0T : K)
    (s s1 : SimState) (h : trial fuel draws ET0 ET1 P10 P01 P1T P0T s = some s1) :
    ∃ (name : String) (c : Int),
      s1.wifi_visit_case = s.wifi_visit_case.add ⟨name, c⟩ 1 ∧ (name = "case4" ∨ 1 ≤ c) := by
  obtain ⟨r, first, last, name, h0, hr, -, hl, hc, -, rfl⟩ :=
    trial_spec fuel draws ET0 ET1 P10 P01 P1T P0T s s1 h
  obtain ⟨h1, -, h3, -⟩ := wifi_visit_count_length fuel draws (s.pos + 1) first P10 P01 P1T
    P0T s.transitionCount r h0 hr
  refine ⟨name, r.countOfOnes, rfl, ?_⟩
  rcases h0 with rfl | rfl
  · by_cases hl1 : last = 1
    · subst hl1
      exact Or.inr (h3 rfl hl)
    · left
      by_cases hl0 : last = 0
      · subst hl0
        simpa [caseOf] using hc.symm
      · simp [caseOf, hl1, hl0] at hc
  · exact Or.inr (h1 rfl).2

/-- C17: for a path of length `L` returned by `wifi_visit`, `countOfOnes` is
`ceil(L/2)` when the start state is 1 and `floor(L/2)` when it is 0; a path of case1 or
case2 (start 1) or of case3 (start 0, end 1) has `countOfOnes >= 1`, and a path of case4
(start 0, end 0) has `countOfOnes = (L-1)/2`.  Hence after `runSimulations` the
`wifi_visit_case` entries of case1, case2 and case3 at `n = 0` are 0, as the analytical
functions are at `n = 0`. -/
theorem countOfOnes_by_length :
    (∀ (fuel : Nat) (draws : Nat → K) (pos : Nat) (s : Int) (P10 P01 P1T P0T : K)
      (tc : TransitionCount) (r : VisitResult),
      wifi_visit fuel draws pos s P10 P01 P1T P0T tc = some r →
      (s = 1 → r.countOfOnes = ⌈(r.wifiVisit.length : ℚ) / 2⌉ ∧ 1 ≤ r.countOfOnes) ∧
      (s = 0 → r.countOfOnes = ⌊(r.wifiVisit.length : ℚ) / 2⌋) ∧
      (s = 0 → r.wifiVisit.getLast? = some 1 → 1 ≤ r.countOfOnes) ∧
      (s = 0 → r.wifiVisit.getLast? = some 0 →
        (r.countOfOnes : ℚ) = ((r.wifiVisit.length : ℚ) - 1) / 2)) ∧
    (∀ (fuel : Nat) (draws : Nat → K) (pos : Nat) (counter : Int)
      (ET0 ET1 P10 P01 P1T P0T lambda0 lambda1 mu : K) (tc : TransitionCount)
      (res : SimResult K),
      runSimulations fuel draws pos counter ET0 ET1 P10 P01 P1T P0T lambda0 lambda1 mu tc
        = some res →
      res.wifi_visit_case.get ⟨"case1", 0⟩ = 0 ∧ res.wifi_visit_case.get ⟨"case2", 0⟩ = 0 ∧
      res.wifi_visit_case.get ⟨"case3", 0⟩ = 0) ∧
    (∀ lambda0 lambda1 mu : K, case1 lambda0 lambda1 mu 0 = 0 ∧
      case2 lambda0 lambda1 mu 0 = 0 ∧ case3 lambda0 lambda1 mu 0 = 0) := by
  refine ⟨?_, ?_, ?_⟩
  · intro fuel draws pos s P10 P01 P1T P0T tc r h
    refine ⟨?_, ?_, ?_, ?_⟩
    · rintro rfl
      obtain ⟨h1, -, -, -⟩ := wifi_visit_count_length fuel draws pos 1 P10 P01 P1T P0T tc r
        (Or.inr rfl) h
      rw [ceil_half]
      exact h1 rfl
    · rintro rfl
      obtain ⟨-, h2, -, -⟩ := wifi_visit_count_length fuel draws pos 0 P10 P01 P1T P0T tc r
        (Or.inl rfl) h
      rw [floor_half]
      exact h2 rfl
    · rintro rfl hl
      exact (wifi_visit_count_length fuel draws pos 0 P10 P01 P1T P0T tc r
        (Or.inl rfl) h).2.2.1 rfl hl
    · rintro rfl hl
      obtain ⟨-, h2, -, h4⟩ := wifi_visit_count_length fuel draws pos 0 P10 P01 P1T P0T tc r
        (Or.inl rfl) h
      have e := h4 rfl hl
      have hc := h2 rfl
      have hnn : (0 : Int) ≤ r.countOfOnes := by rw [hc]; exact Int.natCast_nonneg _
      have hq : (r.countOfOnes : ℚ) = ((r.countOfOnes.toNat : Nat) : ℚ) := by
        have : r.countOfOnes = ((r.countOfOnes.toNat : Nat) : Int) := (Int.toNat_of_nonneg hnn).symm
        exact_mod_cast congrArg (fun z : Int => (z : ℚ)) this
      rw [e, hq]
      push_cast
      ring
  · intro fuel draws pos counter ET0 ET1 P10 P01 P1T P0T lambda0 lambda1 mu tc res h
    unfold runSimulations at h
    cases hl : simLoop fuel draws ET0 ET1 P10 P01 P1T P0T counter.toNat ⟨[], [], tc, pos⟩ with
    | none => simp [hl] at h
    | some s =>
      simp only [hl, Option.some.injEq] at h
      subst h
      refine simLoop_induction fuel draws ET0 ET1 P10 P01 P1T P0T
        (fun st => st.wifi_visit_case.get ⟨"case1", 0⟩ = 0 ∧
          st.wifi_visit_case.get ⟨"case2", 0⟩ = 0 ∧ st.wifi_visit_case.get ⟨"case3", 0⟩ = 0)
        ?_ counter.toNat ⟨[], [], tc, pos⟩ s ⟨rfl, rfl, rfl⟩ hl
      intro a b ⟨ha1, ha2, ha3⟩ hab
      obtain ⟨name, c, hb, hnc⟩ := trial_case_count fuel draws ET0 ET1 P10 P01 P1T P0T a b hab
      rw [hb]
      simp only [GoMap.get_add, keyProbability.mk.injEq]
      rcases hnc with rfl | hc
      · simp [ha1, ha2, ha3]
      · have hc0 : ¬ c = 0 := by omega
        simp [hc0, ha1, ha2, ha3]
  · intro lambda0 lambda1 mu
    exact ⟨by simp [case1], by simp [case2], by simp [case3]⟩

/-- Witness of C17: start state 0 with draws 1/5, 9/10 and thresholds 4/9, 8/13; the
call returns the case3 path [0, 1] with one visit to state 1. -/
theorem countOfOnes_by_length_witness :
    wifi_visit 3 (fun i => if i = 0 then (1 / 5 : ℚ) else 9 / 10) 0 0 (4 / 9) (8 / 13)
        (5 / 9) (5 / 13) initialTransitionCount
      = some ⟨1, [0, 1], [("P10", 0), ("P01", 1), ("P1T", 1), ("P0T", 0)], 2⟩ ∧
    (1 : Int) = ⌊((([0, 1] : List Int).length : Nat) : ℚ) / 2⌋ ∧ (1 : Int) ≤ 1 :=
  have h : wifi_visit 3 (fun i => if i = 0 then (1 / 5 : ℚ) else 9 / 10) 0 0 (4 / 9) (8 / 13)
        (5 / 9) (5 / 13) initialTransitionCount
      = some ⟨1, [0, 1], [("P10", 0), ("P01", 1), ("P1T", 1), ("P0T", 0)], 2⟩ := by
    simp [wifi_visit, wifi_visit_loop, GoMap.add, initialTransitionCount]
    norm_num
  have hc := (@countOfOnes_by_length ℚ _).1 3 _ 0 0 (4 / 9) (8 / 13) (5 / 9) (5 / 13)
    initialTransitionCount _ h
  ⟨h, hc.2.1 rfl, hc.2.2.1 rfl rfl⟩

/-! ## Every trial is counted once -/

theorem GoMap.values_sum_add {κ : Type} [DecidableEq κ] (m : GoMap κ Int) (x : κ) (d : Int) :
    (m.add x d).values.sum = m.values.sum + d := by
  induction m with
  | nil => simp [GoMap.add, GoMap.values]
  | cons e m ih =>
    obtain ⟨k, v⟩ := e
    by_cases hk : k = x
    · simp [GoMap.add, GoMap.values, hk]; ring
    · simp only [GoMap.values] at ih
      simp [GoMap.add, GoMap.values, hk, ih]; ring

theorem GoMap.keys_add_nodup {κ ν : Type} [DecidableEq κ] [Zero ν] [Add ν]
    (m : GoMap κ ν) (x : κ) (d : ν) (h : m.keys.Nodup) : (m.add x d).keys.Nodup := by
  induction m with
  | nil => simp [GoMap.add, GoMap.keys]
  | cons e m ih =>
    obtain ⟨k, v⟩ := e
    have hk' : k ∉ GoMap.keys m ∧ (GoMap.keys m).Nodup := by
      simpa [GoMap.keys] using h
    by_cases hk : k = x
    · simpa [GoMap.add, GoMap.keys, hk] using h
    · have hn : k ∉ GoMap.keys (GoMap.add m x d) := by
        intro hmem
        rcases GoMap.mem_keys_add m x k d hmem with h1 | h1
        · exact hk h1
        · exact hk'.1 h1
      have := ih hk'.2
      simp only [GoMap.keys] at hn this
      simp [GoMap.add, GoMap.keys, hk, hn, this]

/-- One trial adds one entry unit to `freq` and one absorption to the counters. -/
theorem trial_totals (fuel : Nat) (draws : Nat → K) (ET0 ET1 P10 P01 P1T P0T : K)
    (s s1 : SimState) (h : trial fuel draws ET0 ET1 P10 P01 P1T P0T s = some s1) :
    (s.freq.keys.Nodup → s1.freq.keys.Nodup) ∧ s1.freq.values.sum = s.freq.values.sum + 1 ∧
    s1.transitionCount.get "P0T" + s1.transitionCount.get "P1T"
      = s.transitionCount.get "P0T" + s.transitionCount.get "P1T" + 1 := by
  obtain ⟨r, first, last, name, h0, hr, -, -, -, -, rfl⟩ :=
    trial_spec fuel draws ET0 ET1 P10 P01 P1T P0T s s1 h
  obtain ⟨m, -, -, -, -, htc⟩ := wifi_visit_spec fuel draws (s.pos + 1) first P10 P01 P1T P0T
    s.transitionCount r h0 hr
  refine ⟨GoMap.keys_add_nodup _ _ _, GoMap.values_sum_add _ _ _, ?_⟩
  simp only [htc "P0T", htc "P1T"]
  rcases altPath_getLast_mem m first h0 with hl | hl
  · simp [hl]; ring
  · simp [hl]; ring

theorem simLoop_totals (fuel : Nat) (draws : Nat → K) (ET0 ET1 P10 P01 P1T P0T : K) :
    ∀ (k : Nat) (s s2 : SimState),
      simLoop fuel draws ET0 ET1 P10 P01 P1T P0T k s = some s2 →
      (s.freq.keys.Nodup → s2.freq.keys.Nodup) ∧
      s2.freq.values.sum = s.freq.values.sum + (k : Int) ∧
      s2.transitionCount.get "P0T" + s2.transitionCount.get "P1T"
        = s.transitionCount.get "P0T" + s.transitionCount.get "P1T" + (k : Int) := by
  intro k
  induction k with
  | zero =>
    intro s s2 h
    simp only [simLoop, Option.some.injEq] at h
    subst h
    simp
  | succ k ih =>
    intro s s2 h
    simp only [simLoop] at h
    cases ht : trial fuel draws ET0 ET1 P10 P01 P1T P0T s with
    | none => simp [ht] at h
    | some s1 =>
      simp only [ht] at h
      obtain ⟨a1, a2, a3⟩ := trial_totals fuel draws ET0 ET1 P10 P01 P1T P0T s s1 ht
      obtain ⟨b1, b2, b3⟩ := ih s1 s2 h
      refine ⟨fun hn => b1 (a1 hn), ?_, ?_⟩
      · rw [b2, a2]; push_cast; ring
      · rw [b3, a3]; push_cast; ring

/-- C18: after `runSimulations` has run `T >= 0` trials from all-zero counters, every
trial is counted once: `freq` has one entry per key and its values sum to `T`, and
`count[P0T] + count[P1T] = T`. -/
theorem runSimulations_accounts_every_trial (fuel : Nat) (draws : Nat → K) (pos : Nat)
    (counter : Int) (ET0 ET1 P10 P01 P1T P0T lambda0 lambda1 mu : K) (tc : TransitionCount)
    (res : SimResult K) (hT : 0 ≤ counter) (hz : ∀ key : String, tc.get key = 0)
    (h : runSimulations fuel draws pos counter ET0 ET1 P10 P01 P1T P0T lambda0 lambda1 mu tc
      = some res) :
    res.freq.keys.Nodup ∧ res.freq.values.sum = counter ∧
    res.transitionCount.get "P0T" + res.transitionCount.get "P1T" = counter := by
  unfold runSimulations at h
  cases hl : simLoop fuel draws ET0 ET1 P10 P01 P1T P0T counter.toNat ⟨[], [], tc, pos⟩ with
  | none => simp [hl] at h
  | some s =>
    simp only [hl, Option.some.injEq] at h
    subst h
    obtain ⟨b1, b2, b3⟩ := simLoop_totals fuel draws ET0 ET1 P10 P01 P1T P0T counter.toNat
      ⟨[], [], tc, pos⟩ s hl
    have hk : ((counter.toNat : Nat) : Int) = counter := Int.toNat_of_nonneg hT
    refine ⟨b1 (by simp [GoMap.keys]), ?_, ?_⟩
    · simp only [b2, hk]
      simp [GoMap.values]
    · simp only [b3, hk, hz]
      simp

/-- Witness of C18: one trial with the rates of `main` and the draws 1/2, 1/5, 9/10,
from the zeroed counters of `main`. -/
theorem runSimulations_accounts_every_trial_witness :
    ∃ res : SimResult ℚ,
      runSimulations 3 (fun i => if i = 0 then (1 / 2 : ℚ) else if i = 1 then 1 / 5 else 9 / 10)
          0 1 200 400 (4 / 9) (8 / 13) (5 / 9) (5 / 13) (1 / 200) (1 / 400) (1 / 250)
          initialTransitionCount = some res ∧
      (0 : Int) ≤ 1 ∧ (∀ key : String, initialTransitionCount.get key = 0) ∧
      res.freq = [(1, 1)] ∧
      res.transitionCount = [("P10", 1), ("P01", 0), ("P1T", 0), ("P0T", 1)] ∧
      (res.freq.keys.Nodup ∧ res.freq.values.sum = 1 ∧
        res.transitionCount.get "P0T" + res.transitionCount.get "P1T" = 1) := by
  have hz : ∀ key : String, initialTransitionCount.get key = 0 := by
    intro key
    simp only [initialTransitionCount, GoMap.get]
    split_ifs <;> rfl
  have hl : simLoop 3 (fun i => if i = 0 then (1 / 2 : ℚ) else if i = 1 then 1 / 5 else 9 / 10)
      200 400 (4 / 9) (8 / 13) (5 / 9) (5 / 13) 1 ⟨[], [], initialTransitionCount, 0⟩
      = some ⟨[(1, 1)], [(⟨"case2", 1⟩, 1)],
          [("P10", 1), ("P01", 0), ("P1T", 0), ("P0T", 1)], 3⟩ := by
    simp [simLoop, trial, initialstate, wifi_visit, wifi_visit_loop, classify, GoMap.add,
      initialTransitionCount]
    norm_num
  have hs : ∃ res : SimResult ℚ, runSimulations 3
      (fun i => if i = 0 then (1 / 2 : ℚ) else if i = 1 then 1 / 5 else 9 / 10)
      0 1 200 400 (4 / 9) (8 / 13) (5 / 9) (5 / 13) (1 / 200) (1 / 400) (1 / 250)
      initialTransitionCount = some res ∧ res.freq = [(1, 1)] ∧
      res.transitionCount = [("P10", 1), ("P01", 0), ("P1T", 0), ("P0T", 1)] := by
    simp only [runSimulations, Int.toNat_one, hl]
    exact ⟨_, rfl, rfl, rfl⟩
  obtain ⟨res, h, hf, ht⟩ := hs
  exact ⟨res, h, by decide, hz, hf, ht,
    runSimulations_accounts_every_trial 3 _ 0 1 200 400 (4 / 9) (8 / 13) (5 / 9) (5 / 13)
      (1 / 200) (1 / 400) (1 / 250) initialTransitionCount res (by decide) hz h⟩

/-! ## Lemmas on float64 rounding -/

theorem roundHalfEven_dist (q : ℚ) : |(roundHalfEven q : ℚ) - q| ≤ 1 / 2 := by
  have h1 := Int.floor_le q
  have h2 := Int.lt_floor_add_one q
  unfold roundHalfEven
  rw [abs_le]
  split_ifs <;> push_cast <;> constructor <;> linarith

theorem roundHalfEven_eq_of_near (q : ℚ) (z : Int) (h1 : (z : ℚ) - 1 / 2 < q)
    (h2 : q < (z : ℚ) + 1 / 2) : roundHalfEven q = z := by
  have h := abs_le.1 (roundHalfEven_dist q)
  have a : ((roundHalfEven q - z : Int) : ℚ) < 1 := by push_cast; linarith [h.1, h.2]
  have b : (-1 : ℚ) < ((roundHalfEven q - z : Int) : ℚ) := by push_cast; linarith [h.1, h.2]
  have a' : roundHalfEven q - z < 1 := by exact_mod_cast a
  have b' : -1 < roundHalfEven q - z := by exact_mod_cast b
  omega

theorem roundHalfEven_intCast (z : Int) : roundHalfEven (z : ℚ) = z :=
  roundHalfEven_eq_of_near _ z (by linarith) (by linarith)

theorem roundHalfEven_mono (q1 q2 : ℚ) (h : q1 ≤ q2) : roundHalfEven q1 ≤ roundHalfEven q2 := by
  by_contra hlt
  have hlt' : roundHalfEven q2 + 1 ≤ roundHalfEven q1 := by omega
  have hq : ((roundHalfEven q2 + 1 : Int) : ℚ) ≤ (roundHalfEven q1 : ℚ) := by exact_mod_cast hlt'
  push_cast at hq
  have d1 := abs_le.1 (roundHalfEven_dist q1)
  have d2 := abs_le.1 (roundHalfEven_dist q2)
  have e : q1 = q2 := by linarith [d1.1, d1.2, d2.1, d2.2]
  rw [e] at hlt
  exact hlt le_rfl

theorem f64Exponent_eq (x : ℚ) (e : Int) (hx : 0 < x) (h1 : (2 : ℚ) ^ e ≤ x)
    (h2 : x < (2 : ℚ) ^ (e + 1)) (he : -1022 ≤ e) : f64Exponent x = e := by
  have hl : Int.log 2 |x| = e := by
    rw [abs_of_pos hx]
    have a : e ≤ Int.log 2 x :=
      (Int.zpow_le_iff_le_log (R := ℚ) one_lt_two hx).1 (by simpa using h1)
    have b : Int.log 2 x < e + 1 :=
      (Int.lt_zpow_iff_log_lt (R := ℚ) one_lt_two hx).1 (by simpa using h2)
    omega
  rw [f64Exponent, hl]
  exact max_eq_left he

/-- Evaluation of `f64` on a positive number whose binade and nearest significand are
known. -/
theorem f64_eq_of (x : ℚ) (e z : Int) (hx : 0 < x) (h1 : (2 : ℚ) ^ e ≤ x)
    (h2 : x < (2 : ℚ) ^ (e + 1)) (he : -1022 ≤ e)
    (hz1 : ((z : ℚ) - 1 / 2) * 2 ^ (e - 52) < x) (hz2 : x < ((z : ℚ) + 1 / 2) * 2 ^ (e - 52)) :
    f64 x = (z : ℚ) * 2 ^ (e - 52) := by
  have hu : (0 : ℚ) < 2 ^ (e - 52) := by positivity
  rw [f64, f64Exponent_eq x e hx h1 h2 he,
    roundHalfEven_eq_of_near _ z ((lt_div_iff₀ hu).2 hz1) ((div_lt_iff₀ hu).2 hz2)]

theorem f64_zero : f64 0 = 0 := by
  have z : roundHalfEven 0 = 0 := by simpa using roundHalfEven_intCast 0
  simp [f64, z]

theorem f64_nonneg (x : ℚ) (hx : 0 ≤ x) : 0 ≤ f64 x := by
  unfold f64
  have hu : (0 : ℚ) < 2 ^ (f64Exponent x - 52) := by positivity
  have h0 : (0 : Int) ≤ roundHalfEven (x / 2 ^ (f64Exponent x - 52)) := by
    have := roundHalfEven_mono 0 (x / 2 ^ (f64Exponent x - 52)) (div_nonneg hx hu.le)
    have z : roundHalfEven 0 = 0 := by simpa using roundHalfEven_intCast 0
    rwa [z] at this
  have h0' : (0 : ℚ) ≤ (roundHalfEven (x / 2 ^ (f64Exponent x - 52)) : ℚ) := by exact_mod_cast h0
  positivity

/-- Absolute rounding error: half a unit in the last place of the binade of `x`. -/
theorem f64_abs_error (x : ℚ) : |f64 x - x| ≤ 2 ^ (f64Exponent x - 53) := by
  have hu : (0 : ℚ) < 2 ^ (f64Exponent x - 52) := by positivity
  have hx : x = x / 2 ^ (f64Exponent x - 52) * 2 ^ (f64Exponent x - 52) := by
    field_simp
  have e1 : f64 x - x = ((roundHalfEven (x / 2 ^ (f64Exponent x - 52)) : ℚ)
      - x / 2 ^ (f64Exponent x - 52)) * 2 ^ (f64Exponent x - 52) := by
    rw [sub_mul, ← hx]; rfl
  have e2 : (2 : ℚ) ^ (f64Exponent x - 53) = 1 / 2 * 2 ^ (f64Exponent x - 52) := by
    have : f64Exponent x - 53 = (f64Exponent x - 52) + (-1) := by ring
    rw [this, zpow_add₀ (two_ne_zero), zpow_neg_one]; ring
  rw [e1, e2, abs_mul, abs_of_pos hu]
  exact mul_le_mul_of_nonneg_right (roundHalfEven_dist _) hu.le

/-- Relative rounding error in the normal range. -/
theorem f64_rel_error (x : ℚ) (hx : (2 : ℚ) ^ (-1022 : Int) ≤ x) :
    |f64 x - x| ≤ 2 ^ (-53 : Int) * x := by
  have hpos : 0 < x := lt_of_lt_of_le (by positivity) hx
  have hle : (-1022 : Int) ≤ Int.log 2 x :=
    (Int.zpow_le_iff_le_log (R := ℚ) one_lt_two hpos).1 (by simpa using hx)
  have hexp : f64Exponent x = Int.log 2 x := by
    rw [f64Exponent, abs_of_pos hpos]
    exact max_eq_left hle
  have hlow : (2 : ℚ) ^ (Int.log 2 x) ≤ x := by
    simpa using Int.zpow_log_le_self (R := ℚ) one_lt_two hpos
  refine le_trans (f64_abs_error x) ?_
  rw [hexp]
  have : Int.log 2 x - 53 = (-53) + Int.log 2 x := by ring
  rw [this, zpow_add₀ (two_ne_zero)]
  exact mul_le_mul_of_nonneg_left hlow (by positivity)

/-- Rounding error for any non-negative operand, subnormal results included. -/
theorem f64_error (x : ℚ) (hx : 0 ≤ x) :
    |f64 x - x| ≤ 2 ^ (-53 : Int) * x + 2 ^ (-1075 : Int) := by
  by_cases hn : (2 : ℚ) ^ (-1022 : Int) ≤ x
  · have := f64_rel_error x hn
    have : (0 : ℚ) < 2 ^ (-1075 : Int) := by positivity
    linarith [f64_rel_error x hn]
  · rcases eq_or_lt_of_le hx with h0 | hpos
    · rw [← h0, f64_zero]
      simp
      positivity
    · have hlog : Int.log 2 x < -1022 :=
        (Int.lt_zpow_iff_log_lt (R := ℚ) one_lt_two hpos).1 (by simpa using not_le.1 hn)
      have hexp : f64Exponent x = -1022 := by
        rw [f64Exponent, abs_of_pos hpos]
        exact max_eq_right hlog.le
      have := f64_abs_error x
      rw [hexp] at this
      have h2 : (0 : ℚ) ≤ 2 ^ (-53 : Int) * x := by positivity
      have e : ((-1022 : Int) - 53) = -1075 := by norm_num
      rw [e] at this
      linarith

theorem roundHalfEven_le_of_le (q : ℚ) (n : Int) (h : q ≤ (n : ℚ)) : roundHalfEven q ≤ n := by
  have := roundHalfEven_mono q n h
  rwa [roundHalfEven_intCast] at this

theorem roundHalfEven_ge_of_ge (q : ℚ) (n : Int) (h : (n : ℚ) ≤ q) : n ≤ roundHalfEven q := by
  have := roundHalfEven_mono n q h
  rwa [roundHalfEven_intCast] at this

theorem lt_zpow_f64Exponent (x : ℚ) (hx : 0 < x) : x < 2 ^ (f64Exponent x + 1) := by
  have h1 : x < (2 : ℚ) ^ (Int.log 2 x + 1) := by
    simpa using Int.lt_zpow_succ_log_self (R := ℚ) one_lt_two x
  have h2 : Int.log 2 x + 1 ≤ f64Exponent x + 1 := by
    rw [f64Exponent, abs_of_pos hx]
    have := le_max_left (Int.log 2 x) (-1022)
    omega
  exact lt_of_lt_of_le h1 (zpow_le_zpow_right₀ (by norm_num) h2)

theorem zpow_f64Exponent_le (x : ℚ) (hx : 0 < x) (he : -1022 < f64Exponent x) :
    (2 : ℚ) ^ f64Exponent x ≤ x := by
  have hexp : f64Exponent x = Int.log 2 x := by
    rw [f64Exponent, abs_of_pos hx] at he ⊢
    rcases le_total (Int.log 2 x) (-1022) with h | h
    · rw [max_eq_right h] at he; omega
    · exact max_eq_left h
  rw [hexp]
  simpa using Int.zpow_log_le_self (R := ℚ) one_lt_two hx

theorem f64Exponent_mono (x y : ℚ) (hx : 0 < x) (h : x ≤ y) :
    f64Exponent x ≤ f64Exponent y := by
  have hy : 0 < y := lt_of_lt_of_le hx h
  rw [f64Exponent, f64Exponent, abs_of_pos hx, abs_of_pos hy]
  exact max_le_max (Int.log_mono_right hx h) le_rfl

/-- Rounding to float64 keeps the order of non-negative numbers. -/
theorem f64_mono (x y : ℚ) (hx : 0 ≤ x) (h : x ≤ y) : f64 x ≤ f64 y := by
  rcases eq_or_lt_of_le hx with h0 | hpos
  · rw [← h0, f64_zero]
    exact f64_nonneg y (le_trans hx h)
  · have hy : 0 < y := lt_of_lt_of_le hpos h
    rcases eq_or_lt_of_le (f64Exponent_mono x y hpos h) with he | he
    · unfold f64
      rw [he]
      have hu : (0 : ℚ) < 2 ^ (f64Exponent y - 52) := by positivity
      have hq := roundHalfEven_mono (x / 2 ^ (f64Exponent y - 52))
        (y / 2 ^ (f64Exponent y - 52)) (div_le_div_of_nonneg_right h hu.le)
      have hq' : (roundHalfEven (x / 2 ^ (f64Exponent y - 52)) : ℚ)
          ≤ (roundHalfEven (y / 2 ^ (f64Exponent y - 52)) : ℚ) := by exact_mod_cast hq
      exact mul_le_mul_of_nonneg_right hq' hu.le
    · have hux : (0 : ℚ) < 2 ^ (f64Exponent x - 52) := by positivity
      have huy : (0 : ℚ) < 2 ^ (f64Exponent y - 52) := by positivity
      have a1 : x / 2 ^ (f64Exponent x - 52) ≤ ((2 ^ 53 : Int) : ℚ) := by
        rw [div_le_iff₀ hux]
        have e : (((2 ^ 53 : Int) : ℚ)) * 2 ^ (f64Exponent x - 52)
            = 2 ^ (f64Exponent x + 1) := by
          have : f64Exponent x + 1 = 53 + (f64Exponent x - 52) := by ring
          rw [this, zpow_add₀ (two_ne_zero)]
          norm_num
        rw [e]
        exact (lt_zpow_f64Exponent x hpos).le
      have a2 : ((2 ^ 52 : Int) : ℚ) ≤ y / 2 ^ (f64Exponent y - 52) := by
        rw [le_div_iff₀ huy]
        have e : (((2 ^ 52 : Int) : ℚ)) * 2 ^ (f64Exponent y - 52) = 2 ^ (f64Exponent y) := by
          have : f64Exponent y = 52 + (f64Exponent y - 52) := by ring
          nth_rewrite 2 [this]
          rw [zpow_add₀ (two_ne_zero)]
          norm_num
        rw [e]
        have hlow : -1022 ≤ f64Exponent x := le_max_right _ _
        exact zpow_f64Exponent_le y hy (by omega)
      have b1 : (roundHalfEven (x / 2 ^ (f64Exponent x - 52)) : ℚ) ≤ ((2 ^ 53 : Int) : ℚ) := by
        exact_mod_cast roundHalfEven_le_of_le _ _ a1
      have b2 : ((2 ^ 52 : Int) : ℚ) ≤ (roundHalfEven (y / 2 ^ (f64Exponent y - 52)) : ℚ) := by
        exact_mod_cast roundHalfEven_ge_of_ge _ _ a2
      have c1 : f64 x ≤ 2 ^ (f64Exponent x + 1) := by
        unfold f64
        have e : (2 : ℚ) ^ (f64Exponent x + 1)
            = ((2 ^ 53 : Int) : ℚ) * 2 ^ (f64Exponent x - 52) := by
          have : f64Exponent x + 1 = 53 + (f64Exponent x - 52) := by ring
          rw [this, zpow_add₀ (two_ne_zero)]
          norm_num
        rw [e]
        exact mul_le_mul_of_nonneg_right b1 hux.le
      have c2 : (2 : ℚ) ^ (f64Exponent y) ≤ f64 y := by
        unfold f64
        have e : (2 : ℚ) ^ (f64Exponent y)
            = ((2 ^ 52 : Int) : ℚ) * 2 ^ (f64Exponent y - 52) := by
          have : f64Exponent y = 52 + (f64Exponent y - 52) := by ring
          nth_rewrite 1 [this]
          rw [zpow_add₀ (two_ne_zero)]
          norm_num
        rw [e]
        exact mul_le_mul_of_nonneg_right b2 huy.le
      have c3 : (2 : ℚ) ^ (f64Exponent x + 1) ≤ 2 ^ (f64Exponent y) :=
        zpow_le_zpow_right₀ (by norm_num) (by omega)
      linarith

theorem f64_one : f64 1 = 1 := by
  have := f64_eq_of 1 0 (2 ^ 52) (by norm_num) (by norm_num) (by norm_num) (by norm_num)
    (by norm_num) (by norm_num)
  rw [this]
  norm_num

theorem roundHalfEven_eq_of_near_even (q : ℚ) (z : Int) (h1 : (z : ℚ) - 1 / 2 ≤ q)
    (h2 : q ≤ (z : ℚ) + 1 / 2) (hz : z % 2 = 0) : roundHalfEven q = z := by
  rcases eq_or_lt_of_le h1 with e1 | l1
  · have hf : ⌊q⌋ = z - 1 := by
      rw [Int.floor_eq_iff]; push_cast; constructor <;> linarith
    have hodd : ¬ (z - 1) % 2 = 0 := by omega
    unfold roundHalfEven
    rw [hf]
    have a : ¬ (q - ((z - 1 : Int) : ℚ) < 1 / 2) := by push_cast; linarith
    have b : ¬ (1 / 2 < q - ((z - 1 : Int) : ℚ)) := by push_cast; linarith
    simp only [a, b, hodd, if_false]
    ring
  · rcases eq_or_lt_of_le h2 with e2 | l2
    · have hf : ⌊q⌋ = z := by
        rw [Int.floor_eq_iff]; constructor <;> linarith
      unfold roundHalfEven
      rw [hf]
      have a : ¬ (q - (z : ℚ) < 1 / 2) := by linarith
      have b : ¬ (1 / 2 < q - (z : ℚ)) := by linarith
      simp only [a, b, hz, if_false, if_true]
    · exact roundHalfEven_eq_of_near q z l1 l2

/-- Evaluation of `f64` when the operand is half-way between two float64 values: the
one with the even significand is taken. -/
theorem f64_eval_even (x v : ℚ) (e z : Int) (hx : 0 < x) (h1 : (2 : ℚ) ^ e ≤ x)
    (h2 : x < (2 : ℚ) ^ (e + 1)) (he : -1022 ≤ e)
    (hz1 : ((z : ℚ) - 1 / 2) * 2 ^ (e - 52) ≤ x) (hz2 : x ≤ ((z : ℚ) + 1 / 2) * 2 ^ (e - 52))
    (hz : z % 2 = 0) (hv : v = (z : ℚ) * 2 ^ (e - 52)) : f64 x = v := by
  have hu : (0 : ℚ) < 2 ^ (e - 52) := by positivity
  rw [hv, f64, f64Exponent_eq x e hx h1 h2 he,
    roundHalfEven_eq_of_near_even _ z ((le_div_iff₀ hu).2 hz1) ((div_le_iff₀ hu).2 hz2) hz]

theorem f64_eval (x v : ℚ) (e z : Int) (hx : 0 < x) (h1 : (2 : ℚ) ^ e ≤ x)
    (h2 : x < (2 : ℚ) ^ (e + 1)) (he : -1022 ≤ e)
    (hz1 : ((z : ℚ) - 1 / 2) * 2 ^ (e - 52) < x) (hz2 : x < ((z : ℚ) + 1 / 2) * 2 ^ (e - 52))
    (hv : v = (z : ℚ) * 2 ^ (e - 52)) : f64 x = v := by
  rw [hv]
  exact f64_eq_of x e z hx h1 h2 he hz1 hz2

/-- The rates of `main` as float64 values. -/
theorem main_rates_values :
    mainLambda0 = 5764607523034235 / 2 ^ 60 ∧ mainLambda1 = 5764607523034235 / 2 ^ 61 ∧ mainMu = 1152921504606847 / 2 ^ 58 := by
  refine ⟨?_, ?_, ?_⟩
  · exact f64_eval (1 / 200) (5764607523034235 / 2 ^ 60) (-8) 5764607523034235 (by norm_num) (by norm_num) (by norm_num)
      (by norm_num) (by norm_num) (by norm_num) (by norm_num)
  · exact f64_eval (1 / 400) (5764607523034235 / 2 ^ 61) (-9) 5764607523034235 (by norm_num) (by norm_num) (by norm_num)
      (by norm_num) (by norm_num) (by norm_num) (by norm_num)
  · exact f64_eval (1 / 250) (1152921504606847 / 2 ^ 58) (-8) 4611686018427388 (by norm_num) (by norm_num) (by norm_num)
      (by norm_num) (by norm_num) (by norm_num) (by norm_num)

/-- The derived probabilities of `main` as float64 values. -/
theorem main_probabilities_values :
    P01_f64 mainLambda1 mainMu = 5542891849071379 / 2 ^ 53 ∧ P0T_f64 mainLambda1 mainMu = 866076851417403 / 2 ^ 51 ∧
    P10_f64 mainLambda0 mainMu = 2001599834386887 / 2 ^ 52 ∧ P1T_f64 mainLambda0 mainMu = 5003999585967217 / 2 ^ 53 := by
  obtain ⟨h0, h1, hm⟩ := main_rates_values
  have hs1 : f64 (5764607523034235 / 2 ^ 61 + 1152921504606847 / 2 ^ 58) = 3746994889972253 / 2 ^ 59 :=
    f64_eval_even (5764607523034235 / 2 ^ 61 + 1152921504606847 / 2 ^ 58) (3746994889972253 / 2 ^ 59) (-8) 7493989779944506 (by norm_num) (by norm_num) (by norm_num)
      (by norm_num) (by norm_num) (by norm_num) (by decide) (by norm_num)
  have hs0 : f64 (5764607523034235 / 2 ^ 60 + 1152921504606847 / 2 ^ 58) = 1297036692682703 / 2 ^ 57 :=
    f64_eval_even (5764607523034235 / 2 ^ 60 + 1152921504606847 / 2 ^ 58) (1297036692682703 / 2 ^ 57) (-7) 5188146770730812 (by norm_num) (by norm_num) (by norm_num)
      (by norm_num) (by norm_num) (by norm_num) (by decide) (by norm_num)
  refine ⟨?_, ?_, ?_, ?_⟩
  · rw [P01_f64, h1, hm, hs1]
    exact f64_eval ((1152921504606847 / 2 ^ 58) / (3746994889972253 / 2 ^ 59)) (5542891849071379 / 2 ^ 53) (-1) 5542891849071379 (by norm_num) (by norm_num) (by norm_num)
      (by norm_num) (by norm_num) (by norm_num) (by norm_num)
  · rw [P0T_f64, h1, hm, hs1]
    exact f64_eval ((5764607523034235 / 2 ^ 61) / (3746994889972253 / 2 ^ 59)) (866076851417403 / 2 ^ 51) (-2) 6928614811339224 (by norm_num) (by norm_num) (by norm_num)
      (by norm_num) (by norm_num) (by norm_num) (by norm_num)
  · rw [P10_f64, h0, hm, hs0]
    exact f64_eval ((1152921504606847 / 2 ^ 58) / (1297036692682703 / 2 ^ 57)) (2001599834386887 / 2 ^ 52) (-2) 8006399337547548 (by norm_num) (by norm_num) (by norm_num)
      (by norm_num) (by norm_num) (by norm_num) (by norm_num)
  · rw [P1T_f64, h0, hm, hs0]
    exact f64_eval ((5764607523034235 / 2 ^ 60) / (1297036692682703 / 2 ^ 57)) (5003999585967217 / 2 ^ 53) (-1) 5003999585967217 (by norm_num) (by norm_num) (by norm_num)
      (by norm_num) (by norm_num) (by norm_num) (by norm_num)

/-- C6 fails on the float64 values the code computes: at the rates of `main`
(`math.Pow(200,-1)`, `math.Pow(400,-1)`, `math.Pow(250,-1)`) the float64 sums
`P01 + P0T` and `P10 + P1T` are both `1 - 2^-53` (printed 0.9999999999999999), not 1,
and `P0T`, `P1T` differ from the float64 values of `1 - P01`, `1 - P10`. -/
theorem derived_probabilities_f64_not_complement :
    (0 < mainLambda0 ∧ 0 < mainLambda1 ∧ 0 < mainMu) ∧
    f64 (P01_f64 mainLambda1 mainMu + P0T_f64 mainLambda1 mainMu) = 1 - 1 / 2 ^ 53 ∧
    f64 (P10_f64 mainLambda0 mainMu + P1T_f64 mainLambda0 mainMu) = 1 - 1 / 2 ^ 53 ∧
    f64 (P01_f64 mainLambda1 mainMu + P0T_f64 mainLambda1 mainMu) ≠ 1 ∧
    f64 (P10_f64 mainLambda0 mainMu + P1T_f64 mainLambda0 mainMu) ≠ 1 ∧
    P0T_f64 mainLambda1 mainMu ≠ f64 (1 - P01_f64 mainLambda1 mainMu) ∧
    P1T_f64 mainLambda0 mainMu ≠ f64 (1 - P10_f64 mainLambda0 mainMu) := by
  obtain ⟨h0, h1, hm⟩ := main_rates_values
  obtain ⟨p01, p0T, p10, p1T⟩ := main_probabilities_values
  have hsum1 : f64 (5542891849071379 / 2 ^ 53 + 866076851417403 / 2 ^ 51) = 1 - 1 / 2 ^ 53 :=
    f64_eval (5542891849071379 / 2 ^ 53 + 866076851417403 / 2 ^ 51) (1 - 1 / 2 ^ 53) (-1) 9007199254740991 (by norm_num) (by norm_num) (by norm_num)
      (by norm_num) (by norm_num) (by norm_num) (by norm_num)
  have hsum0 : f64 (2001599834386887 / 2 ^ 52 + 5003999585967217 / 2 ^ 53) = 1 - 1 / 2 ^ 53 :=
    f64_eval (2001599834386887 / 2 ^ 52 + 5003999585967217 / 2 ^ 53) (1 - 1 / 2 ^ 53) (-1) 9007199254740991 (by norm_num) (by norm_num) (by norm_num)
      (by norm_num) (by norm_num) (by norm_num) (by norm_num)
  have hc1 : f64 (1 - 5542891849071379 / 2 ^ 53) = 3464307405669613 / 2 ^ 53 :=
    f64_eval (1 - 5542891849071379 / 2 ^ 53) (3464307405669613 / 2 ^ 53) (-2) 6928614811339226 (by norm_num) (by norm_num) (by norm_num)
      (by norm_num) (by norm_num) (by norm_num) (by norm_num)
  have hc0 : f64 (1 - 2001599834386887 / 2 ^ 52) = 2501999792983609 / 2 ^ 52 :=
    f64_eval (1 - 2001599834386887 / 2 ^ 52) (2501999792983609 / 2 ^ 52) (-1) 5003999585967218 (by norm_num) (by norm_num) (by norm_num)
      (by norm_num) (by norm_num) (by norm_num) (by norm_num)
  refine ⟨⟨?_, ?_, ?_⟩, ?_, ?_, ?_, ?_, ?_, ?_⟩
  · rw [h0]; norm_num
  · rw [h1]; norm_num
  · rw [hm]; norm_num
  · rw [p01, p0T, hsum1]
  · rw [p10, p1T, hsum0]
  · rw [p01, p0T, hsum1]; norm_num
  · rw [p10, p1T, hsum0]; norm_num
  · rw [p01, p0T, hc1]; norm_num
  · rw [p10, p1T, hc0]; norm_num

/-- Rounding error with decimal bounds, for a non-negative operand. -/
theorem f64_error_dec (x : ℚ) (hx : 0 ≤ x) :
    |f64 x - x| ≤ 1 / 10 ^ 15 * x + 1 / 10 ^ 15 := by
  have h := f64_error x hx
  have e1 : (2 : ℚ) ^ (-53 : Int) ≤ 1 / 10 ^ 15 := by norm_num
  have e2 : (2 : ℚ) ^ (-1075 : Int) ≤ 1 / 10 ^ 15 := by
    have : (2 : ℚ) ^ (-1075 : Int) ≤ 2 ^ (-53 : Int) :=
      zpow_le_zpow_right₀ (by norm_num) (by norm_num)
    exact le_trans this e1
  have e3 : (2 : ℚ) ^ (-53 : Int) * x ≤ 1 / 10 ^ 15 * x := mul_le_mul_of_nonneg_right e1 hx
  exact le_trans h (add_le_add e3 e2)

theorem f64_rel_error_dec (x : ℚ) (hx : (2 : ℚ) ^ (-1022 : Int) ≤ x) :
    |f64 x - x| ≤ 1 / 10 ^ 15 * x := by
  have h := f64_rel_error x hx
  have hpos : 0 ≤ x := le_trans (by positivity) hx
  have e1 : (2 : ℚ) ^ (-53 : Int) ≤ 1 / 10 ^ 15 := by norm_num
  have e3 : (2 : ℚ) ^ (-53 : Int) * x ≤ 1 / 10 ^ 15 * x := mul_le_mul_of_nonneg_right e1 hpos
  exact le_trans h e3

/-- The float64 sum of the two float64 quotients `mu/(l+mu)` and `l/(l+mu)` is within
`1e-12` of 1 when `l + mu` is in the normal range. -/
theorem f64_quotients_sum (l mu : ℚ) (hl : 0 < l) (hmu : 0 < mu)
    (hS : (2 : ℚ) ^ (-1022 : Int) ≤ l + mu) :
    |f64 (f64 (mu / f64 (l + mu)) + f64 (l / f64 (l + mu))) - 1| ≤ 1 / 10 ^ 12 := by
  have hSpos : 0 < l + mu := add_pos hl hmu
  have hs := abs_le.1 (f64_rel_error_dec (l + mu) hS)
  set s := f64 (l + mu) with hsdef
  have hspos : 0 < s := by nlinarith [hs.1]
  have ha := abs_le.1 (f64_error_dec (mu / s) (div_nonneg hmu.le hspos.le))
  have hb := abs_le.1 (f64_error_dec (l / s) (div_nonneg hl.le hspos.le))
  set a := f64 (mu / s) with hadef
  set b := f64 (l / s) with hbdef
  have hrho : mu / s + l / s = (l + mu) / s := by ring
  -- bounds on (l + mu) / s
  have r1 : (1 - 1 / 10 ^ 15) * ((l + mu) / s) ≤ 1 := by
    rw [← mul_div_assoc, div_le_one hspos]
    linarith [hs.1]
  have r2 : 1 ≤ (1 + 1 / 10 ^ 15) * ((l + mu) / s) := by
    rw [← mul_div_assoc, one_le_div hspos]
    linarith [hs.2]
  have hab1 : 1 - 4 / 10 ^ 15 ≤ a + b := by
    have : (1 : ℚ) - 3 / 10 ^ 15 ≤ (1 - 1 / 10 ^ 15) * ((l + mu) / s) := by
      nlinarith [r2]
    linarith [ha.1, hb.1]
  have hab2 : a + b ≤ 1 + 6 / 10 ^ 15 := by
    have : (1 + 1 / 10 ^ 15) * ((l + mu) / s) ≤ 1 + 3 / 10 ^ 15 := by
      nlinarith [r1]
    linarith [ha.2, hb.2]
  have hnorm : (2 : ℚ) ^ (-1022 : Int) ≤ a + b := by
    have : (2 : ℚ) ^ (-1022 : Int) ≤ 2 ^ (-1 : Int) :=
      zpow_le_zpow_right₀ (by norm_num) (by norm_num)
    have h2 : (2 : ℚ) ^ (-1 : Int) = 1 / 2 := by norm_num
    rw [h2] at this
    refine le_trans this ?_
    linarith
  have ht := abs_le.1 (f64_rel_error_dec (a + b) hnorm)
  rw [abs_le]
  constructor
  · linarith [ht.1]
  · linarith [ht.2]

/-- A float64 quotient `x / (x + y)` of positive float64 values lies in `[0, 1]`. -/
theorem f64_quotient_unit (x y : ℚ) (hx : 0 < x) (hy : 0 ≤ y) (hfx : IsF64 x) :
    0 ≤ f64 (x / f64 (x + y)) ∧ f64 (x / f64 (x + y)) ≤ 1 := by
  have hs : x ≤ f64 (x + y) := by
    have := f64_mono x (x + y) hx.le (by linarith)
    rwa [hfx] at this
  have hspos : 0 < f64 (x + y) := lt_of_lt_of_le hx hs
  have hq0 : 0 ≤ x / f64 (x + y) := div_nonneg hx.le hspos.le
  have hq1 : x / f64 (x + y) ≤ 1 := (div_le_one hspos).2 hs
  refine ⟨f64_nonneg _ hq0, ?_⟩
  have := f64_mono _ 1 hq0 hq1
  rwa [f64_one] at this

theorem derived_probabilities_exact_complement {K : Type} [LinearOrderedField K]
    (lambda0 lambda1 mu : K) (h0 : 0 < lambda0) (h1 : 0 < lambda1) (hmu : 0 < mu) :
    P01 lambda1 mu + P0T lambda1 mu = 1 ∧ P10 lambda0 mu + P1T lambda0 mu = 1 ∧
    P0T lambda1 mu = 1 - P01 lambda1 mu ∧ P1T lambda0 mu = 1 - P10 lambda0 mu := by
  have hs0 : lambda0 + mu ≠ 0 := ne_of_gt (add_pos h0 hmu)
  have hs1 : lambda1 + mu ≠ 0 := ne_of_gt (add_pos h1 hmu)
  unfold P01 P0T P10 P1T
  refine ⟨?_, ?_, ?_, ?_⟩ <;> field_simp <;> ring

theorem derived_probabilities_exact_interval {K : Type} [LinearOrderedField K]
    (lambda0 lambda1 mu : K) (h0 : 0 < lambda0) (h1 : 0 < lambda1) (hmu : 0 < mu) :
    (0 < P01 lambda1 mu ∧ P01 lambda1 mu < 1) ∧ (0 < P0T lambda1 mu ∧ P0T lambda1 mu < 1) ∧
    (0 < P10 lambda0 mu ∧ P10 lambda0 mu < 1) ∧ (0 < P1T lambda0 mu ∧ P1T lambda0 mu < 1) := by
  have hs0 : 0 < lambda0 + mu := add_pos h0 hmu
  have hs1 : 0 < lambda1 + mu := add_pos h1 hmu
  unfold P01 P0T P10 P1T
  refine ⟨⟨div_pos hmu hs1, ?_⟩, ⟨div_pos h1 hs1, ?_⟩, ⟨div_pos hmu hs0, ?_⟩,
    ⟨div_pos h0 hs0, ?_⟩⟩
  · rw [div_lt_one hs1]; linarith
  · rw [div_lt_one hs1]; linarith
  · rw [div_lt_one hs0]; linarith
  · rw [div_lt_one hs0]; linarith

/-- C6 (as the code behaves): for positive rates the identities `P01 + P0T = 1`,
`P10 + P1T = 1` (so `P0T = 1 - P01`, `P1T = 1 - P10`) hold exactly in exact arithmetic;
the float64 values that the code computes satisfy them within `1e-12`, for rates whose
sums `lambda0 + mu`, `lambda1 + mu` are in the normal float64 range
`[2^-1022, 2^1023]`. -/
theorem derived_probabilities_complement :
    (∀ lambda0 lambda1 mu : K, 0 < lambda0 → 0 < lambda1 → 0 < mu →
      P01 lambda1 mu + P0T lambda1 mu = 1 ∧ P10 lambda0 mu + P1T lambda0 mu = 1 ∧
      P0T lambda1 mu = 1 - P01 lambda1 mu ∧ P1T lambda0 mu = 1 - P10 lambda0 mu) ∧
    (∀ lambda0 lambda1 mu : ℚ, 0 < lambda0 → 0 < lambda1 → 0 < mu →
      (2 : ℚ) ^ (-1022 : Int) ≤ lambda0 + mu → lambda0 + mu ≤ 2 ^ 1023 →
      (2 : ℚ) ^ (-1022 : Int) ≤ lambda1 + mu → lambda1 + mu ≤ 2 ^ 1023 →
      |f64 (P01_f64 lambda1 mu + P0T_f64 lambda1 mu) - 1| ≤ 1 / 10 ^ 12 ∧
      |f64 (P10_f64 lambda0 mu + P1T_f64 lambda0 mu) - 1| ≤ 1 / 10 ^ 12) := by
  refine ⟨fun lambda0 lambda1 mu h0 h1 hmu =>
    derived_probabilities_exact_complement lambda0 lambda1 mu h0 h1 hmu, ?_⟩
  intro lambda0 lambda1 mu h0 h1 hmu hn0 _ hn1 _
  exact ⟨f64_quotients_sum lambda1 mu h1 hmu hn1, f64_quotients_sum lambda0 mu h0 hmu hn0⟩

/-- Witness of C6 (as the code behaves): the rates of `main`, as the rationals 1/200,
1/400, 1/250 and as the float64 values of `math.Pow`. -/
theorem derived_probabilities_complement_witness :
    ((0 : ℚ) < 1 / 200 ∧ (0 : ℚ) < 1 / 400 ∧ (0 : ℚ) < 1 / 250) ∧
    (0 < mainLambda0 ∧ 0 < mainLambda1 ∧ 0 < mainMu ∧
      (2 : ℚ) ^ (-1022 : Int) ≤ mainLambda0 + mainMu ∧ mainLambda0 + mainMu ≤ 2 ^ 1023 ∧
      (2 : ℚ) ^ (-1022 : Int) ≤ mainLambda1 + mainMu ∧ mainLambda1 + mainMu ≤ 2 ^ 1023) ∧
    (P01 (1 / 400 : ℚ) (1 / 250) + P0T (1 / 400 : ℚ) (1 / 250) = 1 ∧
      P10 (1 / 200 : ℚ) (1 / 250) + P1T (1 / 200 : ℚ) (1 / 250) = 1 ∧
      P0T (1 / 400 : ℚ) (1 / 250) = 1 - P01 (1 / 400 : ℚ) (1 / 250) ∧
      P1T (1 / 200 : ℚ) (1 / 250) = 1 - P10 (1 / 200 : ℚ) (1 / 250)) ∧
    (|f64 (P01_f64 mainLambda1 mainMu + P0T_f64 mainLambda1 mainMu) - 1| ≤ 1 / 10 ^ 12 ∧
      |f64 (P10_f64 mainLambda0 mainMu + P1T_f64 mainLambda0 mainMu) - 1| ≤ 1 / 10 ^ 12) := by
  obtain ⟨h0, h1, hm⟩ := main_rates_values
  have p0 : 0 < mainLambda0 := by rw [h0]; norm_num
  have p1 : 0 < mainLambda1 := by rw [h1]; norm_num
  have pm : 0 < mainMu := by rw [hm]; norm_num
  have n1 : (2 : ℚ) ^ (-1022 : Int) ≤ mainLambda0 + mainMu := by rw [h0, hm]; norm_num
  have n2 : mainLambda0 + mainMu ≤ 2 ^ 1023 := by rw [h0, hm]; norm_num
  have n3 : (2 : ℚ) ^ (-1022 : Int) ≤ mainLambda1 + mainMu := by rw [h1, hm]; norm_num
  have n4 : mainLambda1 + mainMu ≤ 2 ^ 1023 := by rw [h1, hm]; norm_num
  exact ⟨⟨by norm_num, by norm_num, by norm_num⟩, ⟨p0, p1, pm, n1, n2, n3, n4⟩,
    (@derived_probabilities_complement ℚ _).1 (1 / 200) (1 / 400) (1 / 250) (by norm_num)
      (by norm_num) (by norm_num),
    (@derived_probabilities_complement ℚ _).2 mainLambda0 mainLambda1 mainMu p0 p1 pm
      n1 n2 n3 n4⟩

/-- C11 fails on the float64 values the code computes: for the positive float64 rates
`lambda1 = 1` and `mu = 2^-60` the sum `lambda1 + mu` rounds to 1 and `P0T` is exactly
1, not below 1. -/
theorem derived_probability_f64_reaches_one :
    ((0 : ℚ) < 1 ∧ (0 : ℚ) < 1 / 2 ^ 60 ∧ IsF64 1 ∧ IsF64 (1 / 2 ^ 60)) ∧
    f64 (1 + 1 / 2 ^ 60) = 1 ∧ P0T_f64 1 (1 / 2 ^ 60) = 1 ∧ ¬ P0T_f64 1 (1 / 2 ^ 60) < 1 := by
  have e1 : f64 (1 + 1 / 2 ^ 60) = 1 :=
    f64_eval (1 + 1 / 2 ^ 60) 1 0 (2 ^ 52) (by norm_num) (by norm_num) (by norm_num)
      (by norm_num) (by norm_num) (by norm_num) (by norm_num)
  have e2 : f64 (1 / 2 ^ 60) = 1 / 2 ^ 60 :=
    f64_eval (1 / 2 ^ 60) (1 / 2 ^ 60) (-60) (2 ^ 52) (by norm_num) (by norm_num) (by norm_num)
      (by norm_num) (by norm_num) (by norm_num) (by norm_num)
  have e3 : P0T_f64 1 (1 / 2 ^ 60) = 1 := by
    rw [P0T_f64, e1, div_one, f64_one]
  refine ⟨⟨by norm_num, by norm_num, f64_one, e2⟩, e1, e3, ?_⟩
  rw [e3]
  exact lt_irrefl 1

/-- C11 (as the code behaves): for positive rates each of `P01`, `P0T`, `P10`, `P1T` lies
strictly between 0 and 1 in exact arithmetic; the float64 values that the code computes
from positive float64 rates (sums not above `2^1023`, so nothing overflows) lie in the
closed interval from 0 to 1. -/
theorem derived_probabilities_in_unit_interval :
    (∀ lambda0 lambda1 mu : K, 0 < lambda0 → 0 < lambda1 → 0 < mu →
      (0 < P01 lambda1 mu ∧ P01 lambda1 mu < 1) ∧ (0 < P0T lambda1 mu ∧ P0T lambda1 mu < 1) ∧
      (0 < P10 lambda0 mu ∧ P10 lambda0 mu < 1) ∧ (0 < P1T lambda0 mu ∧ P1T lambda0 mu < 1)) ∧
    (∀ lambda0 lambda1 mu : ℚ, 0 < lambda0 → 0 < lambda1 → 0 < mu →
      IsF64 lambda0 → IsF64 lambda1 → IsF64 mu →
      lambda0 + mu ≤ 2 ^ 1023 → lambda1 + mu ≤ 2 ^ 1023 →
      (0 ≤ P01_f64 lambda1 mu ∧ P01_f64 lambda1 mu ≤ 1) ∧
      (0 ≤ P0T_f64 lambda1 mu ∧ P0T_f64 lambda1 mu ≤ 1) ∧
      (0 ≤ P10_f64 lambda0 mu ∧ P10_f64 lambda0 mu ≤ 1) ∧
      (0 ≤ P1T_f64 lambda0 mu ∧ P1T_f64 lambda0 mu ≤ 1)) := by
  refine ⟨fun lambda0 lambda1 mu h0 h1 hmu =>
    derived_probabilities_exact_interval lambda0 lambda1 mu h0 h1 hmu, ?_⟩
  intro lambda0 lambda1 mu h0 h1 hmu f0 f1 fm _ _
  refine ⟨?_, ?_, ?_, ?_⟩
  · have := f64_quotient_unit mu lambda1 hmu h1.le fm
    rwa [add_comm mu lambda1] at this
  · exact f64_quotient_unit lambda1 mu h1 hmu.le f1
  · have := f64_quotient_unit mu lambda0 hmu h0.le fm
    rwa [add_comm mu lambda0] at this
  · exact f64_quotient_unit lambda0 mu h0 hmu.le f0

/-- Witness of C11 (as the code behaves): the rates of `main`. -/
theorem derived_probabilities_in_unit_interval_witness :
    ((0 : ℚ) < 1 / 200 ∧ (0 : ℚ) < 1 / 400 ∧ (0 : ℚ) < 1 / 250) ∧
    (0 < mainLambda0 ∧ 0 < mainLambda1 ∧ 0 < mainMu ∧
      IsF64 mainLambda0 ∧ IsF64 mainLambda1 ∧ IsF64 mainMu ∧
      mainLambda0 + mainMu ≤ 2 ^ 1023 ∧ mainLambda1 + mainMu ≤ 2 ^ 1023) ∧
    ((0 < P01 (1 / 400 : ℚ) (1 / 250) ∧ P01 (1 / 400 : ℚ) (1 / 250) < 1) ∧
      (0 < P0T (1 / 400 : ℚ) (1 / 250) ∧ P0T (1 / 400 : ℚ) (1 / 250) < 1) ∧
      (0 < P10 (1 / 200 : ℚ) (1 / 250) ∧ P10 (1 / 200 : ℚ) (1 / 250) < 1) ∧
      (0 < P1T (1 / 200 : ℚ) (1 / 250) ∧ P1T (1 / 200 : ℚ) (1 / 250) < 1)) ∧
    ((0 ≤ P01_f64 mainLambda1 mainMu ∧ P01_f64 mainLambda1 mainMu ≤ 1) ∧
      (0 ≤ P0T_f64 mainLambda1 mainMu ∧ P0T_f64 mainLambda1 mainMu ≤ 1) ∧
      (0 ≤ P10_f64 mainLambda0 mainMu ∧ P10_f64 mainLambda0 mainMu ≤ 1) ∧
      (0 ≤ P1T_f64 mainLambda0 mainMu ∧ P1T_f64 mainLambda0 mainMu ≤ 1)) := by
  obtain ⟨h0, h1, hm⟩ := main_rates_values
  have p0 : 0 < mainLambda0 := by rw [h0]; norm_num
  have p1 : 0 < mainLambda1 := by rw [h1]; norm_num
  have pm : 0 < mainMu := by rw [hm]; norm_num
  have n2 : mainLambda0 + mainMu ≤ 2 ^ 1023 := by rw [h0, hm]; norm_num
  have n4 : mainLambda1 + mainMu ≤ 2 ^ 1023 := by rw [h1, hm]; norm_num
  have f0 : IsF64 mainLambda0 := by
    rw [IsF64, h0]
    exact f64_eval _ _ (-8) 5764607523034235 (by norm_num) (by norm_num) (by norm_num)
      (by norm_num) (by norm_num) (by norm_num) (by norm_num)
  have f1 : IsF64 mainLambda1 := by
    rw [IsF64, h1]
    exact f64_eval _ _ (-9) 5764607523034235 (by norm_num) (by norm_num) (by norm_num)
      (by norm_num) (by norm_num) (by norm_num) (by norm_num)
  have fm : IsF64 mainMu := by
    rw [IsF64, hm]
    exact f64_eval _ _ (-8) 4611686018427388 (by norm_num) (by norm_num) (by norm_num)
      (by norm_num) (by norm_num) (by norm_num) (by norm_num)
  exact ⟨⟨by norm_num, by norm_num, by norm_num⟩, ⟨p0, p1, pm, f0, f1, fm, n2, n4⟩,
    (@derived_probabilities_in_unit_interval ℚ _).1 (1 / 200) (1 / 400) (1 / 250)
      (by norm_num) (by norm_num) (by norm_num),
    (@derived_probabilities_in_unit_interval ℚ _).2 mainLambda0 mainLambda1 mainMu p0 p1 pm
      f0 f1 fm n2 n4⟩

/-! ## Draws as float64 values -/

/-- The largest float64 below 1 is `1 - 2^-53`. -/
theorem isUnitF64_le (u : ℚ) (h : IsUnitF64 u) : u ≤ 1 - 1 / 2 ^ 53 := by
  obtain ⟨h0, h1, hf⟩ := h
  by_contra hgt
  have hgt' : 1 - 1 / 2 ^ 53 < u := not_le.1 hgt
  have hpos : 0 < u := lt_trans (by norm_num) hgt'
  have hexp : f64Exponent u = -1 :=
    f64Exponent_eq u (-1) hpos (by norm_num; linarith) (by norm_num; linarith) (by norm_num)
  have hu : (2 : ℚ) ^ ((-1 : Int) - 52) = 1 / 2 ^ 53 := by norm_num
  rw [IsF64, f64, hexp, hu] at hf
  have hq : (roundHalfEven (u / (1 / 2 ^ 53)) : ℚ) = u * 2 ^ 53 := by
    have : (roundHalfEven (u / (1 / 2 ^ 53)) : ℚ) = u / (1 / 2 ^ 53) := by
      field_simp at hf ⊢
      linarith
    rw [this]; field_simp
  have a : ((2 ^ 53 - 1 : Int) : ℚ) < (roundHalfEven (u / (1 / 2 ^ 53)) : ℚ) := by
    rw [hq]; push_cast; linarith
  have b : (roundHalfEven (u / (1 / 2 ^ 53)) : ℚ) < ((2 ^ 53 : Int) : ℚ) := by
    rw [hq]; push_cast; linarith
  have a' : (2 ^ 53 - 1 : Int) < roundHalfEven (u / (1 / 2 ^ 53)) := by exact_mod_cast a
  have b' : roundHalfEven (u / (1 / 2 ^ 53)) < (2 ^ 53 : Int) := by exact_mod_cast b
  omega

theorem isUnitF64_zero : IsUnitF64 0 := ⟨le_rfl, by norm_num, f64_zero⟩

theorem isUnitF64_pred_one : IsUnitF64 (1 - 1 / 2 ^ 53) :=
  ⟨by norm_num, by norm_num,
    f64_eval _ _ (-1) (2 ^ 53 - 1) (by norm_num) (by norm_num) (by norm_num) (by norm_num)
      (by norm_num) (by norm_num) (by norm_num)⟩

/-- C14 fails on the code for a threshold next to 1: with `P01 = 1 - 2^-53` (a float64
below 1) every float64 draw in [0,1) is at most `P01`, so from start state 0 no
sequence of such draws makes `wifi_visit` return a path of length 1. -/
theorem wifi_visit_length_one_unreachable :
    ((0 : ℚ) ≤ 1 - 1 / 2 ^ 53 ∧ (1 - 1 / 2 ^ 53 : ℚ) < 1 ∧ IsF64 (1 - 1 / 2 ^ 53) ∧
      (0 : ℚ) ≤ 1 / 2 ∧ (1 / 2 : ℚ) < 1) ∧
    ¬ ∃ draws : Nat → ℚ, (∀ i, IsUnitF64 (draws i)) ∧
      ∃ (fuel : Nat) (r : VisitResult),
        wifi_visit fuel draws 0 0 (1 / 2) (1 - 1 / 2 ^ 53) (1 / 2) (1 / 2 ^ 53)
          initialTransitionCount = some r ∧ r.wifiVisit.length = 1 := by
  refine ⟨⟨by norm_num, by norm_num, isUnitF64_pred_one.2.2, by norm_num, by norm_num⟩, ?_⟩
  rintro ⟨draws, hd, fuel, r, hr, hlen⟩
  cases fuel with
  | zero => simp [wifi_visit, wifi_visit_loop] at hr
  | succ fuel =>
    have hU : draws 0 ≤ 1 - 1 / 2 ^ 53 := isUnitF64_le _ (hd 0)
    simp only [wifi_visit, wifi_visit_loop, if_true, hU] at hr
    obtain ⟨m, -, hp, -, -, -⟩ := wifi_visit_loop_spec draws (1 / 2) (1 - 1 / 2 ^ 53) fuel 1 _
      ([0] ++ [1]) _ _ r (Or.inr rfl) hr
    rw [hp] at hlen
    simp at hlen

/-- Draws below both thresholds at offsets `0 .. m-1` and, at offset `m`, above the
threshold of the state reached there make the loop append exactly `m` states. -/
theorem wifi_visit_loop_run_end (draws : Nat → K) (P10 P01 : K) :
    ∀ (m : Nat) (state c : Int) (path : List Int) (tc : TransitionCount) (pos : Nat),
      (state = 0 ∨ state = 1) →
      (∀ j, j < m → draws (pos + j) ≤ P01 ∧ draws (pos + j) ≤ P10) →
      ((state :: altPath (1 - state) m).getLast? = some 0 → P01 < draws (pos + m)) →
      ((state :: altPath (1 - state) m).getLast? = some 1 → P10 < draws (pos + m)) →
      ∃ r, wifi_visit_loop draws P10 P01 (m + 1) state c path tc pos = some r ∧
        r.wifiVisit.length = path.length + m := by
  intro m
  induction m with
  | zero =>
    intro state c path tc pos hs _ h01 h10
    rw [Nat.add_zero] at h01 h10
    rcases hs with rfl | rfl
    · have h := h01 (by simp [altPath])
      exact ⟨⟨c, path, tc.add "P0T" 1, pos + 1⟩,
        by simp [wifi_visit_loop, not_le.2 h], rfl⟩
    · have h := h10 (by simp [altPath])
      exact ⟨⟨c, path, tc.add "P1T" 1, pos + 1⟩,
        by simp [wifi_visit_loop, not_le.2 h], rfl⟩
  | succ m ih =>
    intro state c path tc pos hs hlow h01 h10
    have e : pos + (m + 1) = pos + 1 + m := by omega
    rw [e] at h01 h10
    have hU := hlow 0 (Nat.succ_pos m)
    rw [Nat.add_zero] at hU
    have hlow2 : ∀ j, j < m → draws (pos + 1 + j) ≤ P01 ∧ draws (pos + 1 + j) ≤ P10 := by
      intro j hj
      have := hlow (j + 1) (by omega)
      have e2 : pos + (j + 1) = pos + 1 + j := by omega
      rwa [e2] at this
    rw [wifi_visit_loop]
    rcases hs with rfl | rfl
    · simp only [if_true, hU.1]
      obtain ⟨r, hr, hlen⟩ := ih 1 (c + 1) (path ++ [1]) (tc.add "P01" 1) (pos + 1)
        (Or.inr rfl) hlow2
        (fun hl => h01 (by simpa [altPath, List.getLast?_cons_cons] using hl))
        (fun hl => h10 (by simpa [altPath, List.getLast?_cons_cons] using hl))
      exact ⟨r, hr, by rw [hlen, List.length_append]; simp; omega⟩
    · simp only [one_ne_zero, if_false, if_true, hU.2]
      obtain ⟨r, hr, hlen⟩ := ih 0 c (path ++ [0]) (tc.add "P10" 1) (pos + 1)
        (Or.inl rfl) hlow2
        (fun hl => h01 (by simpa [altPath, List.getLast?_cons_cons] using hl))
        (fun hl => h10 (by simpa [altPath, List.getLast?_cons_cons] using hl))
      exact ⟨r, hr, by rw [hlen, List.length_append]; simp; omega⟩

/-- C14 (as the code behaves): no step cap.  For a start state in {0,1}, thresholds with
`0 <= P01 < 1` and `0 <= P10 < 1`, and a length `L >= 1` such that the threshold of
the state in which the alternating path of length `L` ends is below `1 - 2^-53`, the
largest float64 under 1 (`P01` if it ends in 0, `P10` if it ends in 1), there are
draws, all float64 values in [0,1), on which `wifi_visit` returns a path of length
exactly `L`. -/
theorem wifi_visit_any_length (pos : Nat) (s : Int) (P10 P01 P1T P0T : ℚ)
    (tc : TransitionCount) (L : Nat) (hs : s = 0 ∨ s = 1) (h01 : 0 ≤ P01) (_h01' : P01 < 1)
    (h10 : 0 ≤ P10) (_h10' : P10 < 1) (hL : 1 ≤ L)
    (hend0 : (altPath s L).getLast? = some 0 → P01 < 1 - 1 / 2 ^ 53)
    (hend1 : (altPath s L).getLast? = some 1 → P10 < 1 - 1 / 2 ^ 53) :
    ∃ draws : Nat → ℚ, (∀ i, IsUnitF64 (draws i)) ∧
      ∃ (fuel : Nat) (r : VisitResult),
        wifi_visit fuel draws pos s P10 P01 P1T P0T tc = some r ∧ r.wifiVisit.length = L := by
  obtain ⟨m, rfl⟩ : ∃ m, L = m + 1 := ⟨L - 1, by omega⟩
  rw [altPath] at hend0 hend1
  refine ⟨fun i => if i < pos + m then 0 else 1 - 1 / 2 ^ 53, ?_, ?_⟩
  · intro i
    by_cases hi : i < pos + m
    · simp only [hi, if_true]
      exact isUnitF64_zero
    · simp only [hi, if_false]
      exact isUnitF64_pred_one
  · have hhigh : ¬ (pos + m < pos + m) := lt_irrefl _
    obtain ⟨r, hr, hlen⟩ := wifi_visit_loop_run_end
      (fun i => if i < pos + m then (0 : ℚ) else 1 - 1 / 2 ^ 53) P10 P01 m s
      (if s = 1 then 0 + 1 else 0) [s] tc pos hs
      (by
        intro j hj
        have : pos + j < pos + m := by omega
        simp only [this, if_true]
        exact ⟨h01, h10⟩)
      (by
        intro hl
        simp only [hhigh, if_false]
        exact hend0 hl)
      (by
        intro hl
        simp only [hhigh, if_false]
        exact hend1 hl)
    refine ⟨m + 1, r, hr, ?_⟩
    rw [hlen]
    simp
    omega

/-- Witness of C14 (as the code behaves): start state 1, thresholds 4/9 and 8/13,
length 3; the path ends in state 1, whose threshold is `P10` = 4/9. -/
theorem wifi_visit_any_length_witness :
    (((1 : Int) = 0 ∨ (1 : Int) = 1) ∧ (0 : ℚ) ≤ 8 / 13 ∧ (8 / 13 : ℚ) < 1 ∧
      (0 : ℚ) ≤ 4 / 9 ∧ (4 / 9 : ℚ) < 1 ∧ 1 ≤ 3 ∧
      (altPath 1 3).getLast? = some 1 ∧ (4 / 9 : ℚ) < 1 - 1 / 2 ^ 53) ∧
    ∃ draws : Nat → ℚ, (∀ i, IsUnitF64 (draws i)) ∧
      ∃ (fuel : Nat) (r : VisitResult),
        wifi_visit fuel draws 0 1 (4 / 9) (8 / 13) (5 / 9) (5 / 13) initialTransitionCount
          = some r ∧ r.wifiVisit.length = 3 :=
  ⟨⟨Or.inr rfl, by norm_num, by norm_num, by norm_num, by norm_num, by norm_num,
      by simp [altPath], by norm_num⟩,
    wifi_visit_any_length 0 1 (4 / 9 : ℚ) (8 / 13) (5 / 9) (5 / 13) initialTransitionCount 3
      (Or.inr rfl) (by norm_num) (by norm_num) (by norm_num) (by norm_num) (by norm_num)
      (fun hl => by simp [altPath] at hl) (fun _ => by norm_num)⟩

/-! ## Percent error -/

/-- The constant of the comparisons is the float64 nearest to 10⁻¹⁰. -/
theorem float1eMinus10_value : (float1eMinus10 : ℚ) = f64 (1 / 10 ^ 10) := by
  rw [float1eMinus10]
  exact (f64_eval (1 / 10 ^ 10) (7737125245533627 / 2 ^ 86) (-34) 7737125245533627
    (by norm_num) (by norm_num) (by norm_num) (by norm_num) (by norm_num) (by norm_num)
    (by norm_num)).symm

theorem percentErrorStr_rule (analysis simulation : K) :
    (simulation > float1eMinus10 → simulation ≠ 0 ∧ percentErrorStr analysis simulation
        = PercentError.ratio (|simulation - analysis| / simulation * 100)) ∧
    ((∃ e, percentErrorStr analysis simulation = PercentError.ratio e) →
      simulation > float1eMinus10) ∧
    (simulation ≤ float1eMinus10 → analysis > float1eMinus10 →
      percentErrorStr analysis simulation = PercentError.unbounded) ∧
    (simulation ≤ float1eMinus10 → analysis ≤ float1eMinus10 →
      percentErrorStr analysis simulation = PercentError.zero) := by
  have hpos : (0 : K) < float1eMinus10 := by unfold float1eMinus10; positivity
  refine ⟨?_, ?_, ?_, ?_⟩
  · intro h
    exact ⟨ne_of_gt (lt_trans hpos h), by simp [percentErrorStr, h]⟩
  · rintro ⟨e, he⟩
    by_contra h
    unfold percentErrorStr at he
    rw [if_neg h] at he
    split_ifs at he
  · intro h1 h2
    simp [percentErrorStr, not_lt.2 h1, h2]
  · intro h1 h2
    simp [percentErrorStr, not_lt.2 h1, not_lt.2 h2]

/-- The lines printed by the inner loop of one case. -/
theorem foldl_reportRow_rows_eq (lambda0 lambda1 mu : K) (counter : Int)
    (hist : GoMap keyProbability Int) (c : String × (K → K → K → Int → K))
    (ns : List Int) : ∀ acc : Report K,
    (ns.foldl (reportRow lambda0 lambda1 mu counter hist c) acc).rows
      = acc.rows ++ ns.map (fun n => (⟨c.1, n, c.2 lambda0 lambda1 mu n,
          ((hist.get ⟨c.1, n⟩ : Int) : K) / ((counter : Int) : K),
          percentErrorStr (c.2 lambda0 lambda1 mu n)
            (((hist.get ⟨c.1, n⟩ : Int) : K) / ((counter : Int) : K))⟩ : Row K)) := by
  induction ns with
  | nil => intro acc; simp
  | cons a ns ih =>
    intro acc
    rw [List.foldl_cons, ih]
    simp [reportRow]

/-- The `analysisSum` entry of `x` after the inner loop of one case. -/
theorem foldl_reportRow_analysisSum (lambda0 lambda1 mu : K) (counter : Int)
    (hist : GoMap keyProbability Int) (c : String × (K → K → K → Int → K)) (x : Int)
    (ns : List Int) : ∀ acc : Report K,
    (ns.foldl (reportRow lambda0 lambda1 mu counter hist c) acc).analysisSum.get x
      = acc.analysisSum.get x + (ns.count x : K) * c.2 lambda0 lambda1 mu x := by
  induction ns with
  | nil => intro acc; simp
  | cons a ns ih =>
    intro acc
    rw [List.foldl_cons, ih]
    simp only [reportRow, GoMap.get_add, List.count_cons]
    by_cases ha : a = x
    · subst ha; simp; ring
    · simp [ha]

theorem reportCases_analysisSum (lambda0 lambda1 mu : K) (counter : Int)
    (hist : GoMap keyProbability Int) (maxN x : Int) :
    (reportCases lambda0 lambda1 mu counter hist maxN).analysisSum.get x
      = if 0 ≤ x ∧ x ≤ maxN then
          case1 lambda0 lambda1 mu x + case2 lambda0 lambda1 mu x
            + case3 lambda0 lambda1 mu x + case4 lambda0 lambda1 mu x
        else 0 := by
  simp only [reportCases, caseTable, List.foldl_cons, List.foldl_nil,
    foldl_reportRow_analysisSum, count_nRange]
  split_ifs with h
  · simp [GoMap.get]
  · simp [GoMap.get]

theorem reportCases_rows_eq (lambda0 lambda1 mu : K) (counter : Int)
    (hist : GoMap keyProbability Int) (maxN : Int) :
    (reportCases lambda0 lambda1 mu counter hist maxN).rows
      = (nRange maxN).map (fun n => (⟨"case1", n, case1 lambda0 lambda1 mu n,
            ((hist.get ⟨"case1", n⟩ : Int) : K) / ((counter : Int) : K),
            percentErrorStr (case1 lambda0 lambda1 mu n)
              (((hist.get ⟨"case1", n⟩ : Int) : K) / ((counter : Int) : K))⟩ : Row K))
        ++ (nRange maxN).map (fun n => (⟨"case2", n, case2 lambda0 lambda1 mu n,
            ((hist.get ⟨"case2", n⟩ : Int) : K) / ((counter : Int) : K),
            percentErrorStr (case2 lambda0 lambda1 mu n)
              (((hist.get ⟨"case2", n⟩ : Int) : K) / ((counter : Int) : K))⟩ : Row K))
        ++ (nRange maxN).map (fun n => (⟨"case3", n, case3 lambda0 lambda1 mu n,
            ((hist.get ⟨"case3", n⟩ : Int) : K) / ((counter : Int) : K),
            percentErrorStr (case3 lambda0 lambda1 mu n)
              (((hist.get ⟨"case3", n⟩ : Int) : K) / ((counter : Int) : K))⟩ : Row K))
        ++ (nRange maxN).map (fun n => (⟨"case4", n, case4 lambda0 lambda1 mu n,
            ((hist.get ⟨"case4", n⟩ : Int) : K) / ((counter : Int) : K),
            percentErrorStr (case4 lambda0 lambda1 mu n)
              (((hist.get ⟨"case4", n⟩ : Int) : K) / ((counter : Int) : K))⟩ : Row K)) := by
  simp only [reportCases, caseTable, List.foldl_cons, List.foldl_nil,
    foldl_reportRow_rows_eq, List.nil_append]

/-- C9: what `runSimulations` prints.  The four per-case tables hold, for each case and
each `n` from 0 to the largest count, the analytical value `case_k(n)`, the empirical
value `wifi_visit_case[(case_k, n)] / T` and the percent-error text of that pair; the
table of sums holds, for each `n`, the sum of the four analytical values, the sum of
the four empirical values and the percent-error text of that pair.  The text follows
one rule for every pair: the ratio `|simulation - analysis| / simulation * 100` is
computed exactly when `simulation > 1e-10` (the float64 constant), and then the
divisor is not zero; when `simulation <= 1e-10` and the analytical value is not
numerically zero (`analysis > 1e-10`) the unbounded sentinel is reported; when both are
numerically zero (`<= 1e-10`) the text is the exact zero. -/
theorem runSimulations_percent_error (fuel : Nat) (draws : Nat → K) (pos : Nat)
    (counter : Int) (ET0 ET1 P10 P01 P1T P0T lambda0 lambda1 mu : K) (tc : TransitionCount)
    (res : SimResult K)
    (h : runSimulations fuel draws pos counter ET0 ET1 P10 P01 P1T P0T lambda0 lambda1 mu tc
      = some res) :
    res.caseRows
      = (nRange (maxKey res.freq)).map (fun n => (⟨"case1", n, case1 lambda0 lambda1 mu n,
            ((res.wifi_visit_case.get ⟨"case1", n⟩ : Int) : K) / ((counter : Int) : K),
            percentErrorStr (case1 lambda0 lambda1 mu n)
              (((res.wifi_visit_case.get ⟨"case1", n⟩ : Int) : K) / ((counter : Int) : K))⟩
            : Row K))
        ++ (nRange (maxKey res.freq)).map (fun n => (⟨"case2", n, case2 lambda0 lambda1 mu n,
            ((res.wifi_visit_case.get ⟨"case2", n⟩ : Int) : K) / ((counter : Int) : K),
            percentErrorStr (case2 lambda0 lambda1 mu n)
              (((res.wifi_visit_case.get ⟨"case2", n⟩ : Int) : K) / ((counter : Int) : K))⟩
            : Row K))
        ++ (nRange (maxKey res.freq)).map (fun n => (⟨"case3", n, case3 lambda0 lambda1 mu n,
            ((res.wifi_visit_case.get ⟨"case3", n⟩ : Int) : K) / ((counter : Int) : K),
            percentErrorStr (case3 lambda0 lambda1 mu n)
              (((res.wifi_visit_case.get ⟨"case3", n⟩ : Int) : K) / ((counter : Int) : K))⟩
            : Row K))
        ++ (nRange (maxKey res.freq)).map (fun n => (⟨"case4", n, case4 lambda0 lambda1 mu n,
            ((res.wifi_visit_case.get ⟨"case4", n⟩ : Int) : K) / ((counter : Int) : K),
            percentErrorStr (case4 lambda0 lambda1 mu n)
              (((res.wifi_visit_case.get ⟨"case4", n⟩ : Int) : K) / ((counter : Int) : K))⟩
            : Row K)) ∧
    res.sumRows
      = (nRange (maxKey res.freq)).map (fun n => (⟨"sum", n,
            case1 lambda0 lambda1 mu n + case2 lambda0 lambda1 mu n
              + case3 lambda0 lambda1 mu n + case4 lambda0 lambda1 mu n,
            ((res.wifi_visit_case.get ⟨"case1", n⟩ : Int) : K) / ((counter : Int) : K)
              + ((res.wifi_visit_case.get ⟨"case2", n⟩ : Int) : K) / ((counter : Int) : K)
              + ((res.wifi_visit_case.get ⟨"case3", n⟩ : Int) : K) / ((counter : Int) : K)
              + ((res.wifi_visit_case.get ⟨"case4", n⟩ : Int) : K) / ((counter : Int) : K),
            percentErrorStr
              (case1 lambda0 lambda1 mu n + case2 lambda0 lambda1 mu n
                + case3 lambda0 lambda1 mu n + case4 lambda0 lambda1 mu n)
              (((res.wifi_visit_case.get ⟨"case1", n⟩ : Int) : K) / ((counter : Int) : K)
                + ((res.wifi_visit_case.get ⟨"case2", n⟩ : Int) : K) / ((counter : Int) : K)
                + ((res.wifi_visit_case.get ⟨"case3", n⟩ : Int) : K) / ((counter : Int) : K)
                + ((res.wifi_visit_case.get ⟨"case4", n⟩ : Int) : K) / ((counter : Int) : K))⟩
            : Row K)) ∧
    (float1eMinus10 : K) = 7737125245533627 / 2 ^ 86 ∧
    (float1eMinus10 : ℚ) = f64 (1 / 10 ^ 10) ∧
    ∀ analysis simulation : K,
      (simulation > float1eMinus10 → simulation ≠ 0 ∧ percentErrorStr analysis simulation
          = PercentError.ratio (|simulation - analysis| / simulation * 100)) ∧
      ((∃ e, percentErrorStr analysis simulation = PercentError.ratio e) →
        simulation > float1eMinus10) ∧
      (simulation ≤ float1eMinus10 → analysis > float1eMinus10 →
        percentErrorStr analysis simulation = PercentError.unbounded) ∧
      (simulation ≤ float1eMinus10 → analysis ≤ float1eMinus10 →
        percentErrorStr analysis simulation = PercentError.zero) := by
  unfold runSimulations at h
  cases hl : simLoop fuel draws ET0 ET1 P10 P01 P1T P0T counter.toNat ⟨[], [], tc, pos⟩ with
  | none => simp [hl] at h
  | some s =>
    simp only [hl, Option.some.injEq] at h
    subst h
    refine ⟨reportCases_rows_eq lambda0 lambda1 mu counter s.wifi_visit_case (maxKey s.freq),
      ?_, rfl, float1eMinus10_value, percentErrorStr_rule⟩
    simp only [sumRows]
    refine List.map_congr_left ?_
    intro n hn
    have hn' := (mem_nRange (maxKey s.freq) n).1 hn
    have ea := reportCases_analysisSum lambda0 lambda1 mu counter s.wifi_visit_case
      (maxKey s.freq) n
    have es := reportCases_simulationSum lambda0 lambda1 mu counter s.wifi_visit_case
      (maxKey s.freq) n
    rw [if_pos hn'] at ea es
    have es' : (reportCases lambda0 lambda1 mu counter s.wifi_visit_case
        (maxKey s.freq)).simulationSum.get n
        = ((s.wifi_visit_case.get ⟨"case1", n⟩ : Int) : K) / ((counter : Int) : K)
          + ((s.wifi_visit_case.get ⟨"case2", n⟩ : Int) : K) / ((counter : Int) : K)
          + ((s.wifi_visit_case.get ⟨"case3", n⟩ : Int) : K) / ((counter : Int) : K)
          + ((s.wifi_visit_case.get ⟨"case4", n⟩ : Int) : K) / ((counter : Int) : K) := by
      rw [es]; push_cast; ring
    rw [ea, es']

/-- Witness of C9: the experiment of one trial used for C5 (draws 1/2, 1/5, 9/10, path
[1, 0]); its tables have a line for `n = 0` and for `n = 1`. -/
theorem runSimulations_percent_error_witness :
    ∃ res : SimResult ℚ,
      runSimulations 3 (fun i => if i = 0 then (1 / 2 : ℚ) else if i = 1 then 1 / 5 else 9 / 10)
          0 1 200 400 (4 / 9) (8 / 13) (5 / 9) (5 / 13) (1 / 200) (1 / 400) (1 / 250)
          initialTransitionCount = some res ∧
      res.freq = [(1, 1)] ∧ nRange (maxKey res.freq) = [0, 1] ∧
      res.caseRows
        = (nRange (maxKey res.freq)).map (fun n => (⟨"case1", n, case1 (1 / 200) (1 / 400) (1 / 250) n,
              ((res.wifi_visit_case.get ⟨"case1", n⟩ : Int) : ℚ) / ((1 : Int) : ℚ),
              percentErrorStr (case1 (1 / 200) (1 / 400) (1 / 250) n)
                (((res.wifi_visit_case.get ⟨"case1", n⟩ : Int) : ℚ) / ((1 : Int) : ℚ))⟩
                : Row ℚ))
          ++ (nRange (maxKey res.freq)).map (fun n => (⟨"case2", n, case2 (1 / 200) (1 / 400) (1 / 250) n,
              ((res.wifi_visit_case.get ⟨"case2", n⟩ : Int) : ℚ) / ((1 : Int) : ℚ),
              percentErrorStr (case2 (1 / 200) (1 / 400) (1 / 250) n)
                (((res.wifi_visit_case.get ⟨"case2", n⟩ : Int) : ℚ) / ((1 : Int) : ℚ))⟩
                : Row ℚ))
          ++ (nRange (maxKey res.freq)).map (fun n => (⟨"case3", n, case3 (1 / 200) (1 / 400) (1 / 250) n,
              ((res.wifi_visit_case.get ⟨"case3", n⟩ : Int) : ℚ) / ((1 : Int) : ℚ),
              percentErrorStr (case3 (1 / 200) (1 / 400) (1 / 250) n)
                (((res.wifi_visit_case.get ⟨"case3", n⟩ : Int) : ℚ) / ((1 : Int) : ℚ))⟩
                : Row ℚ))
          ++ (nRange (maxKey res.freq)).map (fun n => (⟨"case4", n, case4 (1 / 200) (1 / 400) (1 / 250) n,
              ((res.wifi_visit_case.get ⟨"case4", n⟩ : Int) : ℚ) / ((1 : Int) : ℚ),
              percentErrorStr (case4 (1 / 200) (1 / 400) (1 / 250) n)
                (((res.wifi_visit_case.get ⟨"case4", n⟩ : Int) : ℚ) / ((1 : Int) : ℚ))⟩
                : Row ℚ)) ∧
      res.sumRows
        = (nRange (maxKey res.freq)).map (fun n => (⟨"sum", n,
              case1 (1 / 200) (1 / 400) (1 / 250) n + case2 (1 / 200) (1 / 400) (1 / 250) n
                + case3 (1 / 200) (1 / 400) (1 / 250) n + case4 (1 / 200) (1 / 400) (1 / 250) n,
              ((res.wifi_visit_case.get ⟨"case1", n⟩ : Int) : ℚ) / ((1 : Int) : ℚ)
                + ((res.wifi_visit_case.get ⟨"case2", n⟩ : Int) : ℚ) / ((1 : Int) : ℚ)
                + ((res.wifi_visit_case.get ⟨"case3", n⟩ : Int) : ℚ) / ((1 : Int) : ℚ)
                + ((res.wifi_visit_case.get ⟨"case4", n⟩ : Int) : ℚ) / ((1 : Int) : ℚ),
              percentErrorStr
                (case1 (1 / 200) (1 / 400) (1 / 250) n + case2 (1 / 200) (1 / 400) (1 / 250) n
                  + case3 (1 / 200) (1 / 400) (1 / 250) n + case4 (1 / 200) (1 / 400) (1 / 250) n)
                (((res.wifi_visit_case.get ⟨"case1", n⟩ : Int) : ℚ) / ((1 : Int) : ℚ)
                  + ((res.wifi_visit_case.get ⟨"case2", n⟩ : Int) : ℚ) / ((1 : Int) : ℚ)
                  + ((res.wifi_visit_case.get ⟨"case3", n⟩ : Int) : ℚ) / ((1 : Int) : ℚ)
                  + ((res.wifi_visit_case.get ⟨"case4", n⟩ : Int) : ℚ) / ((1 : Int) : ℚ))⟩
                : Row ℚ)) ∧
      (float1eMinus10 : ℚ) = 7737125245533627 / 2 ^ 86 ∧
      (float1eMinus10 : ℚ) = f64 (1 / 10 ^ 10) ∧
      ∀ analysis simulation : ℚ,
        (simulation > float1eMinus10 → simulation ≠ 0 ∧ percentErrorStr analysis simulation
            = PercentError.ratio (|simulation - analysis| / simulation * 100)) ∧
        ((∃ e, percentErrorStr analysis simulation = PercentError.ratio e) →
          simulation > float1eMinus10) ∧
        (simulation ≤ float1eMinus10 → analysis > float1eMinus10 →
          percentErrorStr analysis simulation = PercentError.unbounded) ∧
        (simulation ≤ float1eMinus10 → analysis ≤ float1eMinus10 →
          percentErrorStr analysis simulation = PercentError.zero) := by
  have hl : simLoop 3 (fun i => if i = 0 then (1 / 2 : ℚ) else if i = 1 then 1 / 5 else 9 / 10)
      200 400 (4 / 9) (8 / 13) (5 / 9) (5 / 13) 1 ⟨[], [], initialTransitionCount, 0⟩
      = some ⟨[(1, 1)], [(⟨"case2", 1⟩, 1)],
          [("P10", 1), ("P01", 0), ("P1T", 0), ("P0T", 1)], 3⟩ := by
    simp [simLoop, trial, initialstate, wifi_visit, wifi_visit_loop, classify, GoMap.add,
      initialTransitionCount]
    norm_num
  have hs : ∃ res : SimResult ℚ, runSimulations 3
      (fun i => if i = 0 then (1 / 2 : ℚ) else if i = 1 then 1 / 5 else 9 / 10)
      0 1 200 400 (4 / 9) (8 / 13) (5 / 9) (5 / 13) (1 / 200) (1 / 400) (1 / 250)
      initialTransitionCount = some res ∧ res.freq = [(1, 1)] := by
    simp only [runSimulations, Int.toNat_one, hl]
    exact ⟨_, rfl, rfl⟩
  obtain ⟨res, h, hf⟩ := hs
  have hr : nRange (maxKey res.freq) = [0, 1] := by
    rw [hf]
    simp [maxKey, GoMap.keys, nRange, List.range_succ]
  exact ⟨res, h, hf, hr,
    runSimulations_percent_error 3 _ 0 1 200 400 (4 / 9) (8 / 13) (5 / 9) (5 / 13) (1 / 200)
      (1 / 400) (1 / 250) initialTransitionCount res h⟩

end WifiVisit
